import Mathlib

/-! Key-value store: batch executor (entrega1) and session server (entrega2).

A shallow embedding of the C sources.  C strings are lists of bytes (the bytes
before the terminating NUL); file descriptors are explicit values that collect
what was written to them; global variables are fields of explicit state
records that the operations take and return.
-/

namespace KVS

/-! ## C strings and output descriptors -/

/-- A C string: the bytes that precede the terminating NUL. -/
abbrev CStr := List UInt8

/-- The bytes of an ASCII literal. -/
def str (s : String) : CStr := s.toList.map (fun c => UInt8.ofNat c.toNat)

/-- C `strcmp`, up to the magnitude of a nonzero result, which C leaves open:
negative, zero or positive as the first pair of bytes that differ (compared as
`unsigned char`) orders the strings; a string that ends first has its NUL
against a byte of the other string, which is not NUL, and is the smaller. -/
def strcmp : CStr → CStr → Int
  | [], [] => 0
  | [], _ :: _ => -1
  | _ :: _, [] => 1
  | a :: as, b :: bs =>
    if a = b then strcmp as bs else if a.toNat < b.toNat then -1 else 1

/-- C `snprintf(buffer, size, ...)` of an already formatted text: at most
`size - 1` bytes are stored. -/
def snprintf (size : Nat) (text : CStr) : CStr := text.take (size - 1)

/-- An open file descriptor: the bytes written to it so far and the number of
further `write_all` calls that succeed (`none`: every call succeeds). -/
structure Fd where
  data : List UInt8
  writes_left : Option Nat
deriving DecidableEq, Repr

/-- Source `write_all(fd, buf, len)` of operations.c: 0 when the `len` bytes were
written, -1 when a `write` failed. -/
def write_all (fd : Fd) (buf : CStr) (len : Nat) : Int × Fd :=
  match fd.writes_left with
  | none => (0, { fd with data := fd.data ++ buf.take len })
  | some 0 => (-1, fd)
  | some (n + 1) => (0, { data := fd.data ++ buf.take len, writes_left := some n })

/-! ## The KV table (kvs.h) -/

/-- A node of a bucket chain (`KeyNode` of kvs.h, with the fields `kvs_show`
reads); the `next` pointer is the tail of the list that holds the node. -/
structure KeyNode where
  key : CStr
  value : CStr
deriving DecidableEq, Repr

/-- The table (`struct HashTable` of kvs.h, as `kvs_show` reads it): `table[i]`
is the chain of bucket `i`, head first; the number of buckets, `TABLE_SIZE` in
the source, is the length of the list. -/
structure HashTable where
  table : List (List KeyNode)
deriving DecidableEq, Repr

/-- Modelled from the spec: the constant `TABLE_SIZE` of entrega1's constants.h,
which is not among the sources; the spec fixes the bucket count B = 8191. -/
def TABLE_SIZE : Nat := 8191

/-- Modelled from the spec: `create_hash_table` of kvs.c, which is not among the
sources: a table of `size` empty buckets. -/
def create_hash_table (size : Nat) : HashTable := ⟨List.replicate size []⟩

/-- Modelled from the spec: `hash` of kvs.c, which is not among the sources:
`h = 5381; for each byte c: h = h*33 + c; bucket = h mod B`. -/
def hash (size : Nat) (key : CStr) : Nat :=
  key.foldl (fun h c => h * 33 + c.toNat) 5381 % size

/-- Modelled from the spec: the chain walk of `read_pair` (kvs.c is not among
the sources): the value of the first node whose key is `key`. -/
def chain_find (key : CStr) : List KeyNode → Option CStr
  | [] => none
  | n :: rest => if strcmp n.key key = 0 then some n.value else chain_find key rest

/-- Modelled from the spec: the chain walk of `write_pair` (kvs.c is not among
the sources): overwrite in place the value of the first node whose key is
`key`, or append a new node at the end of the chain. -/
def chain_put (key value : CStr) : List KeyNode → List KeyNode
  | [] => [⟨key, value⟩]
  | n :: rest =>
    if strcmp n.key key = 0 then ⟨n.key, value⟩ :: rest else n :: chain_put key value rest

/-- Modelled from the spec: the chain walk of `delete_pair` (kvs.c is not among
the sources): unlink the first node whose key is `key`; `none` when there is
none. -/
def chain_remove (key : CStr) : List KeyNode → Option (List KeyNode)
  | [] => none
  | n :: rest =>
    if strcmp n.key key = 0 then some rest
    else match chain_remove key rest with
      | none => none
      | some rest' => some (n :: rest')

/-- Modelled from the spec: `read_pair` of kvs.c, which is not among the
sources (`get(key)`: the current value, or absent). -/
def read_pair (ht : HashTable) (key : CStr) : Option CStr :=
  chain_find key (ht.table.getD (hash ht.table.length key) [])

/-- Modelled from the spec: `write_pair` of kvs.c, which is not among the
sources (`put(key, value)`: overwrite in place, or append to the bucket chain
of `hash(key) mod B`); returns 0. -/
def write_pair (ht : HashTable) (key value : CStr) : Int × HashTable :=
  let index := hash ht.table.length key
  (0, ⟨ht.table.set index (chain_put key value (ht.table.getD index []))⟩)

/-- Modelled from the spec: `delete_pair` of kvs.c, which is not among the
sources (`delete(key)`: removes the pair if present and tells whether a pair
existed); returns 0 when a pair was removed and 1 when there was none. -/
def delete_pair (ht : HashTable) (key : CStr) : Int × HashTable :=
  let index := hash ht.table.length key
  match chain_remove key (ht.table.getD index []) with
  | none => (1, ht)
  | some chain => (0, ⟨ht.table.set index chain⟩)

/-! ## operations.c (entrega1) -/

/-- Source `kvs_init`: 1 when the table already exists, else the table is created. -/
def kvs_init (kvs_table : Option HashTable) : Int × Option HashTable :=
  match kvs_table with
  | some t => (1, some t)
  | none => (0, some (create_hash_table TABLE_SIZE))

/-- The loop of `kvs_write`: a failing `write_pair` is reported on stderr and
the loop goes on. -/
def kvs_write_loop : HashTable → List (CStr × CStr) → HashTable
  | ht, [] => ht
  | ht, (k, v) :: rest => kvs_write_loop (write_pair ht k v).2 rest

/-- Source `kvs_write(num_pairs, keys, values)`; the pairs are the first `num_pairs`
rows of both arrays. -/
def kvs_write (kvs_table : Option HashTable) (pairs : List (CStr × CStr)) :
    Int × Option HashTable :=
  match kvs_table with
  | none => (1, none)
  | some ht => (0, some (kvs_write_loop ht pairs))

/-- The body of the inner loop of `sortArray`: rows `i` and `j` are exchanged
when `strcmp(keys[i], keys[j]) > 0`. -/
def sortArray_step (i : Nat) (keys : List CStr) (j : Nat) : List CStr :=
  if strcmp (keys.getD i []) (keys.getD j []) > 0 then
    let temp := keys.getD i []
    (keys.set i (keys.getD j [])).set j temp
  else keys

/-- The inner loop of `sortArray`: `for (j = i + 1; j < rows; j++)`. -/
def sortArray_inner (rows : Nat) (keys : List CStr) (i : Nat) : List CStr :=
  (List.range' (i + 1) (rows - (i + 1))).foldl (sortArray_step i) keys

/-- Source `sortArray(keys, rows, cols)`: `for (i = 0; i < rows - 1; i++)` around the
inner loop. -/
def sortArray (keys : List CStr) (rows : Nat) : List CStr :=
  (List.range (rows - 1)).foldl (sortArray_inner rows) keys

/-- The text `kvs_read` formats for one key, and the size of its buffer. -/
def kvs_read_entry (ht : HashTable) (key : CStr) : CStr × Nat :=
  match read_pair ht key with
  | none =>
    let buffer_size := key.length + 12
    (snprintf buffer_size (str "(" ++ key ++ str ",KVSERROR)"), buffer_size)
  | some result =>
    let buffer_size := key.length + result.length + 4
    (snprintf buffer_size (str "(" ++ key ++ str "," ++ result ++ str ")"), buffer_size)

/-- The `for` loop of `kvs_read` over the sorted keys; 1 as soon as a write
fails. -/
def kvs_read_loop (ht : HashTable) : List CStr → Fd → Int × Fd
  | [], fd => (0, fd)
  | key :: rest, fd =>
    let (buffer, buffer_size) := kvs_read_entry ht key
    let (rc, fd1) := write_all fd buffer (buffer_size - 1)
    if rc < 0 then (1, fd1) else kvs_read_loop ht rest fd1

/-- Source `kvs_read(num_pairs, keys, fd_out)`; `keys` are the first `num_pairs` rows. -/
def kvs_read (kvs_table : Option HashTable) (keys : List CStr) (fd_out : Fd) : Int × Fd :=
  match kvs_table with
  | none => (1, fd_out)
  | some ht =>
    let keys := sortArray keys keys.length
    let (rc, fd1) := write_all fd_out (str "[") 1
    if rc < 0 then (1, fd1)
    else
      let (rc, fd2) := kvs_read_loop ht keys fd1
      if rc ≠ 0 then (1, fd2)
      else
        let (rc, fd3) := write_all fd2 (str "]\n") 2
        if rc < 0 then (1, fd3) else (0, fd3)

/-- The `for` loop of `kvs_delete`; `aux` tells whether `[` was written. The
first component is 1 when a write failed and the function returned early. -/
def kvs_delete_loop : List CStr → HashTable → Int → Fd → Int × HashTable × Int × Fd
  | [], ht, aux, fd => (0, ht, aux, fd)
  | key :: rest, ht, aux, fd =>
    let (rc, ht1) := delete_pair ht key
    if rc ≠ 0 then
      let (rc1, fd1) := if aux = 0 then write_all fd (str "[") 1 else (0, fd)
      if rc1 < 0 then (1, ht1, aux, fd1)
      else
        let buffer_size := key.length + 14
        let buffer := snprintf buffer_size (str "(" ++ key ++ str ",KVSMISSING)")
        let (rc2, fd2) := write_all fd1 buffer (buffer_size - 1)
        if rc2 < 0 then (1, ht1, 1, fd2) else kvs_delete_loop rest ht1 1 fd2
    else kvs_delete_loop rest ht1 aux fd

/-- Source `kvs_delete(num_pairs, keys, fd_out)`; `keys` are the first `num_pairs` rows. -/
def kvs_delete (kvs_table : Option HashTable) (keys : List CStr) (fd_out : Fd) :
    Int × Option HashTable × Fd :=
  match kvs_table with
  | none => (1, none, fd_out)
  | some ht =>
    let (rc, ht1, aux, fd1) := kvs_delete_loop keys ht 0 fd_out
    if rc ≠ 0 then (1, some ht1, fd1)
    else if aux ≠ 0 then
      let (rc2, fd2) := write_all fd1 (str "]\n") 2
      if rc2 < 0 then (1, some ht1, fd2) else (0, some ht1, fd2)
    else (0, some ht1, fd1)

/-- The `while (keyNode != NULL)` loop of `kvs_show` over one chain; `false`
when a write failed and `kvs_show` returned. -/
def kvs_show_chain : List KeyNode → Fd → Bool × Fd
  | [], fd => (true, fd)
  | keyNode :: next, fd =>
    let buffer_size := keyNode.key.length + keyNode.value.length + 6
    let buffer :=
      snprintf buffer_size (str "(" ++ keyNode.key ++ str ", " ++ keyNode.value ++ str ")\n")
    let (rc, fd1) := write_all fd buffer (buffer_size - 1)
    if rc < 0 then (false, fd1) else kvs_show_chain next fd1

/-- The `for (i = 0; i < TABLE_SIZE; i++)` loop of `kvs_show` over the buckets. -/
def kvs_show_buckets : List (List KeyNode) → Fd → Fd
  | [], fd => fd
  | chain :: buckets, fd =>
    let (ok, fd1) := kvs_show_chain chain fd
    if ok then kvs_show_buckets buckets fd1 else fd1

/-- Source `kvs_show(fd_out)`. -/
def kvs_show (ht : HashTable) (fd_out : Fd) : Fd := kvs_show_buckets ht.table fd_out

/-! ## main.c (entrega1): the gate and the script executor -/

/-- One command of a job script as the parser returns it (`get_next` and the
`parse_*` function of its case): an empty list stands for `num_pairs == 0`,
`wait none` for `parse_wait` returning -1.  `backup` carries what the
operating system decides: whether `fork` succeeds and how many children have
finished by the time the parent polls `waitpid`. -/
inductive Command where
  | write (pairs : List (CStr × CStr))
  | read (keys : List CStr)
  | delete (keys : List CStr)
  | show
  | wait (delay : Option Nat)
  | backup (fork_ok : Bool) (finished : Nat)
  | invalid
  | help
  | empty
deriving DecidableEq, Repr

/-- The globals of main.c and operations.c that `process_input` uses, the
descriptor of the `.out` file, its local `num_backups`, the number of snapshot
children not yet reaped, and the snapshots the children wrote (backup number and
file contents). -/
structure Job where
  kvs_table : Option HashTable
  fd_out : Fd
  read_show_active : Int
  write_delete_active : Int
  max_backups : Int
  pids_count : Int
  num_backups : Int
  children : Nat
  snapshots : List (Int × List UInt8)
deriving DecidableEq, Repr

/-- Source `read_show_backup_wait`: entry of a writer; `none` when the calling thread
waits on `command_cond` (with no other thread to wake it). -/
def read_show_backup_wait (s : Job) : Option Job :=
  if s.read_show_active > 0 then none
  else some { s with write_delete_active := s.write_delete_active + 1 }

/-- Source `write_delete_finished`: exit of a writer. -/
def write_delete_finished (s : Job) : Job :=
  { s with write_delete_active := s.write_delete_active - 1 }

/-- Source `write_delete_wait`: entry of a reader; `none` when the calling thread
waits on `command_cond`. -/
def write_delete_wait (s : Job) : Option Job :=
  if s.write_delete_active > 0 then none
  else some { s with read_show_active := s.read_show_active + 1 }

/-- Source `read_show_finished`: exit of a reader. -/
def read_show_finished (s : Job) : Job :=
  { s with read_show_active := s.read_show_active - 1 }

/-- The loop `while (pids_count >= max_backups) { wait(&status) ... }` of the
BACKUP case on (children, pids_count): every `wait` reaps one child; with no
child left `wait` fails at once and the loop never ends (`none`). -/
def backup_wait_loop (max_backups : Int) : Nat → Int → Option (Nat × Int)
  | 0, pids_count => if pids_count >= max_backups then none else some (0, pids_count)
  | children + 1, pids_count =>
    if pids_count >= max_backups then backup_wait_loop max_backups children (pids_count - 1)
    else some (children + 1, pids_count)

/-- One iteration of the `while (1)` loop of `process_input` for the command
just read; `none` when the thread never gets to read the next command. -/
def process_command (s : Job) : Command → Option Job
  | .write pairs =>
    match read_show_backup_wait s with
    | none => none
    | some s1 =>
      if pairs.length = 0 then
        some { s1 with write_delete_active := s1.write_delete_active - 1 }
      else
        let (_, t) := kvs_write s1.kvs_table pairs
        some (write_delete_finished { s1 with kvs_table := t })
  | .read keys =>
    match write_delete_wait s with
    | none => none
    | some s1 =>
      if keys.length = 0 then some (read_show_finished s1)
      else
        let (rc, fd) := kvs_read s1.kvs_table keys s1.fd_out
        let s2 := { s1 with fd_out := fd }
        let s3 := if rc ≠ 0 then read_show_finished s2 else s2
        some (read_show_finished s3)
  | .delete keys =>
    match read_show_backup_wait s with
    | none => none
    | some s1 =>
      if keys.length = 0 then some (write_delete_finished s1)
      else
        let (_, t, fd) := kvs_delete s1.kvs_table keys s1.fd_out
        some (write_delete_finished { s1 with kvs_table := t, fd_out := fd })
  | .show =>
    match write_delete_wait s with
    | none => none
    | some s1 =>
      match s1.kvs_table with
      | none => none
      | some ht => some (read_show_finished { s1 with fd_out := kvs_show ht s1.fd_out })
  | .wait none => some s
  | .wait (some delay) =>
    if delay > 0 then some { s with fd_out := (write_all s.fd_out (str "Waiting...\n") 11).2 }
    else some s
  | .backup fork_ok finished =>
    match write_delete_wait s with
    | none => none
    | some s1 =>
      match backup_wait_loop s1.max_backups s1.children s1.pids_count with
      | none => none
      | some (children, pids_count) =>
        let s2 := { s1 with children := children, pids_count := pids_count + 1 }
        if fork_ok then
          let snapshot : List (Int × List UInt8) :=
            match s2.kvs_table with
            | none => []
            | some ht => [(s2.num_backups, (kvs_show ht ⟨[], none⟩).data)]
          let reaped := min finished (s2.children + 1)
          some (read_show_finished
            { s2 with
              num_backups := s2.num_backups + 1
              children := s2.children + 1 - reaped
              pids_count := s2.pids_count - reaped
              snapshots := s2.snapshots ++ snapshot })
        else some (read_show_finished s2)
  | .invalid => some s
  | .help => some s
  | .empty => some s

/-- The `while (1)` loop of `process_input` on the commands of the script up to
`EOC`. -/
def process_input_loop : Job → List Command → Option Job
  | s, [] => some s
  | s, c :: rest =>
    match process_command s c with
    | none => none
    | some s1 => process_input_loop s1 rest

/-- Source `process_input`: the local `num_backups` is set to 1, then the loop runs. -/
def process_input (s : Job) (script : List Command) : Option Job :=
  process_input_loop { s with num_backups := 1 } script

/-- The state in which a worker starts a job on table `ht`: empty `.out` file
whose writes succeed, both gate counters 0, no snapshot child. -/
def Job.start (ht : HashTable) (max_backups : Int) : Job :=
  { kvs_table := some ht, fd_out := ⟨[], none⟩, read_show_active := 0,
    write_delete_active := 0, max_backups := max_backups, pids_count := 0,
    num_backups := 1, children := 0, snapshots := [] }

/-! ## Predicates used by the theorems -/

/-- Rows `0 .. i-1` are final: each is at most every later row. -/
def SortedUpTo (i : Nat) (keys : List CStr) : Prop :=
  ∀ a b, a < i → a < b → b < keys.length →
    strcmp (keys.getD a []) (keys.getD b []) ≤ 0

/-- Row `i` is at most every row strictly between `i` and `s`. -/
def MinUpTo (i s : Nat) (keys : List CStr) : Prop :=
  ∀ m, i < m → m < s → m < keys.length →
    strcmp (keys.getD i []) (keys.getD m []) ≤ 0

/-- No chain of the table holds a key twice. -/
def HashTable.wf (ht : HashTable) : Prop :=
  ∀ chain ∈ ht.table, (chain.map KeyNode.key).Nodup

/-! ## Texts and lists the specification names -/

/-- The entry READ reports for key `k`: `(k,v)` when the table holds `v` for
`k`, `(k,KVSERROR)` when `k` is absent. -/
def READ_entry (ht : HashTable) (k : CStr) : CStr :=
  match read_pair ht k with
  | some v => str "(" ++ k ++ str "," ++ v ++ str ")"
  | none => str "(" ++ k ++ str ",KVSERROR)"

/-- The entry `(k,v)` of a pair. -/
def pair_entry (p : CStr × CStr) : CStr := str "(" ++ p.1 ++ str "," ++ p.2 ++ str ")"

/-- The entry DELETE reports for a key without a pair. -/
def DELETE_entry (k : CStr) : CStr := str "(" ++ k ++ str ",KVSMISSING)"

/-- The line SHOW writes for a stored pair. -/
def SHOW_line (n : KeyNode) : CStr := str "(" ++ n.key ++ str ", " ++ n.value ++ str ")\n"

/-- The keys of a DELETE list that have no pair at the moment they are
processed, the earlier keys of the list having been deleted, in input order. -/
def missing_keys : HashTable → List CStr → List CStr
  | _, [] => []
  | ht, k :: ks =>
    if read_pair ht k = none then k :: missing_keys (delete_pair ht k).2 ks
    else missing_keys (delete_pair ht k).2 ks

/-- The table after the keys of a list were deleted one by one in input order. -/
def delete_all : HashTable → List CStr → HashTable
  | ht, [] => ht
  | ht, k :: ks => delete_all (delete_pair ht k).2 ks

/-! ## entrega2: constants (common/constants.h, server/constants.h, common/protocol.h) -/

/-- Maximum number of sessions. -/
def MAX_SESSION_COUNT : Nat := 8

/-- Maximum length of a key or value. -/
def MAX_STRING_SIZE : Nat := 40

/-- Maximum number of keys a client can subscribe. -/
def MAX_NUMBER_SUB : Nat := 10

/-- Size of a response buffer: opcode digit, status digit, NUL. -/
def MAX_RESPONSE_SIZE : Nat := 3

/-- Number of buckets of the Subscription Index. -/
def MAX_KEYS_COUNT : Nat := 8191

/-- Opcode of CONNECT. -/
def OP_CODE_CONNECT : Nat := 1

/-- Opcode of DISCONNECT. -/
def OP_CODE_DISCONNECT : Nat := 2

/-- Opcode of SUBSCRIBE. -/
def OP_CODE_SUBSCRIBE : Nat := 3

/-- Opcode of UNSUBSCRIBE. -/
def OP_CODE_UNSUBSCRIBE : Nat := 4

/-- Error status of connect, disconnect and unsubscribe. -/
def OP_CODE_ERROR_CDU : Nat := 1

/-- Error status of subscribe. -/
def OP_CODE_ERROR_S : Nat := 0

/-- Success status of connect, disconnect and unsubscribe. -/
def OP_CODE_OK_CDU : Nat := 0

/-- Success status of subscribe. -/
def OP_CODE_OK_S : Nat := 1

/-- The C expression `code + '0'` as a `char`. -/
def digit (code : Nat) : UInt8 := UInt8.ofNat (code + 48)

/-! ## entrega2: the Subscription Index (coperations.c) -/

/-- Source `chash(key)`: `hash` is an `unsigned long` (64 bits), `(hash << 5) + hash`
and the addition of the byte wrap modulo 2^64; the result is reduced modulo
`MAX_KEYS_COUNT`. -/
def chash (key : CStr) : Nat :=
  key.foldl (fun hash c => ((hash * 2 ^ 5 % 2 ^ 64 + hash) % 2 ^ 64 + c.toNat) % 2 ^ 64) 5381
    % MAX_KEYS_COUNT

/-- A bucket (`IntNode`): the entries `values[0 .. count-1]`; `count` is the
length of the list. -/
structure IntNode where
  values : List Int
deriving DecidableEq, Repr

/-- The index (`IntHashTable`): `nodes[i]` for every bucket number `i`. -/
structure IntHashTable where
  nodes : Nat → IntNode

/-- Source `create_int_hash_table`: every bucket has `count = 0`. -/
def create_int_hash_table : IntHashTable := ⟨fun _ => ⟨[]⟩⟩

/-- Source `add_key(ht, key, value)`: 1 when the bucket holds `MAX_SESSION_COUNT`
values, else the value is stored at `values[count++]` and 0 is returned. -/
def add_key (ht : IntHashTable) (key : CStr) (value : Int) : Int × IntHashTable :=
  let index := chash key
  let node := ht.nodes index
  if node.values.length ≥ MAX_SESSION_COUNT then (1, ht)
  else (0, ⟨fun i => if i = index then ⟨node.values ++ [value]⟩ else ht.nodes i⟩)

/-- The loop of `remove_key` on one bucket: at the first `i < count` with
`values[i] == value`, `values[i] = values[--count]`; `none` when no entry is
equal to `value`. -/
def node_remove (value : Int) (node : IntNode) : Option IntNode :=
  match (List.range node.values.length).find? (fun i => decide (node.values.getD i 0 = value)) with
  | none => none
  | some i =>
    let count := node.values.length - 1
    some ⟨(node.values.set i (node.values.getD count 0)).take count⟩

/-- Source `remove_key(ht, key, value)`: 0 when an entry was removed, 1 otherwise. -/
def remove_key (ht : IntHashTable) (key : CStr) (value : Int) : Int × IntHashTable :=
  let index := chash key
  match node_remove value (ht.nodes index) with
  | none => (1, ht)
  | some node => (0, ⟨fun i => if i = index then node else ht.nodes i⟩)

/-- Source `get_fds(ht, key, &count)`: a copy of the `count` values of the bucket of
`key`. -/
def get_fds (ht : IntHashTable) (key : CStr) : List Int := (ht.nodes (chash key)).values

/-- Source `subscribe_key_index_list(key, keys_list)`: the first of the
`MAX_NUMBER_SUB` rows equal to `key`, or -1. -/
def subscribe_key_index_list (key : CStr) (keys_list : List CStr) : Int :=
  match (List.range MAX_NUMBER_SUB).find? (fun i => decide (strcmp (keys_list.getD i []) key = 0)) with
  | some i => (i : Int)
  | none => -1

/-- Source `add_key_to_subscribed_list(key, keys_list, num_keys)`: 1 when a row equal
to `key` exists; else the first `MAX_STRING_SIZE` bytes of `key` are copied to
row `num_keys` and 0 is returned.  `none` when row `num_keys` is outside the
array (undefined behaviour). -/
def add_key_to_subscribed_list (key : CStr) (keys_list : List CStr) (num_keys : Int) :
    Option (Int × List CStr) :=
  if subscribe_key_index_list key keys_list ≠ -1 then some (1, keys_list)
  else if 0 ≤ num_keys ∧ num_keys < MAX_NUMBER_SUB then
    some (0, keys_list.set num_keys.toNat (key.take MAX_STRING_SIZE))
  else none

/-- The body of the loop of `remove_key_from_subscribed_list`: row `j + 1` is
copied to row `j`. -/
def shift_row (keys_list : List CStr) (j : Nat) : List CStr :=
  keys_list.set j ((keys_list.getD (j + 1) []).take MAX_STRING_SIZE)

/-- Source `remove_key_from_subscribed_list(key, keys_list, num_keys)`: 1 when no row
is equal to `key`; else the rows `index + 1 .. num_keys - 1` move one place
down (`for (j = index; j < num_keys - 1; j++)`) and 0 is returned.  `none` when
the loop reads a row outside the array (undefined behaviour). -/
def remove_key_from_subscribed_list (key : CStr) (keys_list : List CStr) (num_keys : Int) :
    Option (Int × List CStr) :=
  let index := subscribe_key_index_list key keys_list
  if index = -1 then some (1, keys_list)
  else if num_keys ≤ MAX_NUMBER_SUB then
    some (0, (List.range' index.toNat (num_keys - 1 - index).toNat).foldl shift_row keys_list)
  else none

/-! ## entrega2: session slots (client.h, client.c) -/

/-- A session slot (`ClientData`), without its mutex and condition variable:
`fds` are the request, response and notification descriptors, `keys` the
`MAX_NUMBER_SUB` rows of subscribed keys. -/
structure ClientData where
  fds : List Int
  num_keys : Int
  thread_id : Int
  active : Int
  keys : List CStr
  force_disconnect : Int
deriving DecidableEq, Repr

/-- What the handlers of one session read and write: the slot, the global
`subscribed_keys` and the pipe behind the response descriptor `fds[1]`. -/
structure Session where
  client_data : ClientData
  subscribed_keys : IntHashTable
  response : Fd

/-- The slot as `start_client_threads` initialises it. -/
def ClientData.init (thread_id : Int) : ClientData :=
  { fds := [-1, -1, -1], num_keys := 0, thread_id := thread_id, active := 0,
    keys := List.replicate MAX_NUMBER_SUB [], force_disconnect := 0 }

/-- The assignments of `activate_client` to the inactive slot it has found. -/
def ClientData.activate (c : ClientData) (request_fd response_fd notification_fd : Int) :
    ClientData :=
  { c with fds := [request_fd, response_fd, notification_fd], active := 1 }

/-- A freshly activated slot with an index and an empty response pipe whose
writes succeed. -/
def Session.fresh (thread_id : Int) (request_fd response_fd notification_fd : Int)
    (subscribed_keys : IntHashTable) : Session :=
  { client_data := (ClientData.init thread_id).activate request_fd response_fd notification_fd,
    subscribed_keys := subscribed_keys, response := ⟨[], none⟩ }

/-- The final `write_all(client_data->fds[1], fail ? response_wrong :
response_right, MAX_RESPONSE_SIZE-1)` of a handler; a failed write is only
reported on stderr. -/
def send_response (s : Session) (fail : Int) (response_wrong response_right : CStr) : Session :=
  { s with response :=
      (write_all s.response (if fail ≠ 0 then response_wrong else response_right)
        (MAX_RESPONSE_SIZE - 1)).2 }

/-- Source `client_subscribe_key(client_data, key)`; `kvs_key_exists` is the function
of operations.c (not among the sources) whose header says that it returns 0 if
the key exists and 1 otherwise. -/
def client_subscribe_key (kvs_key_exists : CStr → Int) (s : Session) (key : CStr) :
    Option Session :=
  let response_wrong := [digit OP_CODE_SUBSCRIBE, digit OP_CODE_ERROR_S, 0]
  let response_right := [digit OP_CODE_SUBSCRIBE, digit OP_CODE_OK_S, 0]
  if kvs_key_exists key ≠ 0 then some (send_response s 1 response_wrong response_right)
  else if s.client_data.num_keys ≥ MAX_NUMBER_SUB then
    some (send_response s 1 response_wrong response_right)
  else
    match add_key_to_subscribed_list key s.client_data.keys s.client_data.num_keys with
    | none => none
    | some (rc, keys) =>
      if rc ≠ 0 then
        some (send_response { s with client_data := { s.client_data with keys := keys } } 1
          response_wrong response_right)
      else
        let client_data :=
          { s.client_data with keys := keys, num_keys := s.client_data.num_keys + 1 }
        let subscribed_keys := (add_key s.subscribed_keys key (client_data.fds.getD 2 0)).2
        some (send_response { s with client_data := client_data, subscribed_keys := subscribed_keys }
          0 response_wrong response_right)

/-- Source `client_unsubscribe_key(client_data, key)`. -/
def client_unsubscribe_key (s : Session) (key : CStr) : Option Session :=
  let response_wrong := [digit OP_CODE_UNSUBSCRIBE, digit OP_CODE_ERROR_CDU, 0]
  let response_right := [digit OP_CODE_UNSUBSCRIBE, digit OP_CODE_OK_CDU, 0]
  match remove_key_from_subscribed_list key s.client_data.keys s.client_data.num_keys with
  | none => none
  | some (rc, keys) =>
    if rc ≠ 0 then
      some (send_response { s with client_data := { s.client_data with keys := keys } } 1
        response_wrong response_right)
    else
      let subscribed_keys := (remove_key s.subscribed_keys key (s.client_data.fds.getD 2 0)).2
      let client_data :=
        { s.client_data with keys := keys, num_keys := s.client_data.num_keys - 1 }
      some (send_response { s with client_data := client_data, subscribed_keys := subscribed_keys }
        0 response_wrong response_right)

/-- A SUBSCRIBE or UNSUBSCRIBE frame after its opcode byte: the
`MAX_STRING_SIZE` bytes of the key field. -/
inductive Request where
  | subscribe (key_field : List UInt8)
  | unsubscribe (key_field : List UInt8)
deriving DecidableEq, Repr

/-- The C string in the buffer `key[MAX_STRING_SIZE + 1]` of `client_thread`
after `read_all(fds[0], key, MAX_STRING_SIZE, ...)`: the bytes of the field
before its first NUL (the last byte of the buffer is always NUL). -/
def read_key (key_field : List UInt8) : CStr :=
  (key_field.take MAX_STRING_SIZE).takeWhile (fun b => b ≠ 0)

/-- The cases `OP_CODE_SUBSCRIBE` and `OP_CODE_UNSUBSCRIBE` of the `switch` of
`client_thread`. -/
def client_request (kvs_key_exists : CStr → Int) (s : Session) : Request → Option Session
  | .subscribe key_field => client_subscribe_key kvs_key_exists s (read_key key_field)
  | .unsubscribe key_field => client_unsubscribe_key s (read_key key_field)

/-- The frame loop of `client_thread` on a sequence of SUBSCRIBE and
UNSUBSCRIBE requests. -/
def client_requests (kvs_key_exists : CStr → Int) : Session → List Request → Option Session
  | s, [] => some s
  | s, r :: rest =>
    match client_request kvs_key_exists s r with
    | none => none
    | some s1 => client_requests kvs_key_exists s1 rest

/-- The bytes a handler wrote to the response pipe between two states. -/
def answer (s s1 : Session) : List UInt8 := s1.response.data.drop s.response.data.length

/-- The frame loop together with two counters: the SUBSCRIBE requests answered
OK (`31`) and the UNSUBSCRIBE requests answered OK (`40`). -/
def client_requests_counted (kvs_key_exists : CStr → Int) :
    Session → List Request → Nat → Nat → Option (Session × Nat × Nat)
  | s, [], n, m => some (s, n, m)
  | s, r :: rest, n, m =>
    match client_request kvs_key_exists s r with
    | none => none
    | some s1 =>
      match r with
      | .subscribe _ =>
        client_requests_counted kvs_key_exists s1 rest
          (if answer s s1 = str "31" then n + 1 else n) m
      | .unsubscribe _ =>
        client_requests_counted kvs_key_exists s1 rest n
          (if answer s s1 = str "40" then m + 1 else m)

/-- The key-field bytes a client sends for a key: the key padded with NUL to
`MAX_STRING_SIZE` bytes. -/
def key_field (key : CStr) : List UInt8 :=
  (key ++ List.replicate MAX_STRING_SIZE 0).take MAX_STRING_SIZE

/-- The subscribed-key list of a slot: its first `num_keys` rows. -/
def ClientData.subscribed (c : ClientData) : List CStr := c.keys.take c.num_keys.toNat

/-- The representation invariant of a slot in a session whose response pipe
accepts every write: `MAX_NUMBER_SUB` rows of at most `MAX_STRING_SIZE` bytes,
at most `MAX_NUMBER_SUB` subscribed keys, none of them twice. -/
def Session.ok (s : Session) : Prop :=
  s.client_data.keys.length = MAX_NUMBER_SUB ∧
  (∀ r ∈ s.client_data.keys, r.length ≤ MAX_STRING_SIZE) ∧
  s.client_data.num_keys ≤ MAX_NUMBER_SUB ∧
  s.client_data.subscribed.Nodup ∧
  s.response.writes_left = none

/-! ## Concrete sessions used to evaluate the handlers -/

/-- A KV table that holds exactly the listed keys, seen through
`kvs_key_exists`: 0 for a key of the list, 1 for any other key. -/
def kvs_key_exists_of (stored : List CStr) : CStr → Int :=
  fun key => if key ∈ stored then 0 else 1

/-- Nine keys of the same bucket: `chash` maps each of them to 6659. -/
def colliding_keys : List CStr :=
  [str "ar", str "akm", str "acvf", str "akfm", str "arwt", str "bhih", str "bozo",
   str "bwjv", str "celc"]

/-- The session of thread 0 right after `activate_client(3, 4, 5)`, with an
empty index. -/
def session0 : Session := Session.fresh 0 3 4 5 create_int_hash_table

/-- A slot subscribed to `a` and `b`, the handle 5 once in the bucket of each. -/
def session_ab : Session :=
  { client_data :=
      { fds := [3, 4, 5], num_keys := 2, thread_id := 0, active := 1,
        keys := str "a" :: str "b" :: List.replicate 8 [], force_disconnect := 0 },
    subscribed_keys := (add_key (add_key create_int_hash_table (str "a") 5).2 (str "b") 5).2,
    response := ⟨[], none⟩ }

/-! ## entrega2: teardown of a session (client.c) -/

/-- The function `disconnect_client(client_data, cdisconnected, lock)` on the
slot of a session, with the semaphore `client_sem`; `close` gives the result of
the system call `close` on a descriptor (0 or -1).  The request and the
notification descriptors are closed, the DISCONNECT response is sent unless
the client is already disconnected, `remove_key` is called for the rows
`0 .. num_keys-1`, the slot is cleared and `sem_post` adds one permit.  `none`
when the loop reads a row outside the array (undefined behaviour). -/
def disconnect_client (close : Int → Int) (client_sem : Nat) (s : Session)
    (cdisconnected : Int) : Option (Session × Nat) :=
  let response_wrong := [digit OP_CODE_DISCONNECT, digit OP_CODE_ERROR_CDU, 0]
  let response_right := [digit OP_CODE_DISCONNECT, digit OP_CODE_OK_CDU, 0]
  let request_fd := s.client_data.fds.getD 0 0
  let notification_fd := s.client_data.fds.getD 2 0
  let fail : Int := if request_fd ≥ 0 ∧ close request_fd = -1 then 1 else 0
  let fail : Int := if notification_fd ≥ 0 ∧ close notification_fd = -1 then 1 else fail
  let s1 := if cdisconnected = 0 then send_response s fail response_wrong response_right else s
  if s.client_data.num_keys ≤ MAX_NUMBER_SUB then
    let subscribed_keys :=
      (List.range s.client_data.num_keys.toNat).foldl
        (fun ht i => (remove_key ht (s.client_data.keys.getD i []) notification_fd).2)
        s1.subscribed_keys
    some ({ s1 with
            client_data :=
              { s.client_data with
                fds := [-1, -1, -1]
                num_keys := 0
                keys := List.replicate MAX_NUMBER_SUB []
                active := 0 }
            subscribed_keys := subscribed_keys },
          client_sem + 1)
  else none

/-- The frame loop on a request sequence followed by the teardown of the
session, the closes succeeding. -/
def session_then_disconnect (kvs_key_exists : CStr → Int) (client_sem : Nat) (s : Session)
    (reqs : List Request) (cdisconnected : Int) : Option (Session × Nat) :=
  match client_requests kvs_key_exists s reqs with
  | none => none
  | some s1 => disconnect_client (fun _ => 0) client_sem s1 cdisconnected

/-! ## entrega2: response frames on both sides (client.c, main.c, api.c) -/

/-- The response `rw` that `client_thread` sends to a client whose slot was
activated: CONNECT, OK. -/
def client_thread_connect_response : List UInt8 :=
  [digit OP_CODE_CONNECT, digit OP_CODE_OK_CDU, 0]

/-- The response `rw` that `handle_fifo` sends when a pipe cannot be opened or
`activate_client` fails: CONNECT, ERROR. -/
def handle_fifo_error_response : List UInt8 :=
  [digit OP_CODE_CONNECT, digit OP_CODE_ERROR_CDU, 0]

/-- The C expression `response[1] - '0'` stored in a `char`, as the byte it is
modulo 2^8. -/
def responsev (response : List UInt8) : Nat :=
  ((response.getD 1 0).toNat + 2 ^ 8 - 48) % 2 ^ 8

/-- The last statement of `kvs_connect` on the response buffer it has read:
`return responsev == OP_CODE_OK_CDU ? 0 : 1`. -/
def kvs_connect_return (response : List UInt8) : Int :=
  if responsev response = OP_CODE_OK_CDU then 0 else 1

/-- The last statement of `kvs_subscribe` on the response buffer it has read:
`return responsev == OP_CODE_OK_S ? 0 : 1`. -/
def kvs_subscribe_return (response : List UInt8) : Int :=
  if responsev response = OP_CODE_OK_S then 0 else 1

/-- The last statement of `kvs_unsubscribe` on the response buffer it has read:
`return responsev == OP_CODE_OK_CDU ? 0 : 1`. -/
def kvs_unsubscribe_return (response : List UInt8) : Int :=
  if responsev response = OP_CODE_OK_CDU then 0 else 1

/-- The end of `kvs_disconnect` after the DISCONNECT message was sent: `result`
is what `read_all` returned for the response (1: the two bytes were read, 0:
end of file, -1: interrupted) and the three `close_` arguments are the results
of closing the request, response and notification pipes. -/
def kvs_disconnect_return (result : Int) (response : List UInt8)
    (close_request close_response close_notification : Int) : Int :=
  if result ≠ 0 ∧ responsev response ≠ OP_CODE_OK_CDU then 1
  else if close_request = -1 then 1
  else if close_response = -1 then 1
  else if close_notification = -1 then 1
  else 0

/-- The buffer `response[MAX_RESPONSE_SIZE] = {0}` of the client API after
`read_all(response_fd, response, MAX_RESPONSE_SIZE - 1, ...)` has read a frame. -/
def response_buffer (frame : List UInt8) : List UInt8 :=
  frame.take (MAX_RESPONSE_SIZE - 1) ++
    List.replicate (MAX_RESPONSE_SIZE - (frame.take (MAX_RESPONSE_SIZE - 1)).length) 0

/-! ## entrega2: notification frames (client.c, api.c) -/

/-- The constant `MAX_WRITE_SIZE` (server/constants.h). -/
def MAX_WRITE_SIZE : Nat := 256

/-- The constant `MAX_WRITE_SIZE_RESPONSE` (common/constants.h). -/
def MAX_WRITE_SIZE_RESPONSE : Nat := 301

/-- The text that the formats of `notify_clients` produce before `snprintf`
cuts it to the buffer: `"(%.*s,%.*s)"` with the precisions `MAX_STRING_SIZE`
and `MAX_WRITE_SIZE` for a value, `"(%.*s,DELETED%.*s)"` with the precisions
`MAX_STRING_SIZE` and `MAX_WRITE_SIZE - 7` and the empty string for `NULL`. -/
def notification_text (key : CStr) (value : Option CStr) : CStr :=
  match value with
  | some value =>
      str "(" ++ key.take MAX_STRING_SIZE ++ str "," ++ value.take MAX_WRITE_SIZE ++ str ")"
  | none =>
      str "(" ++ key.take MAX_STRING_SIZE ++ str ",DELETED" ++
        ([] : CStr).take (MAX_WRITE_SIZE - 7) ++ str ")"

/-- The buffer `notification[MAX_WRITE_SIZE_RESPONSE]` of `notify_clients` after
the `memset` to 0 and the `snprintf`. -/
def notification_buffer (key : CStr) (value : Option CStr) : List UInt8 :=
  (snprintf MAX_WRITE_SIZE_RESPONSE (notification_text key value)) ++
    List.replicate
      (MAX_WRITE_SIZE_RESPONSE -
        (snprintf MAX_WRITE_SIZE_RESPONSE (notification_text key value)).length) 0

/-- Source `notify_clients(key, value)`: the writes it makes, in order, as pairs
of a descriptor and the bytes written to it (`MAX_WRITE_SIZE_RESPONSE - 1` bytes
of the buffer); nothing is written when `get_fds` finds no descriptor. -/
def notify_clients (subscribed_keys : IntHashTable) (key : CStr) (value : Option CStr) :
    List (Int × List UInt8) :=
  let notify_fds := get_fds subscribed_keys key
  if notify_fds.length = 0 then []
  else notify_fds.map
    (fun fd => (fd, (notification_buffer key value).take (MAX_WRITE_SIZE_RESPONSE - 1)))

/-- The bytes that `strncpy(dest, src, n)` writes to `dest` when `src` points to
the bytes `src`: the bytes before the first NUL, at most `n`, then NUL bytes up
to `n`. -/
def strncpy (src : List UInt8) (n : Nat) : List UInt8 :=
  (src.takeWhile (fun b => b ≠ 0)).take n ++
    List.replicate (n - ((src.takeWhile (fun b => b ≠ 0)).take n).length) 0

/-- The last loop of `print_notification`: `for (i = length; i > 0; i--)` that
writes a NUL after the last byte that is not a space and stops. -/
def print_notification_cut (printable : List UInt8) : Nat → List UInt8
  | 0 => printable
  | i + 1 => if printable.getD i 0 ≠ 32 then printable.set (i + 1) 0
             else print_notification_cut printable i

/-- Source `print_notification(notification, length)`: the bytes printed on
stdout.  `printable` has `length + 1` bytes: the copy made by `strncpy`, a NUL at
`length`, every NUL before `length` replaced by a space, then the cut after the
last byte that is not a space; `"%s\n"` prints the bytes before the first NUL
and a newline. -/
def print_notification (notification : List UInt8) (length : Nat) : List UInt8 :=
  let printable := strncpy notification length ++ [0]
  let printable :=
    (printable.take length).map (fun b => if b = 0 then 32 else b) ++ printable.drop length
  let printable := print_notification_cut printable length
  printable.takeWhile (fun b => b ≠ 0) ++ str "\n"

/-- The buffer `notification[MAX_WRITE_SIZE_RESPONSE] = {0}` of
`kvs_notifications` after `read_all` has read a frame of
`MAX_WRITE_SIZE_RESPONSE - 1` bytes, and the call of `print_notification` on it
with the length `MAX_WRITE_SIZE_RESPONSE`. -/
def kvs_notifications_print (frame : List UInt8) : List UInt8 :=
  print_notification
    (frame.take (MAX_WRITE_SIZE_RESPONSE - 1) ++
      List.replicate
        (MAX_WRITE_SIZE_RESPONSE - (frame.take (MAX_WRITE_SIZE_RESPONSE - 1)).length) 0)
    MAX_WRITE_SIZE_RESPONSE

/-! ## entrega2: request frames (api.c, main.c, client.c) -/

/-- The constant `MAX_PIPE_PATH_LENGTH` (common/constants.h). -/
def MAX_PIPE_PATH_LENGTH : Nat := 40

/-- The constant `BUFFER_SIZE` (common/constants.h). -/
def BUFFER_SIZE : Nat := 122

/-- The constant `BUFFER_SIZE_UNS` (common/constants.h). -/
def BUFFER_SIZE_UNS : Nat := 43

/-- The constant `MAX_SIZE_OPCODE` (common/constants.h). -/
def MAX_SIZE_OPCODE : Nat := 2

/-- The C expression `buffer[0] - '0'` stored in a `char`, as the byte it is
modulo 2^8. -/
def op_code (buffer : List UInt8) : Nat :=
  ((buffer.getD 0 0).toNat + 2 ^ 8 - 48) % 2 ^ 8

/-- The static buffer of `MAX_PIPE_PATH_LENGTH` bytes in which `kvs_connect`
stores a path: `strncpy(req_path, req_pipe_path, MAX_PIPE_PATH_LENGTH - 1)` and
`req_path[MAX_PIPE_PATH_LENGTH - 1] = '\0'`. -/
def store_path (pipe_path : CStr) : List UInt8 :=
  strncpy pipe_path (MAX_PIPE_PATH_LENGTH - 1) ++ [0]

/-- The bytes that `kvs_connect` writes to the registration FIFO: the buffer
`rmessage[BUFFER_SIZE]` with the opcode, the three `strncpy` of
`MAX_PIPE_PATH_LENGTH` bytes and the final `memset`, of which `write_all` sends
`BUFFER_SIZE - 1` bytes. -/
def kvs_connect_message (req_pipe_path resp_pipe_path notif_pipe_path : CStr) : List UInt8 :=
  let req_path := store_path req_pipe_path
  let resp_path := store_path resp_pipe_path
  let notif_path := store_path notif_pipe_path
  let rmessage :=
    [digit OP_CODE_CONNECT] ++ strncpy req_path MAX_PIPE_PATH_LENGTH ++
      strncpy resp_path MAX_PIPE_PATH_LENGTH ++ strncpy notif_path MAX_PIPE_PATH_LENGTH ++
      List.replicate (BUFFER_SIZE - 1 - 3 * MAX_PIPE_PATH_LENGTH) 0
  rmessage.take (BUFFER_SIZE - 1)

/-- The test of the C function `isspace` in the C locale: space, `\t`, `\n`,
`\v`, `\f`, `\r`. -/
def isspace (b : UInt8) : Bool := b = 32 || (9 ≤ b.toNat && b.toNat ≤ 13)

/-- Modelled from the spec: `trim_trailing_whitespace(str)` is declared in
server/operations.h with the comment that it removes white spaces from the end
of a string; its body is not among the sources. -/
def trim_trailing_whitespace (s : CStr) : CStr := s.rdropWhile isspace

/-- One path of `handle_fifo`: the buffer of `MAX_PIPE_PATH_LENGTH + 1` zero
bytes after `strncpy(request, ptr, MAX_PIPE_PATH_LENGTH)` and
`request[MAX_PIPE_PATH_LENGTH - 1] = '\0'`, read as a C string and trimmed. -/
def handle_fifo_path (ptr : List UInt8) : CStr :=
  trim_trailing_whitespace
    (((strncpy ptr MAX_PIPE_PATH_LENGTH ++ [0]).set (MAX_PIPE_PATH_LENGTH - 1) 0).takeWhile
      (fun b => b ≠ 0))

/-- The parsing of a registration message in `handle_fifo`: `buffer` holds the
`BUFFER_SIZE - 1` bytes read from the FIFO; for the opcode CONNECT the request,
response and notification paths that are opened, `none` for another opcode. -/
def handle_fifo_parse (buffer : List UInt8) : Option (CStr × CStr × CStr) :=
  if op_code buffer = OP_CODE_CONNECT then
    let ptr := buffer.drop 1
    let request := handle_fifo_path ptr
    let ptr := ptr.drop MAX_PIPE_PATH_LENGTH
    let response := handle_fifo_path ptr
    let ptr := ptr.drop MAX_PIPE_PATH_LENGTH
    let notification := handle_fifo_path ptr
    some (request, response, notification)
  else none

/-- The bytes that `kvs_subscribe(key)` writes to the request pipe: the buffer
`message[BUFFER_SIZE_UNS]` with the opcode, `strncpy(message + 1, key,
MAX_STRING_SIZE + 1)` and the final `memset`, of which `write_all` sends
`BUFFER_SIZE_UNS - 2` bytes. -/
def kvs_subscribe_message (key : CStr) : List UInt8 :=
  ([digit OP_CODE_SUBSCRIBE] ++ strncpy key (MAX_STRING_SIZE + 1) ++
    List.replicate (BUFFER_SIZE_UNS - 1 - MAX_STRING_SIZE - 1) 0).take (BUFFER_SIZE_UNS - 2)

/-- The bytes that `kvs_unsubscribe(key)` writes to the request pipe. -/
def kvs_unsubscribe_message (key : CStr) : List UInt8 :=
  ([digit OP_CODE_UNSUBSCRIBE] ++ strncpy key (MAX_STRING_SIZE + 1) ++
    List.replicate (BUFFER_SIZE_UNS - 1 - MAX_STRING_SIZE - 1) 0).take (BUFFER_SIZE_UNS - 2)

/-- The reads of `client_thread` on the bytes of the request pipe:
`MAX_SIZE_OPCODE - 1` bytes for the opcode and, for SUBSCRIBE and UNSUBSCRIBE,
`MAX_STRING_SIZE` bytes for the key; the result is the request that the
`switch` dispatches and the bytes left in the pipe.  `none` for DISCONNECT and
for an invalid opcode, which read no key. -/
def client_thread_read (pipe : List UInt8) : Option (Request × List UInt8) :=
  let buffer := pipe.take (MAX_SIZE_OPCODE - 1)
  let pipe := pipe.drop (MAX_SIZE_OPCODE - 1)
  if op_code buffer = OP_CODE_UNSUBSCRIBE then
    some (Request.unsubscribe (pipe.take MAX_STRING_SIZE), pipe.drop MAX_STRING_SIZE)
  else if op_code buffer = OP_CODE_SUBSCRIBE then
    some (Request.subscribe (pipe.take MAX_STRING_SIZE), pipe.drop MAX_STRING_SIZE)
  else none

/-- A pipe path that a CONNECT message carries unchanged: a C string (no NUL
byte) of at most `MAX_PIPE_PATH_LENGTH - 1` bytes whose last byte is not white
space. -/
def PipePath (p : CStr) : Prop :=
  p.length ≤ MAX_PIPE_PATH_LENGTH - 1 ∧ (∀ b ∈ p, b ≠ 0) ∧
    ∀ c, p.getLast? = some c → isspace c = false

/-- A field of a frame: the string and NUL bytes up to `n` bytes. -/
def padded (n : Nat) (s : CStr) : List UInt8 := s ++ List.replicate (n - s.length) 0

/-! ## entrega1: the gate as a step relation between threads (main.c) -/

/-- The shared counters of the gate with the number of threads that entered as
writers and as readers and have not left yet. -/
structure Gate where
  job : Job
  writers : Nat
  readers : Nat
deriving DecidableEq, Repr

/-- The four critical sections of the gate, each run by some thread under
`command_mutex`. -/
inductive GateStep where
  | writer_entry
  | writer_exit
  | reader_entry
  | reader_exit
deriving DecidableEq, Repr

/-- One step of the gate: an entry is taken when the `while` loop of
`read_show_backup_wait` or `write_delete_wait` lets the thread pass, an exit
(`write_delete_finished`, `read_show_finished`) by a thread that entered on
that side; `none` when the step cannot be taken. -/
def gate_step (g : Gate) : GateStep → Option Gate
  | .writer_entry =>
    match read_show_backup_wait g.job with
    | none => none
    | some job => some { g with job := job, writers := g.writers + 1 }
  | .writer_exit =>
    if g.writers = 0 then none
    else some { g with job := write_delete_finished g.job, writers := g.writers - 1 }
  | .reader_entry =>
    match write_delete_wait g.job with
    | none => none
    | some job => some { g with job := job, readers := g.readers + 1 }
  | .reader_exit =>
    if g.readers = 0 then none
    else some { g with job := read_show_finished g.job, readers := g.readers - 1 }

/-- A sequence of steps of the gate. -/
def gate_run : Gate → List GateStep → Option Gate
  | g, [] => some g
  | g, step :: rest =>
    match gate_step g step with
    | none => none
    | some g1 => gate_run g1 rest

/-! ## entrega1: BACKUP as a step relation between threads (main.c) -/

/-- The counter `pids_count`, the snapshot children that exist and are not
reaped, the threads that have executed `pids_count++` and not yet `fork()`, and
the children reaped by `wait` or `waitpid` whose `pids_count--` is still to
come. -/
structure Backups where
  pids_count : Int
  children : Nat
  forking : Nat
  reaped : Nat
deriving DecidableEq, Repr

/-- The steps of the BACKUP case of `process_input`. -/
inductive BackupStep where
  | wait_child
  | wait_none
  | admit_backup
  | fork_child
  | fork_failed
  | waitpid_child
  | count_reaped
deriving DecidableEq, Repr

/-- One step of the BACKUP case; `none` when the step cannot be taken.
`wait_child` and `wait_none` are the call `wait(&status)` inside
`while (pids_count >= max_backups)`, which reaps a child or fails when there is
none; `admit_backup` leaves that loop and executes `pids_count++`;
`fork_child` and `fork_failed` are the `fork()` of a thread that was admitted;
`waitpid_child` is `waitpid(-1, NULL, WNOHANG) > 0`; `count_reaped` is the
`pids_count--` that follows a reaped child. -/
def backup_step (max_backups : Int) (b : Backups) : BackupStep → Option Backups
  | .wait_child =>
    if b.pids_count ≥ max_backups ∧ 0 < b.children then
      some { b with children := b.children - 1, reaped := b.reaped + 1 }
    else none
  | .wait_none =>
    if b.pids_count ≥ max_backups ∧ b.children = 0 then some b else none
  | .admit_backup =>
    if b.pids_count ≥ max_backups then none
    else some { b with pids_count := b.pids_count + 1, forking := b.forking + 1 }
  | .fork_child =>
    if 0 < b.forking then
      some { b with forking := b.forking - 1, children := b.children + 1 }
    else none
  | .fork_failed =>
    if 0 < b.forking then some { b with forking := b.forking - 1 } else none
  | .waitpid_child =>
    if 0 < b.children then
      some { b with children := b.children - 1, reaped := b.reaped + 1 }
    else none
  | .count_reaped =>
    if 0 < b.reaped then
      some { b with reaped := b.reaped - 1, pids_count := b.pids_count - 1 }
    else none

/-- A sequence of steps of the BACKUP case. -/
def backup_run (max_backups : Int) : Backups → List BackupStep → Option Backups
  | b, [] => some b
  | b, step :: rest =>
    match backup_step max_backups b step with
    | none => none
    | some b1 => backup_run max_backups b1 rest

/-- The invariant of the gate: the counters are the numbers of threads inside,
and one of them is 0. -/
def Gate.inv (g : Gate) : Prop :=
  g.job.read_show_active = g.readers ∧ g.job.write_delete_active = g.writers ∧
    (g.readers = 0 ∨ g.writers = 0)

/-- The invariant of the BACKUP steps: every child, every admitted thread that
has not forked yet and every reaped child not yet counted holds one unit of
`pids_count`, which is at most `max_backups`. -/
def Backups.inv (max_backups : Int) (b : Backups) : Prop :=
  (b.children : Int) + b.forking + b.reaped ≤ b.pids_count ∧ b.pids_count ≤ max_backups

/-- The part of the state of a job that only BACKUP changes. -/
def Job.backup_state (s : Job) : Int × Int × Int × Nat × List (Int × List UInt8) :=
  (s.max_backups, s.pids_count, s.num_backups, s.children, s.snapshots)

/-- The gate with one writer inside. -/
def gate_one_writer : Gate :=
  ⟨{ Job.start (create_hash_table 26) 2 with write_delete_active := 1 }, 1, 0⟩

/-- The invariant of the snapshot children of a job: every child holds one unit
of `pids_count`, which is at most `max_backups`. -/
def Job.backup_inv (s : Job) : Prop :=
  (s.children : Int) ≤ s.pids_count ∧ s.pids_count ≤ s.max_backups

/-- The snapshots of a job are numbered 1, 2, 3, ... in the order in which they
were made, `num_backups` is the next number, and the table is allocated. -/
def Job.numbered (s : Job) : Prop :=
  s.kvs_table.isSome = true ∧ s.num_backups = (s.snapshots.length : Int) + 1 ∧
    s.snapshots.map Prod.fst = (List.range s.snapshots.length).map (fun i : Nat => (i : Int) + 1)

/-! ## entrega1: the name of a backup file (operations.c) -/

/-- Modelled from the spec: the constant `BACKUP_FILE` of constants.h, which is
not among the sources; the backup files are named `<job-stem>-<n>.bck`. -/
def BACKUP_FILE : CStr := str ".bck"

/-- The C function `strrchr(s, c)` as the index of the last `c` in `s`, `none`
for `NULL`. -/
def strrchr : CStr → UInt8 → Option Nat
  | [], _ => none
  | x :: xs, c =>
    match strrchr xs c with
    | some i => some (i + 1)
    | none => if x = c then some 0 else none

/-- Source `removeExtension(filepath)`: the string is cut at its last `.` when
no `/` follows that `.`. -/
def removeExtension (filepath : CStr) : CStr :=
  match strrchr filepath 46 with
  | none => filepath
  | some last_dot => if 47 ∈ filepath.drop last_dot then filepath else filepath.take last_dot

/-- The loop `while (number > 0) { number /= 10; length++; }` of
`getLengthOfNumber`; the first argument bounds the number of iterations. -/
def getLengthOfNumber_loop : Nat → Nat → Nat → Nat
  | 0, _, length => length
  | fuel + 1, number, length =>
    if number > 0 then getLengthOfNumber_loop fuel (number / 10) (length + 1) else length

/-- Source `getLengthOfNumber(number)`: 1 for 0, else the number of iterations
of the loop, which is 0 for a negative number. -/
def getLengthOfNumber (number : Int) : Nat :=
  if number = 0 then 1 else getLengthOfNumber_loop number.toNat number.toNat 0

/-- The digits that `%d` prints for a positive number, the last one first
computed: `number % 10` is put in front of the digits already produced; the
first argument bounds the number of iterations. -/
def printf_d_loop : Nat → Nat → List UInt8 → List UInt8
  | 0, _, acc => acc
  | fuel + 1, number, acc =>
    if number > 0 then printf_d_loop fuel (number / 10) (digit (number % 10) :: acc) else acc

/-- The text that the conversion `%d` of `snprintf` produces for an `int`. -/
def printf_d (number : Int) : CStr :=
  if number = 0 then str "0"
  else if number < 0 then str "-" ++ printf_d_loop (-number).toNat (-number).toNat []
  else printf_d_loop number.toNat number.toNat []

/-- The value `backup_filepath_size` that `getNameOfBackupFile` computes for the
`malloc` and the `snprintf`. -/
def backup_filepath_size (filepath : CStr) (number_of_backup : Int) : Nat :=
  (removeExtension filepath).length + 1 + getLengthOfNumber number_of_backup +
    BACKUP_FILE.length + 1

/-- Source `getNameOfBackupFile(filepath, number_of_backup)`: the string that
`snprintf(backup_filepath, backup_filepath_size, "%s-%d%s", filepath,
number_of_backup, BACKUP_FILE)` leaves in the buffer. -/
def getNameOfBackupFile (filepath : CStr) (number_of_backup : Int) : CStr :=
  snprintf (backup_filepath_size filepath number_of_backup)
    (removeExtension filepath ++ str "-" ++ printf_d number_of_backup ++ BACKUP_FILE)

/-- Source `kvs_backup(filepath, backups_already_done)` in the child process:
the name of the file it opens and the bytes that `kvs_show` writes to it. -/
def kvs_backup (ht : HashTable) (filepath : CStr) (backups_already_done : Int) :
    CStr × List UInt8 :=
  (getNameOfBackupFile filepath backups_already_done, (kvs_show ht ⟨[], none⟩).data)

/-- Source `start_client_threads`: the `MAX_SESSION_COUNT` slots `clients_data[i]`
it initialises and the value it gives to the semaphore `client_sem`. -/
def start_client_threads : List ClientData × Nat :=
  ((List.range MAX_SESSION_COUNT).map (fun i : Nat => ClientData.init (i : Int)),
    MAX_SESSION_COUNT)

/-! ## The hash of the specification -/

/-- The hash as the specification words it (djb2): `h` starts at 5381 and is
replaced by `h * 33 + c` for each byte `c` of the key, in unsigned 64-bit
arithmetic. -/
def djb2 (key : CStr) : Nat :=
  key.foldl (fun h c => (h * 33 + c.toNat) % 2 ^ 64) 5381

/-! ## The output path of a job (entrega1 operations.c, entrega2 main.c) -/

/-- Modelled from the spec: the constant `OUT_FILE` of constants.h, which is not
among the sources; the results of a job are written to a sibling `.out` file. -/
def OUT_FILE : CStr := str ".out"

/-- The C function `strncat(dest, src, n)` on strings: at most `n` bytes of
`src` are appended to `dest`. -/
def strncat (dest src : CStr) (n : Nat) : CStr := dest ++ src.take n

/-- Source `changeFileExtension(filepath, extension)`: the buffer has
`strlen(filepath) + 1` bytes, the path is copied to it, `removeExtension` cuts
it, and `strncat` appends at most `output_filepath_size -
strlen(output_filepath) - 1` bytes of the extension.  A failing `malloc` is not
modelled. -/
def changeFileExtension (filepath extension : CStr) : CStr :=
  let output_filepath_size := filepath.length + 1
  let output_filepath := filepath.take output_filepath_size
  let output_filepath := removeExtension output_filepath
  strncat output_filepath extension (output_filepath_size - output_filepath.length - 1)

/-- The path that `process_input_thread_fn` opens for the results of the job
`filepath`: `changeFileExtension(filepath, OUT_FILE)`. -/
def output_filepath (filepath : CStr) : CStr := changeFileExtension filepath OUT_FILE

/-- The constant `MAX_JOB_FILE_NAME_SIZE` (server/constants.h). -/
def MAX_JOB_FILE_NAME_SIZE : Nat := 256

/-- Source `entry_files(dir, entry, in_path, out_path)` of the server: `none`
when it returns 1 (the name has no `.`, starts with its last `.`, or does not
end in `.job`, or the path is too long), else `in_path` and `out_path`;
`strcpy(strrchr(out_path, '.'), ".out")` overwrites the path from its last
`.` on. -/
def entry_files (dir d_name : CStr) : Option (CStr × CStr) :=
  match strrchr d_name 46 with
  | none => none
  | some dot =>
    if dot = 0 ∨ (d_name.drop dot).length ≠ 4 ∨ strcmp (d_name.drop dot) (str ".job") ≠ 0 then
      none
    else if d_name.length + dir.length + 2 > MAX_JOB_FILE_NAME_SIZE then none
    else
      let in_path := dir ++ str "/" ++ d_name
      match strrchr in_path 46 with
      | none => none
      | some last_dot => some (in_path, in_path.take last_dot ++ str ".out")

/-! ## More concrete states used to evaluate the handlers -/

/-- The session of thread 1 right after `activate_client(6, 7, 8)`, on the
index that another session left. -/
def session1 (subscribed_keys : IntHashTable) : Session :=
  Session.fresh 1 6 7 8 subscribed_keys

/-- A job whose `.out` descriptor refuses every write. -/
def job_out_fails : Job :=
  { Job.start (create_hash_table 26) 2 with fd_out := ⟨[], some 0⟩ }

/-! ## Theorems: `strcmp` is a total order on C strings -/

theorem strcmp_self (a : CStr) : strcmp a a = 0 := by
  induction a with
  | nil => rfl
  | cons x xs ih => simp [strcmp, ih]

theorem strcmp_eq_zero {a b : CStr} (h : strcmp a b = 0) : a = b := by
  induction a generalizing b with
  | nil => cases b with
    | nil => rfl
    | cons y ys => simp [strcmp] at h
  | cons x xs ih => cases b with
    | nil => simp [strcmp] at h
    | cons y ys =>
      simp only [strcmp] at h
      split_ifs at h with h1 h2
      · rw [h1, ih h]
      · omega

theorem strcmp_eq_zero_iff (a b : CStr) : strcmp a b = 0 ↔ a = b :=
  ⟨strcmp_eq_zero, fun h => h ▸ strcmp_self a⟩

theorem strcmp_flip {a b : CStr} (h : 0 < strcmp a b) : strcmp b a ≤ 0 := by
  induction a generalizing b with
  | nil => cases b with
    | nil => simp [strcmp]
    | cons y ys => simp [strcmp] at h
  | cons x xs ih => cases b with
    | nil => simp [strcmp]
    | cons y ys =>
      simp only [strcmp] at h ⊢
      by_cases hxy : x = y
      · subst hxy
        simp only [if_true] at h ⊢
        exact ih h
      · have hyx : ¬ y = x := fun e => hxy e.symm
        have hne : x.toNat ≠ y.toNat := fun e => hxy (UInt8.toNat.inj e)
        simp only [hxy, hyx, if_false] at h ⊢
        split_ifs at h ⊢ <;> omega

theorem strcmp_trans {a b c : CStr} (h1 : strcmp a b ≤ 0) (h2 : strcmp b c ≤ 0) :
    strcmp a c ≤ 0 := by
  induction a generalizing b c with
  | nil => cases c <;> simp [strcmp]
  | cons x xs ih => cases b with
    | nil => simp [strcmp] at h1
    | cons y ys => cases c with
      | nil => simp [strcmp] at h2
      | cons z zs =>
        simp only [strcmp] at h1 h2 ⊢
        by_cases hxy : x = y
        · subst hxy
          simp only [if_true] at h1
          by_cases hxz : x = z
          · subst hxz
            simp only [if_true] at h2 ⊢
            exact ih h1 h2
          · simp only [hxz, if_false] at h2 ⊢
            exact h2
        · simp only [hxy, if_false] at h1
          by_cases hyz : y = z
          · subst hyz
            simp only [hxy, if_false]
            exact h1
          · simp only [hyz, if_false] at h2
            have hlt : x.toNat < z.toNat := by
              split_ifs at h1 h2 <;> omega
            have hxz : ¬ x = z := fun e => by rw [e] at hlt; omega
            simp [hxz, hlt]

/-! ## Theorems: `sortArray` sorts and permutes -/

theorem cons_set_perm {α : Type} (x : α) (d : α) :
    ∀ (xs : List α) (j : Nat), j < xs.length → (xs.getD j d :: xs.set j x).Perm (x :: xs) := by
  intro xs
  induction xs with
  | nil => intro j hj; simp at hj
  | cons y ys ih =>
    intro j hj
    cases j with
    | zero => simpa using List.Perm.swap x y ys
    | succ j =>
      have hj2 : j < ys.length := by simpa using hj
      have h1 := ih j hj2
      simp only [List.getD_cons_succ, List.set_cons_succ]
      exact ((List.Perm.swap y (ys.getD j d) (ys.set j x)).trans
        ((h1.cons y).trans (List.Perm.swap x y ys)))

theorem exchange_perm {α : Type} (d : α) :
    ∀ (xs : List α) (i j : Nat), i < j → j < xs.length →
      ((xs.set i (xs.getD j d)).set j (xs.getD i d)).Perm xs := by
  intro xs
  induction xs with
  | nil => intro i j _ hj; simp at hj
  | cons y ys ih =>
    intro i j hij hj
    cases j with
    | zero => omega
    | succ j =>
      have hj2 : j < ys.length := by simpa using hj
      cases i with
      | zero =>
        simp only [List.getD_cons_succ, List.getD_cons_zero, List.set_cons_zero,
          List.set_cons_succ]
        exact cons_set_perm y d ys j hj2
      | succ i =>
        simp only [List.getD_cons_succ, List.set_cons_succ]
        exact (ih i j (by omega) hj2).cons y

theorem getD_exchange (keys : List CStr) (i j p : Nat) (x y : CStr)
    (hi : i < keys.length) (hj : j < keys.length) :
    ((keys.set i x).set j y).getD p [] =
      if p = j then y else if p = i then x else keys.getD p [] := by
  simp only [List.getD_eq_getElem?_getD, List.getElem?_set, List.length_set]
  by_cases h1 : j = p
  · subst h1; simp [hj]
  · have h1b : ¬ p = j := fun e => h1 e.symm
    by_cases h2 : i = p
    · subst h2; simp [h1, h1b, hi]
    · have h2b : ¬ p = i := fun e => h2 e.symm
      simp [h1, h1b, h2, h2b]

theorem sortArray_step_length (i j : Nat) (keys : List CStr) :
    (sortArray_step i keys j).length = keys.length := by
  unfold sortArray_step
  split_ifs <;> simp

theorem sortArray_step_perm (i j : Nat) (keys : List CStr) (hij : i < j)
    (hj : j < keys.length) : (sortArray_step i keys j).Perm keys := by
  unfold sortArray_step
  split_ifs
  · exact exchange_perm [] keys i j hij hj
  · exact List.Perm.refl _

theorem sortArray_step_sorted (i j : Nat) (keys : List CStr) (hij : i < j)
    (hj : j < keys.length) (h : SortedUpTo i keys) : SortedUpTo i (sortArray_step i keys j) := by
  unfold sortArray_step
  split_ifs with hc
  · intro a b ha hab hb
    have hb2 : b < keys.length := by simpa using hb
    have hi : i < keys.length := by omega
    simp only [getD_exchange keys i j _ _ _ hi hj]
    have haj : ¬ a = j := by omega
    have hai : ¬ a = i := by omega
    simp only [haj, hai, if_false]
    split_ifs
    · exact h a i ha (by omega) hi
    · exact h a j ha (by omega) hj
    · exact h a b ha hab hb2
  · exact h

theorem sortArray_step_min (i j : Nat) (keys : List CStr) (hij : i < j)
    (hj : j < keys.length) (h : MinUpTo i j keys) :
    MinUpTo i (j + 1) (sortArray_step i keys j) := by
  unfold sortArray_step
  split_ifs with hc
  · intro m him hmj hm
    have hi : i < keys.length := by omega
    simp only [getD_exchange keys i j _ _ _ hi hj]
    have hij2 : ¬ i = j := by omega
    have hmi : ¬ m = i := by omega
    simp only [hij2, hmi, if_true, if_false]
    have hflip : strcmp (keys.getD j []) (keys.getD i []) ≤ 0 := strcmp_flip hc
    by_cases hmj2 : m = j
    · simpa [hmj2] using hflip
    · simp only [hmj2, if_false]
      exact strcmp_trans hflip (h m him (by omega) (by omega))
  · intro m him hmj hm
    by_cases hmj2 : m = j
    · subst hmj2
      exact not_lt.mp hc
    · exact h m him (by omega) hm

theorem sortArray_inner_fold (i : Nat) :
    ∀ (n s : Nat) (keys : List CStr), i < s → s + n ≤ keys.length →
      SortedUpTo i keys → MinUpTo i s keys →
      ((List.range' s n).foldl (sortArray_step i) keys).length = keys.length ∧
      ((List.range' s n).foldl (sortArray_step i) keys).Perm keys ∧
      SortedUpTo i ((List.range' s n).foldl (sortArray_step i) keys) ∧
      MinUpTo i (s + n) ((List.range' s n).foldl (sortArray_step i) keys) := by
  intro n
  induction n with
  | zero =>
    intro s keys _ _ hs hm
    exact ⟨rfl, List.Perm.refl _, hs, hm⟩
  | succ n ih =>
    intro s keys his hlen hs hm
    have hsl : s < keys.length := by omega
    rw [List.range'_succ, List.foldl_cons]
    have hl := sortArray_step_length i s keys
    obtain ⟨r1, r2, r3, r4⟩ := ih (s + 1) (sortArray_step i keys s) (by omega)
      (by rw [hl]; omega) (sortArray_step_sorted i s keys his hsl hs)
      (sortArray_step_min i s keys his hsl hm)
    refine ⟨by rw [r1, hl], r2.trans (sortArray_step_perm i s keys his hsl), r3, ?_⟩
    have e : s + (n + 1) = s + 1 + n := by omega
    rw [e]
    exact r4

theorem sortArray_inner_spec (i : Nat) (keys : List CStr) (hi : i + 1 < keys.length)
    (hs : SortedUpTo i keys) :
    (sortArray_inner keys.length keys i).length = keys.length ∧
    (sortArray_inner keys.length keys i).Perm keys ∧
    SortedUpTo (i + 1) (sortArray_inner keys.length keys i) := by
  unfold sortArray_inner
  obtain ⟨r1, r2, r3, r4⟩ := sortArray_inner_fold i (keys.length - (i + 1)) (i + 1) keys
    (by omega) (by omega) hs (fun m h1 h2 _ => by omega)
  refine ⟨r1, r2, ?_⟩
  intro a b ha hab hb
  by_cases hai : a = i
  · subst hai
    exact r4 b hab (by rw [r1] at hb; omega) hb
  · exact r3 a b (by omega) hab hb

theorem sortArray_outer_fold (rows : Nat) :
    ∀ (m : Nat) (keys : List CStr), keys.length = rows → m ≤ rows - 1 →
      ((List.range m).foldl (sortArray_inner rows) keys).length = rows ∧
      ((List.range m).foldl (sortArray_inner rows) keys).Perm keys ∧
      SortedUpTo m ((List.range m).foldl (sortArray_inner rows) keys) := by
  intro m
  induction m with
  | zero =>
    intro keys hk _
    exact ⟨hk, List.Perm.refl _, fun a b ha => by omega⟩
  | succ m ih =>
    intro keys hk hm
    obtain ⟨r1, r2, r3⟩ := ih keys hk (by omega)
    rw [List.range_succ, List.foldl_append, List.foldl_cons, List.foldl_nil]
    have key := sortArray_inner_spec m ((List.range m).foldl (sortArray_inner rows) keys)
      (by rw [r1]; omega) r3
    rw [r1] at key
    exact ⟨key.1, key.2.1.trans r2, key.2.2⟩

theorem sortArray_length (keys : List CStr) : (sortArray keys keys.length).length = keys.length :=
  (sortArray_outer_fold keys.length (keys.length - 1) keys rfl (le_refl _)).1

theorem sortArray_perm (keys : List CStr) : (sortArray keys keys.length).Perm keys :=
  (sortArray_outer_fold keys.length (keys.length - 1) keys rfl (le_refl _)).2.1

theorem sortArray_sorted (keys : List CStr) (i j : Nat) (hij : i < j) (hj : j < keys.length) :
    strcmp ((sortArray keys keys.length).getD i []) ((sortArray keys keys.length).getD j []) ≤ 0 :=
  (sortArray_outer_fold keys.length (keys.length - 1) keys rfl (le_refl _)).2.2 i j
    (by omega) hij (by
      rw [(sortArray_outer_fold keys.length (keys.length - 1) keys rfl (le_refl _)).1]
      exact hj)

/-! ## Theorems: the KV table -/

theorem chain_find_put_same (key value : CStr) (chain : List KeyNode) :
    chain_find key (chain_put key value chain) = some value := by
  induction chain with
  | nil => simp [chain_put, chain_find, strcmp_self]
  | cons n rest ih =>
    unfold chain_put
    split_ifs with h
    · simp [chain_find, h]
    · simp [chain_find, h, ih]

theorem chain_find_put_other (key value other : CStr) (chain : List KeyNode)
    (hne : other ≠ key) :
    chain_find other (chain_put key value chain) = chain_find other chain := by
  induction chain with
  | nil =>
    have h : strcmp key other ≠ 0 := fun e => hne (strcmp_eq_zero e).symm
    simp [chain_put, chain_find, h]
  | cons n rest ih =>
    unfold chain_put
    split_ifs with h
    · have hk : n.key = key := strcmp_eq_zero h
      have h2 : strcmp n.key other ≠ 0 := fun e => hne (hk ▸ (strcmp_eq_zero e).symm)
      simp [chain_find, h2]
    · simp [chain_find, ih]

theorem chain_put_keys (key value : CStr) (chain : List KeyNode) :
    (chain_put key value chain).map KeyNode.key =
      if key ∈ chain.map KeyNode.key then chain.map KeyNode.key
      else chain.map KeyNode.key ++ [key] := by
  induction chain with
  | nil => simp [chain_put]
  | cons n rest ih =>
    unfold chain_put
    by_cases h : strcmp n.key key = 0
    · have hk : n.key = key := strcmp_eq_zero h
      simp [hk.symm, strcmp_self]
    · have hk : ¬ key = n.key := fun e => h ((strcmp_eq_zero_iff _ _).2 e.symm)
      simp only [h, if_false, List.map_cons, List.mem_cons, hk, false_or, ih]
      split_ifs <;> simp

theorem chain_put_nodup (key value : CStr) (chain : List KeyNode)
    (h : (chain.map KeyNode.key).Nodup) : ((chain_put key value chain).map KeyNode.key).Nodup := by
  rw [chain_put_keys]
  split_ifs with hm
  · exact h
  · exact List.Nodup.append h (List.nodup_singleton key) (by
      intro x hx hx2
      simp only [List.mem_singleton] at hx2
      exact hm (hx2 ▸ hx))

theorem chain_remove_none_iff (key : CStr) (chain : List KeyNode) :
    chain_remove key chain = none ↔ chain_find key chain = none := by
  induction chain with
  | nil => simp [chain_remove, chain_find]
  | cons n rest ih =>
    unfold chain_remove chain_find
    split_ifs with h
    · simp
    · cases hr : chain_remove key rest with
      | none => simpa [hr] using ih
      | some r =>
        simp only [hr] at ih
        simpa using ih

theorem chain_remove_sublist (key : CStr) (chain r : List KeyNode)
    (h : chain_remove key chain = some r) : r.Sublist chain := by
  induction chain generalizing r with
  | nil => simp [chain_remove] at h
  | cons n rest ih =>
    unfold chain_remove at h
    split_ifs at h with hk
    · cases h
      exact List.sublist_cons_self n rest
    · cases hr : chain_remove key rest with
      | none => simp [hr] at h
      | some r2 =>
        simp only [hr, Option.some.injEq] at h
        subst h
        exact (ih r2 hr).cons₂ n

theorem chain_find_none_iff (key : CStr) (chain : List KeyNode) :
    chain_find key chain = none ↔ key ∉ chain.map KeyNode.key := by
  induction chain with
  | nil => simp [chain_find]
  | cons n rest ih =>
    unfold chain_find
    by_cases h : strcmp n.key key = 0
    · have hk : n.key = key := strcmp_eq_zero h
      simp [hk.symm, strcmp_self]
    · have hk : ¬ key = n.key := fun e => h ((strcmp_eq_zero_iff _ _).2 e.symm)
      simp [h, hk, ih]

theorem chain_find_remove_same (key : CStr) (chain r : List KeyNode)
    (hn : (chain.map KeyNode.key).Nodup) (h : chain_remove key chain = some r) :
    chain_find key r = none := by
  induction chain generalizing r with
  | nil => simp [chain_remove] at h
  | cons n rest ih =>
    unfold chain_remove at h
    simp only [List.map_cons, List.nodup_cons] at hn
    split_ifs at h with hk
    · cases h
      have hk2 : n.key = key := strcmp_eq_zero hk
      rw [chain_find_none_iff, ← hk2]
      exact hn.1
    · cases hr : chain_remove key rest with
      | none => simp [hr] at h
      | some r2 =>
        simp only [hr, Option.some.injEq] at h
        subst h
        simp [chain_find, hk, ih r2 hn.2 hr]

theorem chain_find_remove_other (key other : CStr) (chain r : List KeyNode)
    (hne : other ≠ key) (h : chain_remove key chain = some r) :
    chain_find other r = chain_find other chain := by
  induction chain generalizing r with
  | nil => simp [chain_remove] at h
  | cons n rest ih =>
    unfold chain_remove at h
    split_ifs at h with hk
    · cases h
      have hk2 : n.key = key := strcmp_eq_zero hk
      have h2 : strcmp n.key other ≠ 0 := fun e => hne (hk2 ▸ (strcmp_eq_zero e).symm)
      simp [chain_find, h2]
    · cases hr : chain_remove key rest with
      | none => simp [hr] at h
      | some r2 =>
        simp only [hr, Option.some.injEq] at h
        subst h
        simp [chain_find, ih r2 hr]

theorem hash_lt (size : Nat) (key : CStr) (h : 0 < size) : hash size key < size :=
  Nat.mod_lt _ h

theorem write_pair_length (ht : HashTable) (key value : CStr) :
    (write_pair ht key value).2.table.length = ht.table.length := by
  simp [write_pair]

theorem delete_pair_length (ht : HashTable) (key : CStr) :
    (delete_pair ht key).2.table.length = ht.table.length := by
  simp only [delete_pair]
  split <;> simp

theorem getD_set_chain (table : List (List KeyNode)) (i j : Nat) (c : List KeyNode) :
    (table.set i c).getD j [] =
      if i = j ∧ i < table.length then c else table.getD j [] := by
  simp only [List.getD_eq_getElem?_getD, List.getElem?_set]
  by_cases h : i = j
  · subst h
    by_cases h2 : i < table.length
    · simp [h2]
    · simp [h2, List.getElem?_eq_none (not_lt.mp h2)]
  · simp [h]

theorem read_write_same (ht : HashTable) (key value : CStr) (hpos : 0 < ht.table.length) :
    read_pair (write_pair ht key value).2 key = some value := by
  simp only [read_pair, write_pair, List.length_set, getD_set_chain,
    hash_lt _ key hpos, and_self, if_true, chain_find_put_same]

theorem read_write_other (ht : HashTable) (key value other : CStr) (hne : other ≠ key) :
    read_pair (write_pair ht key value).2 other = read_pair ht other := by
  simp only [read_pair, write_pair, List.length_set, getD_set_chain]
  split_ifs with h
  · rw [chain_find_put_other _ _ _ _ hne, h.1]
  · rfl

theorem delete_pair_ret (ht : HashTable) (key : CStr) :
    (delete_pair ht key).1 = if read_pair ht key = none then 1 else 0 := by
  simp only [delete_pair, read_pair]
  cases hr : chain_remove key (ht.table.getD (hash ht.table.length key) []) with
  | none => simp only [(chain_remove_none_iff _ _).1 hr, if_true]
  | some r =>
    have : chain_find key (ht.table.getD (hash ht.table.length key) []) ≠ none := fun e => by
      rw [(chain_remove_none_iff _ _).2 e] at hr
      cases hr
    simp only [this, if_false]

theorem delete_pair_absent (ht : HashTable) (key : CStr) (h : read_pair ht key = none) :
    (delete_pair ht key).2 = ht := by
  simp only [delete_pair]
  unfold read_pair at h
  rw [(chain_remove_none_iff _ _).2 h]

theorem getD_mem_or_nil (table : List (List KeyNode)) (i : Nat) :
    table.getD i [] ∈ table ∨ table.getD i [] = [] := by
  rw [List.getD_eq_getElem?_getD]
  cases h : table[i]? with
  | none => right; rfl
  | some c => left; exact List.getElem?_mem h

theorem wf_getD (ht : HashTable) (hw : ht.wf) (i : Nat) :
    ((ht.table.getD i []).map KeyNode.key).Nodup := by
  rcases getD_mem_or_nil ht.table i with h | h
  · exact hw _ h
  · rw [h]; exact List.nodup_nil

theorem read_delete_same (ht : HashTable) (key : CStr) (hw : ht.wf) :
    read_pair (delete_pair ht key).2 key = none := by
  simp only [delete_pair]
  cases hr : chain_remove key (ht.table.getD (hash ht.table.length key) []) with
  | none =>
    simp only [read_pair]
    exact (chain_remove_none_iff _ _).1 hr
  | some r =>
    simp only [read_pair, List.length_set, getD_set_chain]
    split_ifs with h
    · exact chain_find_remove_same key _ r (wf_getD ht hw _) hr
    · have hlen : ¬ hash ht.table.length key < ht.table.length := fun e => h (by simpa using e)
      rw [List.getD_eq_getElem?_getD, List.getElem?_eq_none (not_lt.mp hlen)] at hr
      simp [chain_remove] at hr

theorem read_delete_other (ht : HashTable) (key other : CStr) (hne : other ≠ key) :
    read_pair (delete_pair ht key).2 other = read_pair ht other := by
  simp only [delete_pair]
  cases hr : chain_remove key (ht.table.getD (hash ht.table.length key) []) with
  | none => rfl
  | some r =>
    simp only [read_pair, List.length_set, getD_set_chain]
    split_ifs with h
    · rw [chain_find_remove_other key other _ r hne hr, h.1]
    · rfl

theorem wf_set (ht : HashTable) (hw : ht.wf) (i : Nat) (c : List KeyNode)
    (hc : (c.map KeyNode.key).Nodup) : HashTable.wf ⟨ht.table.set i c⟩ := by
  intro chain hmem
  rcases List.mem_or_eq_of_mem_set hmem with h | h
  · exact hw _ h
  · rw [h]; exact hc

theorem write_pair_wf (ht : HashTable) (key value : CStr) (hw : ht.wf) :
    (write_pair ht key value).2.wf :=
  wf_set ht hw _ _ (chain_put_nodup key value _ (wf_getD ht hw _))

theorem delete_pair_wf (ht : HashTable) (key : CStr) (hw : ht.wf) :
    (delete_pair ht key).2.wf := by
  simp only [delete_pair]
  cases hr : chain_remove key (ht.table.getD (hash ht.table.length key) []) with
  | none => exact hw
  | some r =>
    exact wf_set ht hw _ r
      (((chain_remove_sublist key _ r hr).map KeyNode.key).nodup (wf_getD ht hw _))

theorem create_hash_table_wf (size : Nat) : (create_hash_table size).wf := by
  intro chain hmem
  simp only [create_hash_table] at hmem
  rw [List.eq_of_mem_replicate hmem]
  exact List.nodup_nil

/-! ## Theorems: READ, DELETE and SHOW (operations.c) -/

theorem snprintf_fits (size : Nat) (text : CStr) (h : text.length + 1 ≤ size) :
    snprintf size text = text := by
  unfold snprintf
  exact List.take_of_length_le (by omega)

theorem write_all_ok (data : List UInt8) (buf : CStr) (len : Nat) :
    write_all ⟨data, none⟩ buf len = (0, ⟨data ++ buf.take len, none⟩) := rfl

theorem kvs_read_entry_eq (ht : HashTable) (key : CStr) :
    kvs_read_entry ht key = (READ_entry ht key, (READ_entry ht key).length + 1) := by
  unfold kvs_read_entry READ_entry
  cases read_pair ht key with
  | none =>
    have hl : (str "(" ++ key ++ str ",KVSERROR)").length + 1 = key.length + 12 := by
      simp [str]
    simp only [snprintf_fits _ _ (le_of_eq hl), hl]
  | some v =>
    have hl : (str "(" ++ key ++ str "," ++ v ++ str ")").length + 1 =
        key.length + v.length + 4 := by
      simp [str]; omega
    simp only [snprintf_fits _ _ (le_of_eq hl), hl]

theorem kvs_read_loop_ok (ht : HashTable) (keys : List CStr) (data : List UInt8) :
    kvs_read_loop ht keys ⟨data, none⟩ =
      (0, ⟨data ++ (keys.map (READ_entry ht)).flatten, none⟩) := by
  induction keys generalizing data with
  | nil => simp [kvs_read_loop]
  | cons k ks ih =>
    simp only [kvs_read_loop, kvs_read_entry_eq, write_all_ok, Nat.add_sub_cancel,
      List.take_length, lt_self_iff_false, if_false, ih, List.map_cons, List.flatten_cons,
      List.append_assoc]

theorem kvs_read_ok (ht : HashTable) (keys : List CStr) (data : List UInt8) :
    kvs_read (some ht) keys ⟨data, none⟩ =
      (0, ⟨data ++ str "[" ++ ((sortArray keys keys.length).map (READ_entry ht)).flatten
        ++ str "]\n", none⟩) := by
  have h1 : (str "[").take 1 = str "[" := rfl
  have h2 : (str "]\n").take 2 = str "]\n" := rfl
  simp only [kvs_read, write_all_ok, kvs_read_loop_ok, h1, h2, lt_self_iff_false, if_false,
    ne_eq, not_true_eq_false]

theorem kvs_delete_loop_ok (keys : List CStr) :
    ∀ (ht : HashTable) (aux : Int) (data : List UInt8), aux = 0 ∨ aux = 1 →
      kvs_delete_loop keys ht aux ⟨data, none⟩ =
        (0, delete_all ht keys, (if missing_keys ht keys = [] then aux else 1),
          ⟨data ++ (if missing_keys ht keys = [] then []
            else (if aux = 0 then str "[" else []) ++
              ((missing_keys ht keys).map DELETE_entry).flatten), none⟩) := by
  induction keys with
  | nil => intro ht aux data _; simp [kvs_delete_loop, missing_keys, delete_all]
  | cons k ks ih =>
    intro ht aux data haux
    have hret := delete_pair_ret ht k
    cases hd : delete_pair ht k with
    | mk rc ht1 =>
      rw [hd] at hret
      have hl : (str "(" ++ k ++ str ",KVSMISSING)").length + 1 = k.length + 14 := by
        simp [str]
      have h1 : (str "[").take 1 = str "[" := rfl
      simp only [kvs_delete_loop, hd, missing_keys, delete_all]
      simp only at hret
      by_cases hr : read_pair ht k = none
      · simp only [hr, if_true] at hret ⊢
        subst hret
        simp only [ne_eq, one_ne_zero, not_false_eq_true, if_true,
          snprintf_fits _ _ (le_of_eq hl), reduceCtorEq, if_false]
        rcases haux with h0 | h0
        · subst h0
          simp only [if_true, write_all_ok, h1, lt_self_iff_false, if_false, ← hl,
            Nat.add_sub_cancel, List.take_length]
          rw [ih ht1 1 _ (Or.inr rfl)]
          simp only [one_ne_zero, if_false, List.nil_append, List.map_cons,
            List.flatten_cons, DELETE_entry, List.append_assoc]
          split_ifs with hm <;> simp [hm]
        · subst h0
          simp only [one_ne_zero, if_false, write_all_ok, lt_self_iff_false, ← hl,
            Nat.add_sub_cancel, List.take_length]
          rw [ih ht1 1 _ (Or.inr rfl)]
          simp only [one_ne_zero, if_false, List.nil_append, List.map_cons,
            List.flatten_cons, DELETE_entry, List.append_assoc]
          split_ifs with hm <;> simp [hm]
      · simp only [hr, if_false] at hret ⊢
        subst hret
        simp only [ne_eq, not_true_eq_false, if_false]
        exact ih ht1 aux data haux

theorem kvs_delete_ok (ht : HashTable) (keys : List CStr) (data : List UInt8) :
    kvs_delete (some ht) keys ⟨data, none⟩ =
      (0, some (delete_all ht keys),
        ⟨data ++ (if missing_keys ht keys = [] then []
          else str "[" ++ ((missing_keys ht keys).map DELETE_entry).flatten ++ str "]\n"),
          none⟩) := by
  have h2 : (str "]\n").take 2 = str "]\n" := rfl
  simp only [kvs_delete, kvs_delete_loop_ok keys ht 0 data (Or.inl rfl), ne_eq,
    not_true_eq_false, if_false, if_true]
  by_cases hm : missing_keys ht keys = []
  · simp [hm]
  · simp [hm, write_all_ok, h2]

theorem kvs_show_chain_ok (chain : List KeyNode) (data : List UInt8) :
    kvs_show_chain chain ⟨data, none⟩ = (true, ⟨data ++ (chain.map SHOW_line).flatten, none⟩) := by
  induction chain generalizing data with
  | nil => simp [kvs_show_chain]
  | cons n rest ih =>
    have hl : (str "(" ++ n.key ++ str ", " ++ n.value ++ str ")\n").length + 1 =
        n.key.length + n.value.length + 6 := by
      simp [str]; omega
    have hs := snprintf_fits _ _ (le_of_eq hl)
    have hn : n.key.length + n.value.length + 6 - 1 =
        (str "(" ++ n.key ++ str ", " ++ n.value ++ str ")\n").length := by omega
    simp only [kvs_show_chain, hs, hn, write_all_ok, List.take_length, lt_self_iff_false,
      if_false, ih]
    simp only [List.map_cons, List.flatten_cons, SHOW_line, List.append_assoc]

theorem kvs_show_buckets_ok (buckets : List (List KeyNode)) (data : List UInt8) :
    kvs_show_buckets buckets ⟨data, none⟩ =
      ⟨data ++ (buckets.flatten.map SHOW_line).flatten, none⟩ := by
  induction buckets generalizing data with
  | nil => simp [kvs_show_buckets]
  | cons c rest ih =>
    simp only [kvs_show_buckets, kvs_show_chain_ok, if_true, ih, List.flatten_cons,
      List.map_append, List.flatten_append, List.append_assoc]

/-- C1: for every initialised table and every list of keys, `kvs_read` on a
descriptor whose writes all succeed returns 0 and appends exactly `[`, then one
entry per row of the sorted key array, `(k,v)` when the table holds `v` for `k`
and `(k,KVSERROR)` when `k` is absent, then `]\n`; the sorted array is a
permutation of the requested keys, duplicates kept. -/
theorem kvs_read_writes_one_entry_per_key (ht : HashTable) (keys : List CStr)
    (data : List UInt8) :
    kvs_read (some ht) keys ⟨data, none⟩ =
      (0, ⟨data ++ str "[" ++ ((sortArray keys keys.length).map (READ_entry ht)).flatten
        ++ str "]\n", none⟩) ∧
    (sortArray keys keys.length).Perm keys ∧
    (∀ k v, read_pair ht k = some v → READ_entry ht k = str "(" ++ k ++ str "," ++ v ++ str ")") ∧
    (∀ k, read_pair ht k = none → READ_entry ht k = str "(" ++ k ++ str ",KVSERROR)") :=
  ⟨kvs_read_ok ht keys data, sortArray_perm keys,
    fun k v h => by simp [READ_entry, h], fun k h => by simp [READ_entry, h]⟩

/-- C2: the entries `kvs_read` writes are those of the key array after
`sortArray(keys, n, MAX_STRING_SIZE)`, in array order, and in that array
`strcmp(keys[i], keys[j]) <= 0` for all `i < j < n`, whatever the input order. -/
theorem kvs_read_entries_ascending (ht : HashTable) (keys : List CStr) (data : List UInt8)
    (i j : Nat) (hij : i < j) (hj : j < keys.length) :
    (kvs_read (some ht) keys ⟨data, none⟩).2.data =
      data ++ str "[" ++ ((sortArray keys keys.length).map (READ_entry ht)).flatten
        ++ str "]\n" ∧
    strcmp ((sortArray keys keys.length).getD i []) ((sortArray keys keys.length).getD j [])
      ≤ 0 :=
  ⟨by rw [kvs_read_ok], sortArray_sorted keys i j hij hj⟩

/-- Witness of C2: READ `[c,b,a]` on a table that holds `a`, rows 0 and 2. -/
theorem kvs_read_entries_ascending_witness :
    (0 < 2 ∧ 2 < [str "c", str "b", str "a"].length) ∧
    ((kvs_read (some (write_pair (create_hash_table 26) (str "a") (str "1")).2)
        [str "c", str "b", str "a"] ⟨[], none⟩).2.data =
      [] ++ str "[" ++ ((sortArray [str "c", str "b", str "a"]
        [str "c", str "b", str "a"].length).map
          (READ_entry (write_pair (create_hash_table 26) (str "a") (str "1")).2)).flatten
        ++ str "]\n" ∧
    strcmp ((sortArray [str "c", str "b", str "a"] [str "c", str "b", str "a"].length).getD 0 [])
      ((sortArray [str "c", str "b", str "a"] [str "c", str "b", str "a"].length).getD 2 [])
      ≤ 0) :=
  ⟨⟨by decide, by decide⟩,
    kvs_read_entries_ascending (write_pair (create_hash_table 26) (str "a") (str "1")).2
      [str "c", str "b", str "a"] [] 0 2 (by decide) (by decide)⟩

/-- C3: for every initialised table and every list of keys, `kvs_delete` on a
descriptor whose writes all succeed deletes the keys one by one in input order;
it writes nothing when every deletion found a pair, and otherwise exactly `[`,
then `(k,KVSMISSING)` for the list positions whose key had no pair at the
moment it was processed, in input order, then `]\n`. -/
theorem kvs_delete_reports_missing_keys (ht : HashTable) (keys : List CStr)
    (data : List UInt8) :
    kvs_delete (some ht) keys ⟨data, none⟩ =
      (0, some (delete_all ht keys),
        ⟨data ++ (if missing_keys ht keys = [] then []
          else str "[" ++ ((missing_keys ht keys).map
            (fun k => str "(" ++ k ++ str ",KVSMISSING)")).flatten ++ str "]\n"),
          none⟩) :=
  kvs_delete_ok ht keys data

/-- C4: for every table, `kvs_show` on a descriptor whose writes all succeed
appends one line `(key, value)\n` per node and nothing else, the buckets taken
in increasing index order and each chain from its head to its end, so that
every stored pair is written exactly once. -/
theorem kvs_show_writes_every_pair_once (ht : HashTable) (data : List UInt8) :
    kvs_show ht ⟨data, none⟩ =
      ⟨data ++ (ht.table.flatten.map
        (fun n => str "(" ++ n.key ++ str ", " ++ n.value ++ str ")\n")).flatten, none⟩ :=
  kvs_show_buckets_ok ht.table data

/-! ## Theorems: scripts (process_input) -/

theorem kvs_write_loop_length (pairs : List (CStr × CStr)) :
    ∀ ht : HashTable, (kvs_write_loop ht pairs).table.length = ht.table.length := by
  induction pairs with
  | nil => intro ht; rfl
  | cons p rest ih =>
    intro ht
    obtain ⟨k, v⟩ := p
    simp only [kvs_write_loop, ih, write_pair_length]

theorem kvs_write_loop_wf (pairs : List (CStr × CStr)) :
    ∀ ht : HashTable, ht.wf → (kvs_write_loop ht pairs).wf := by
  induction pairs with
  | nil => intro ht h; exact h
  | cons p rest ih =>
    intro ht h
    obtain ⟨k, v⟩ := p
    exact ih _ (write_pair_wf ht k v h)

theorem read_kvs_write_loop_other (pairs : List (CStr × CStr)) (key : CStr) :
    ∀ ht : HashTable, key ∉ pairs.map Prod.fst →
      read_pair (kvs_write_loop ht pairs) key = read_pair ht key := by
  induction pairs with
  | nil => intro ht _; rfl
  | cons p rest ih =>
    intro ht hk
    obtain ⟨k, v⟩ := p
    simp only [List.map_cons, List.mem_cons, not_or] at hk
    simp only [kvs_write_loop]
    rw [ih _ hk.2, read_write_other ht k v key hk.1]

theorem read_kvs_write_loop_mem (pairs : List (CStr × CStr)) (key value : CStr) :
    ∀ ht : HashTable, 0 < ht.table.length → (pairs.map Prod.fst).Nodup →
      (key, value) ∈ pairs → read_pair (kvs_write_loop ht pairs) key = some value := by
  induction pairs with
  | nil => intro ht _ _ h; simp at h
  | cons p rest ih =>
    intro ht hpos hn hmem
    obtain ⟨k, v⟩ := p
    simp only [List.map_cons, List.nodup_cons] at hn
    simp only [kvs_write_loop]
    rcases List.mem_cons.mp hmem with h | h
    · simp only [Prod.mk.injEq] at h
      obtain ⟨h1, h2⟩ := h
      subst h1 h2
      rw [read_kvs_write_loop_other rest key _ hn.1, read_write_same ht key value hpos]
    · exact ih _ (by rw [write_pair_length]; exact hpos) hn.2 h

theorem delete_all_wf (keys : List CStr) :
    ∀ ht : HashTable, ht.wf → (delete_all ht keys).wf := by
  induction keys with
  | nil => intro ht h; exact h
  | cons k ks ih => intro ht h; exact ih _ (delete_pair_wf ht k h)

theorem read_delete_absent (ht : HashTable) (key other : CStr) (hw : ht.wf)
    (h : read_pair ht other = none) : read_pair (delete_pair ht key).2 other = none := by
  by_cases he : other = key
  · subst he; exact read_delete_same ht other hw
  · rw [read_delete_other ht key other he]; exact h

theorem read_delete_all_absent (keys : List CStr) (key : CStr) :
    ∀ ht : HashTable, ht.wf → read_pair ht key = none →
      read_pair (delete_all ht keys) key = none := by
  induction keys with
  | nil => intro ht _ h; exact h
  | cons k ks ih =>
    intro ht hw h
    exact ih _ (delete_pair_wf ht k hw) (read_delete_absent ht k key hw h)

theorem read_delete_all_mem (keys : List CStr) (key : CStr) :
    ∀ ht : HashTable, ht.wf → key ∈ keys → read_pair (delete_all ht keys) key = none := by
  induction keys with
  | nil => intro ht _ h; simp at h
  | cons k ks ih =>
    intro ht hw hmem
    simp only [delete_all]
    rcases List.mem_cons.mp hmem with h | h
    · subst h
      exact read_delete_all_absent ks key _ (delete_pair_wf ht key hw)
        (read_delete_same ht key hw)
    · exact ih _ (delete_pair_wf ht k hw) h

theorem process_write_ok (s : Job) (ht : HashTable) (pairs : List (CStr × CStr))
    (htab : s.kvs_table = some ht) (hr : s.read_show_active = 0) (hne : pairs ≠ []) :
    process_command s (.write pairs) =
      some { s with kvs_table := some (kvs_write_loop ht pairs) } := by
  obtain ⟨t, fd, rsa, wda, mb, pc, nb, ch, sn⟩ := s
  simp only at htab hr
  subst htab hr
  have hl : pairs.length ≠ 0 := fun e => hne (List.length_eq_zero.mp e)
  simp [process_command, read_show_backup_wait, write_delete_finished, kvs_write, hl]

theorem process_read_ok (s : Job) (ht : HashTable) (keys : List CStr) (data : List UInt8)
    (htab : s.kvs_table = some ht) (hw : s.write_delete_active = 0)
    (hfd : s.fd_out = ⟨data, none⟩) (hne : keys ≠ []) :
    process_command s (.read keys) =
      some { s with fd_out := ⟨data ++ str "[" ++
        ((sortArray keys keys.length).map (READ_entry ht)).flatten ++ str "]\n", none⟩ } := by
  obtain ⟨t, fd, rsa, wda, mb, pc, nb, ch, sn⟩ := s
  simp only at htab hw hfd
  subst htab hw hfd
  have hl : keys.length ≠ 0 := fun e => hne (List.length_eq_zero.mp e)
  simp [process_command, write_delete_wait, read_show_finished, kvs_read_ok, hl]

theorem process_delete_ok (s : Job) (ht : HashTable) (keys : List CStr) (data : List UInt8)
    (htab : s.kvs_table = some ht) (hr : s.read_show_active = 0)
    (hfd : s.fd_out = ⟨data, none⟩) (hne : keys ≠ []) :
    process_command s (.delete keys) =
      some { s with
        kvs_table := some (delete_all ht keys)
        fd_out := ⟨data ++ (if missing_keys ht keys = [] then []
          else str "[" ++ ((missing_keys ht keys).map DELETE_entry).flatten ++ str "]\n"),
          none⟩ } := by
  obtain ⟨t, fd, rsa, wda, mb, pc, nb, ch, sn⟩ := s
  simp only at htab hr hfd
  subst htab hr hfd
  have hl : keys.length ≠ 0 := fun e => hne (List.length_eq_zero.mp e)
  simp [process_command, read_show_backup_wait, write_delete_finished, kvs_delete_ok, hl]

theorem write_read_script (s : Job) (ht : HashTable) (pairs : List (CStr × CStr))
    (keys : List CStr) (data : List UInt8)
    (htab : s.kvs_table = some ht) (hr : s.read_show_active = 0)
    (hw : s.write_delete_active = 0) (hfd : s.fd_out = ⟨data, none⟩)
    (hne : pairs ≠ []) (hkne : keys ≠ []) :
    process_input s [.write pairs, .read keys] =
      some { s with
        num_backups := 1
        kvs_table := some (kvs_write_loop ht pairs)
        fd_out := ⟨data ++ str "[" ++ ((sortArray keys keys.length).map
          (READ_entry (kvs_write_loop ht pairs))).flatten ++ str "]\n", none⟩ } := by
  simp only [process_input, process_input_loop]
  rw [process_write_ok { s with num_backups := 1 } ht pairs htab hr hne]
  simp only
  have h := process_read_ok { s with num_backups := 1, kvs_table := some (kvs_write_loop ht pairs) }
    (kvs_write_loop ht pairs) keys data rfl hw hfd hkne
  rw [h]

theorem sortArray_pairwise (keys : List CStr) :
    (sortArray keys keys.length).Pairwise (fun a b => strcmp a b ≤ 0) := by
  rw [List.pairwise_iff_getElem]
  intro i j hi hj hij
  have hl := sortArray_length keys
  have h := sortArray_sorted keys i j hij (by rw [← hl]; exact hj)
  rw [List.getD_eq_getElem _ _ hi, List.getD_eq_getElem _ _ hj] at h
  exact h

theorem sortArray_strict (keys : List CStr) (hn : keys.Nodup) :
    (sortArray keys keys.length).Pairwise (fun a b => strcmp a b < 0) := by
  have h1 := sortArray_pairwise keys
  have h2 : (sortArray keys keys.length).Pairwise (fun a b => a ≠ b) :=
    ((sortArray_perm keys).nodup_iff).2 hn
  refine (h1.and h2).imp ?_
  intro a b hab
  rcases lt_or_eq_of_le hab.1 with h | h
  · exact h
  · exact absurd (strcmp_eq_zero h) hab.2

/-- C5: on every store (initialised table with at least one bucket, idle gate,
`.out` file whose writes succeed), WRITE of pairs with pairwise distinct keys
followed by READ of exactly those keys in any order appends `[`, the written
pairs `(k,v)` in strictly ascending key order, and `]\n`; in particular the
script `WRITE [(a,1)(b,2)]`, `READ [b,a]` appends `[(a,1)(b,2)]\n`. -/
theorem write_then_read_returns_written_pairs (s : Job) (ht : HashTable)
    (pairs : List (CStr × CStr)) (keys : List CStr)
    (htab : s.kvs_table = some ht) (hsize : 0 < ht.table.length)
    (hr : s.read_show_active = 0) (hw : s.write_delete_active = 0)
    (hfd : s.fd_out.writes_left = none)
    (hne : pairs ≠ []) (hdist : (pairs.map Prod.fst).Nodup)
    (hkeys : keys.Perm (pairs.map Prod.fst)) :
    (∃ (s1 : Job) (sorted : List (CStr × CStr)), process_input s [.write pairs, .read keys] = some s1 ∧
      sorted.Perm pairs ∧
      sorted.Pairwise (fun p q => strcmp p.1 q.1 < 0) ∧
      s1.fd_out.data = s.fd_out.data ++ str "[" ++
        (sorted.map (fun p => str "(" ++ p.1 ++ str "," ++ p.2 ++ str ")")).flatten ++
        str "]\n") ∧
    (process_input s [.write [(str "a", str "1"), (str "b", str "2")],
        .read [str "b", str "a"]]).map (fun s1 => s1.fd_out.data) =
      some (s.fd_out.data ++ str "[(a,1)(b,2)]\n") := by
  have hfd2 : s.fd_out = ⟨s.fd_out.data, none⟩ := by
    cases hf : s.fd_out with
    | mk d w => rw [hf] at hfd; simp only at hfd; rw [hfd]
  constructor
  · have hkne : keys ≠ [] := by
      intro e
      rw [e] at hkeys
      have := hkeys.length_eq
      simp only [List.length_nil, List.length_map] at this
      exact hne (List.length_eq_zero.mp this.symm)
    let T := kvs_write_loop ht pairs
    let g : CStr → CStr × CStr := fun k => (k, (read_pair T k).getD [])
    have hval : ∀ p ∈ pairs, read_pair T p.1 = some p.2 := fun p hp =>
      read_kvs_write_loop_mem pairs p.1 p.2 ht hsize hdist hp
    have hperm : (sortArray keys keys.length).Perm (pairs.map Prod.fst) :=
      (sortArray_perm keys).trans hkeys
    refine ⟨_, (sortArray keys keys.length).map g,
      write_read_script s ht pairs keys s.fd_out.data htab hr hw hfd2 hne hkne, ?_, ?_, ?_⟩
    · have h1 : ((sortArray keys keys.length).map g).Perm ((pairs.map Prod.fst).map g) :=
        hperm.map g
      have h2 : (pairs.map Prod.fst).map g = pairs := by
        rw [List.map_map]
        conv_rhs => rw [← List.map_id pairs]
        apply List.map_congr_left
        intro p hp
        simp only [Function.comp, g, hval p hp, Option.getD_some, id]
      rw [h2] at h1
      exact h1
    · rw [List.pairwise_map]
      exact sortArray_strict keys (hkeys.nodup_iff.2 hdist)
    · simp only [List.append_cancel_right_eq, List.append_cancel_left_eq]
      congr 1
      rw [List.map_map]
      apply List.map_congr_left
      intro k hk
      have hk2 : k ∈ pairs.map Prod.fst := hperm.mem_iff.1 hk
      obtain ⟨p, hp, hpk⟩ := List.mem_map.1 hk2
      subst hpk
      simp only [READ_entry, Function.comp, g, hval p hp, Option.getD_some]
  · have hd : ([(str "a", str "1"), (str "b", str "2")].map Prod.fst).Nodup := by decide
    rw [write_read_script s ht _ [str "b", str "a"] s.fd_out.data htab hr hw hfd2
      (by simp) (by simp)]
    have hs : sortArray [str "b", str "a"] [str "b", str "a"].length = [str "a", str "b"] := by
      decide
    have ha := read_kvs_write_loop_mem _ (str "a") (str "1") ht hsize hd
      (List.mem_cons_self _ _)
    have hb := read_kvs_write_loop_mem _ (str "b") (str "2") ht hsize hd
      (List.mem_cons_of_mem _ (List.mem_cons_self _ _))
    simp only [Option.map_some', hs, List.map_cons, List.map_nil, READ_entry, ha, hb,
      List.flatten_cons, List.flatten_nil, List.append_assoc, List.append_nil]
    rfl

/-- Witness of C5: WRITE `[(b,2)(a,1)]` then READ `[a,b]` on an empty table of
26 buckets. -/
theorem write_then_read_returns_written_pairs_witness :
    (∃ (s1 : Job) (sorted : List (CStr × CStr)), process_input (Job.start (create_hash_table 26) 1)
        [.write [(str "b", str "2"), (str "a", str "1")], .read [str "a", str "b"]] = some s1 ∧
      sorted.Perm [(str "b", str "2"), (str "a", str "1")] ∧
      sorted.Pairwise (fun p q => strcmp p.1 q.1 < 0) ∧
      s1.fd_out.data = (Job.start (create_hash_table 26) 1).fd_out.data ++ str "[" ++
        (sorted.map (fun p => str "(" ++ p.1 ++ str "," ++ p.2 ++ str ")")).flatten ++
        str "]\n") ∧
    (process_input (Job.start (create_hash_table 26) 1)
        [.write [(str "a", str "1"), (str "b", str "2")],
        .read [str "b", str "a"]]).map (fun s1 => s1.fd_out.data) =
      some ((Job.start (create_hash_table 26) 1).fd_out.data ++ str "[(a,1)(b,2)]\n") :=
  write_then_read_returns_written_pairs (Job.start (create_hash_table 26) 1)
    (create_hash_table 26) [(str "b", str "2"), (str "a", str "1")] [str "a", str "b"]
    rfl (by decide) rfl rfl rfl (by simp) (by decide) (by decide)

theorem sortArray_singleton (k : CStr) : sortArray [k] [k].length = [k] := by
  simp [sortArray]

theorem fd_eta (fd : Fd) (h : fd.writes_left = none) : fd = ⟨fd.data, none⟩ := by
  cases fd with
  | mk d w => simp only at h; rw [h]

/-- C6: on every store (initialised table whose chains hold no key twice, idle
gate, `.out` file whose writes succeed) and for every key `k`, after a DELETE
that lists `k` the table has no pair for `k` and a READ of `k` appends
`[(k,KVSERROR)]\n`; in particular, when the table has at least one bucket and
holds no `y`, the script `WRITE [(x,1)]`, `DELETE [x,y]`, `READ [x]` appends
exactly `[(y,KVSMISSING)]\n[(x,KVSERROR)]\n`. -/
theorem delete_then_read_reports_error (s : Job) (ht : HashTable)
    (htab : s.kvs_table = some ht) (hwf : ht.wf)
    (hr : s.read_show_active = 0) (hw : s.write_delete_active = 0)
    (hfd : s.fd_out.writes_left = none) :
    (∀ (keys : List CStr) (k : CStr), k ∈ keys →
      ∃ (s1 s2 : Job) (t1 : HashTable),
        process_command s (.delete keys) = some s1 ∧
        s1.kvs_table = some t1 ∧ read_pair t1 k = none ∧
        process_command s1 (.read [k]) = some s2 ∧
        s2.fd_out.data = s1.fd_out.data ++ str "[" ++ (str "(" ++ k ++ str ",KVSERROR)")
          ++ str "]\n") ∧
    (0 < ht.table.length → read_pair ht (str "y") = none →
      (process_input s [.write [(str "x", str "1")], .delete [str "x", str "y"],
          .read [str "x"]]).map (fun s3 => s3.fd_out.data) =
        some (s.fd_out.data ++ str "[(y,KVSMISSING)]\n[(x,KVSERROR)]\n")) := by
  have hfd2 := fd_eta s.fd_out hfd
  constructor
  · intro keys k hk
    have hne : keys ≠ [] := List.ne_nil_of_mem hk
    have habs := read_delete_all_mem keys k ht hwf hk
    refine ⟨_, _, delete_all ht keys,
      process_delete_ok s ht keys s.fd_out.data htab hr hfd2 hne, rfl, habs,
      process_read_ok _ (delete_all ht keys) [k] _ rfl hw rfl (by simp), ?_⟩
    simp only [sortArray_singleton, List.map_cons, List.map_nil, READ_entry, habs,
      List.flatten_cons, List.flatten_nil, List.append_nil]
  · intro hpos hy
    have hxy : str "y" ≠ str "x" := by decide
    have hyx : str "x" ≠ str "y" := by decide
    simp only [process_input, process_input_loop]
    rw [process_write_ok { s with num_backups := 1 } ht _ htab hr (by simp)]
    simp only
    have hd := process_delete_ok
      { s with num_backups := 1,
               kvs_table := some (kvs_write_loop ht [(str "x", str "1")]) }
      (kvs_write_loop ht [(str "x", str "1")]) [str "x", str "y"] s.fd_out.data rfl hr hfd2
      (by simp)
    rw [hd]
    simp only
    have hrd := process_read_ok
      { s with
        num_backups := 1
        kvs_table := some (delete_all (kvs_write_loop ht [(str "x", str "1")])
          [str "x", str "y"])
        fd_out := ⟨s.fd_out.data ++
          (if missing_keys (kvs_write_loop ht [(str "x", str "1")]) [str "x", str "y"] = []
            then []
            else str "[" ++ ((missing_keys (kvs_write_loop ht [(str "x", str "1")])
              [str "x", str "y"]).map DELETE_entry).flatten ++ str "]\n"), none⟩ }
      (delete_all (kvs_write_loop ht [(str "x", str "1")]) [str "x", str "y"]) [str "x"] _
      rfl hw rfl (by simp)
    rw [hrd]
    have hT : kvs_write_loop ht [(str "x", str "1")] = (write_pair ht (str "x") (str "1")).2 :=
      rfl
    have hTwf : (write_pair ht (str "x") (str "1")).2.wf := write_pair_wf ht _ _ hwf
    have hx1 : read_pair (write_pair ht (str "x") (str "1")).2 (str "x") = some (str "1") :=
      read_write_same ht _ _ hpos
    have hy1 : read_pair (delete_pair (write_pair ht (str "x") (str "1")).2 (str "x")).2
        (str "y") = none := by
      rw [read_delete_other _ _ _ hxy, read_write_other _ _ _ _ hxy]
      exact hy
    have hm : missing_keys (write_pair ht (str "x") (str "1")).2 [str "x", str "y"] =
        [str "y"] := by
      simp [missing_keys, hx1, hy1]
    have hx2 := read_delete_all_mem [str "x", str "y"] (str "x") _ hTwf
      (List.mem_cons_self _ _)
    simp only [hT, hm, Option.map_some', sortArray_singleton, List.map_cons, List.map_nil,
      READ_entry, hx2, DELETE_entry, List.flatten_cons, List.flatten_nil, List.append_nil,
      reduceCtorEq, if_false, List.append_assoc]
    rfl

/-- Witness of C6: the empty table of 26 buckets at the start of a job,
DELETE `[x,y]` then READ `[x]`, and the script of the claim. -/
theorem delete_then_read_reports_error_witness :
    (∃ (s1 s2 : Job) (t1 : HashTable),
        process_command (Job.start (create_hash_table 26) 1)
          (.delete [str "x", str "y"]) = some s1 ∧
        s1.kvs_table = some t1 ∧ read_pair t1 (str "x") = none ∧
        process_command s1 (.read [str "x"]) = some s2 ∧
        s2.fd_out.data = s1.fd_out.data ++ str "[" ++ (str "(" ++ str "x" ++ str ",KVSERROR)")
          ++ str "]\n") ∧
    (process_input (Job.start (create_hash_table 26) 1)
        [.write [(str "x", str "1")], .delete [str "x", str "y"],
        .read [str "x"]]).map (fun s3 => s3.fd_out.data) =
      some ((Job.start (create_hash_table 26) 1).fd_out.data ++
        str "[(y,KVSMISSING)]\n[(x,KVSERROR)]\n") :=
  ⟨(delete_then_read_reports_error (Job.start (create_hash_table 26) 1)
      (create_hash_table 26) rfl (create_hash_table_wf 26) rfl rfl rfl).1
      [str "x", str "y"] (str "x") (by decide),
   (delete_then_read_reports_error (Job.start (create_hash_table 26) 1)
      (create_hash_table 26) rfl (create_hash_table_wf 26) rfl rfl rfl).2
      (by decide) (by decide)⟩

/-! ## Theorems: SUBSCRIBE and UNSUBSCRIBE (client.c, coperations.c) -/

theorem find_range_none (p : Nat → Bool) (n : Nat)
    (h : (List.range n).find? p = none) : ∀ i, i < n → p i = false := by
  intro i hi
  have := List.find?_eq_none.1 h i (List.mem_range.2 hi)
  simpa using this

theorem find_range_some (p : Nat → Bool) :
    ∀ (n i : Nat), (List.range n).find? p = some i →
      i < n ∧ p i = true ∧ ∀ j, j < i → p j = false := by
  intro n
  induction n with
  | zero => intro i h; simp at h
  | succ n ih =>
    intro i h
    rw [List.range_succ, List.find?_append] at h
    cases hf : (List.range n).find? p with
    | some k =>
      rw [hf] at h
      simp only [Option.or_some, Option.some.injEq] at h
      subst h
      obtain ⟨h1, h2, h3⟩ := ih k hf
      exact ⟨by omega, h2, h3⟩
    | none =>
      rw [hf] at h
      simp only [Option.none_or, List.find?_cons, List.find?_nil] at h
      cases hp : p n with
      | false => rw [hp] at h; simp at h
      | true =>
        rw [hp] at h
        simp only [Option.some.injEq] at h
        subst h
        exact ⟨by omega, hp, find_range_none p _ hf⟩

theorem find_range_first (p : Nat → Bool) (n i : Nat) (hi : i < n) (hp : p i = true)
    (hfirst : ∀ j, j < i → p j = false) : (List.range n).find? p = some i := by
  cases hf : (List.range n).find? p with
  | none =>
    have := find_range_none p n hf i hi
    rw [hp] at this
    cases this
  | some k =>
    obtain ⟨h1, h2, h3⟩ := find_range_some p n k hf
    have : k = i := by
      rcases Nat.lt_trichotomy k i with h | h | h
      · have := hfirst k h; rw [h2] at this; cases this
      · exact h
      · have := h3 i h; rw [hp] at this; cases this
    rw [this]

theorem index_none_iff (key : CStr) (keys_list : List CStr) :
    subscribe_key_index_list key keys_list = -1 ↔
      ∀ i, i < MAX_NUMBER_SUB → keys_list.getD i [] ≠ key := by
  unfold subscribe_key_index_list
  cases hf : (List.range MAX_NUMBER_SUB).find?
      (fun i => decide (strcmp (keys_list.getD i []) key = 0)) with
  | none =>
    simp only [true_iff]
    intro i hi e
    have := find_range_none _ _ hf i hi
    simp only [decide_eq_false_iff_not] at this
    exact this ((strcmp_eq_zero_iff _ _).2 e)
  | some k =>
    obtain ⟨h1, h2, _⟩ := find_range_some _ _ k hf
    simp only [decide_eq_true_eq] at h2
    show ((k : Int) = -1) ↔ _
    constructor
    · intro h; omega
    · intro h
      exact absurd (strcmp_eq_zero h2) (h k h1)

theorem index_some (key : CStr) (keys_list : List CStr) (i : Nat) (hi : i < MAX_NUMBER_SUB)
    (hrow : keys_list.getD i [] = key) (hfirst : ∀ j, j < i → keys_list.getD j [] ≠ key) :
    subscribe_key_index_list key keys_list = (i : Int) := by
  unfold subscribe_key_index_list
  rw [find_range_first _ MAX_NUMBER_SUB i hi (by simp only [decide_eq_true_eq, hrow, strcmp_self])
    (fun j hj => by
      simp only [decide_eq_false_iff_not]
      exact fun e => hfirst j hj (strcmp_eq_zero e))]

theorem index_cases (key : CStr) (keys_list : List CStr) :
    subscribe_key_index_list key keys_list = -1 ∨
    ∃ i : Nat, i < MAX_NUMBER_SUB ∧ subscribe_key_index_list key keys_list = (i : Int) ∧
      keys_list.getD i [] = key ∧ ∀ j, j < i → keys_list.getD j [] ≠ key := by
  unfold subscribe_key_index_list
  cases hf : (List.range MAX_NUMBER_SUB).find?
      (fun i => decide (strcmp (keys_list.getD i []) key = 0)) with
  | none => left; rfl
  | some k =>
    right
    obtain ⟨h1, h2, h3⟩ := find_range_some _ _ k hf
    simp only [decide_eq_true_eq] at h2
    refine ⟨k, h1, rfl, strcmp_eq_zero h2, ?_⟩
    intro j hj e
    have := h3 j hj
    simp only [decide_eq_false_iff_not] at this
    exact this ((strcmp_eq_zero_iff _ _).2 e)

theorem getElem?_of_getD (ks : List CStr) (q : Nat) (hq : q < ks.length) :
    ks[q]? = some (ks.getD q []) := by
  rw [List.getD_eq_getElem _ _ hq, List.getElem?_eq_getElem hq]

theorem getD_mem_rows (ks : List CStr) (q : Nat) (hq : q < ks.length) : ks.getD q [] ∈ ks := by
  rw [List.getD_eq_getElem _ _ hq]
  exact List.getElem_mem hq

theorem getD_row_length (ks : List CStr) (hrows : ∀ r ∈ ks, r.length ≤ MAX_STRING_SIZE)
    (q : Nat) : (ks.getD q []).length ≤ MAX_STRING_SIZE := by
  by_cases hq : q < ks.length
  · exact hrows _ (getD_mem_rows ks q hq)
  · rw [List.getD_eq_getElem?_getD, List.getElem?_eq_none (not_lt.mp hq)]
    simp

theorem getD_set_row (ks : List CStr) (j p : Nat) (x : CStr) (hj : j < ks.length) :
    (ks.set j x).getD p [] = if p = j then x else ks.getD p [] := by
  simp only [List.getD_eq_getElem?_getD, List.getElem?_set]
  by_cases h : j = p
  · subst h; simp [hj]
  · have h2 : ¬ p = j := fun e => h e.symm
    simp [h, h2]

theorem shift_row_eq (ks : List CStr) (hrows : ∀ r ∈ ks, r.length ≤ MAX_STRING_SIZE) (j : Nat) :
    shift_row ks j = ks.set j (ks.getD (j + 1) []) := by
  unfold shift_row
  rw [List.take_of_length_le (getD_row_length ks hrows (j + 1))]

theorem shift_row_rows (ks : List CStr) (hrows : ∀ r ∈ ks, r.length ≤ MAX_STRING_SIZE)
    (j : Nat) : ∀ r ∈ shift_row ks j, r.length ≤ MAX_STRING_SIZE := by
  intro r hr
  rw [shift_row_eq ks hrows] at hr
  rcases List.mem_or_eq_of_mem_set hr with h | h
  · exact hrows r h
  · rw [h]; exact getD_row_length ks hrows (j + 1)

theorem shift_fold (n : Nat) :
    ∀ (idx : Nat) (ks : List CStr), (∀ r ∈ ks, r.length ≤ MAX_STRING_SIZE) →
      idx + n < ks.length + 1 →
      ((List.range' idx n).foldl shift_row ks).length = ks.length ∧
      (∀ r ∈ (List.range' idx n).foldl shift_row ks, r.length ≤ MAX_STRING_SIZE) ∧
      ∀ p, ((List.range' idx n).foldl shift_row ks).getD p [] =
        if idx ≤ p ∧ p < idx + n then ks.getD (p + 1) [] else ks.getD p [] := by
  induction n with
  | zero =>
    intro idx ks hrows _
    refine ⟨rfl, hrows, ?_⟩
    intro p
    have : ¬ (idx ≤ p ∧ p < idx + 0) := by omega
    simp only [List.range'_zero, List.foldl_nil, this, if_false]
  | succ n ih =>
    intro idx ks hrows hlen
    rw [List.range'_succ, List.foldl_cons]
    have hidx : idx < ks.length := by omega
    have hl1 : (shift_row ks idx).length = ks.length := by simp [shift_row]
    obtain ⟨r1, r2, r3⟩ := ih (idx + 1) (shift_row ks idx) (shift_row_rows ks hrows idx)
      (by rw [hl1]; omega)
    refine ⟨by rw [r1, hl1], r2, ?_⟩
    intro p
    rw [r3 p, shift_row_eq ks hrows idx, getD_set_row ks idx _ _ hidx,
      getD_set_row ks idx _ _ hidx]
    by_cases h1 : idx + 1 ≤ p ∧ p < idx + 1 + n
    · have h2 : idx ≤ p ∧ p < idx + (n + 1) := by omega
      have h3 : ¬ p + 1 = idx := by omega
      simp only [h1, h2, h3, and_self, if_true, if_false]
    · by_cases h4 : p = idx
      · subst h4
        have h2 : p ≤ p ∧ p < p + (n + 1) := by omega
        rw [if_neg h1, if_pos h2, if_pos rfl]
      · have h2 : ¬ (idx ≤ p ∧ p < idx + (n + 1)) := by omega
        simp only [h1, h2, h4, if_false]

theorem shift_fold_take (ks : List CStr) (hrows : ∀ r ∈ ks, r.length ≤ MAX_STRING_SIZE)
    (i n : Nat) (hin : i < n) (hn : n ≤ ks.length) :
    ((List.range' i (n - 1 - i)).foldl shift_row ks).take (n - 1) = (ks.take n).eraseIdx i := by
  obtain ⟨r1, _, r3⟩ := shift_fold (n - 1 - i) i ks hrows (by omega)
  apply List.ext_getElem?
  intro p
  rw [List.getElem?_take, List.getElem?_eraseIdx, List.getElem?_take, List.getElem?_take]
  by_cases hp : p < n - 1
  · have hp1 : p < ((List.range' i (n - 1 - i)).foldl shift_row ks).length := by
      rw [r1]; omega
    rw [if_pos hp, getElem?_of_getD _ p hp1, r3 p]
    by_cases hpi : p < i
    · have h1 : ¬ (i ≤ p ∧ p < i + (n - 1 - i)) := by omega
      have h2 : p < n := by omega
      rw [if_neg h1, if_pos hpi, if_pos h2, getElem?_of_getD ks p (by omega)]
    · have h1 : i ≤ p ∧ p < i + (n - 1 - i) := by omega
      have h2 : p + 1 < n := by omega
      rw [if_pos h1, if_neg hpi, if_pos h2, getElem?_of_getD ks (p + 1) (by omega)]
  · rw [if_neg hp]
    by_cases hpi : p < i
    · omega
    · have h2 : ¬ p + 1 < n := by omega
      rw [if_neg hpi, if_neg h2]

theorem take_pred_perm (d : Int) :
    ∀ (l : List Int), l ≠ [] → (l.getD (l.length - 1) d :: l.take (l.length - 1)).Perm l := by
  intro l
  induction l with
  | nil => intro h; exact absurd rfl h
  | cons x xs ih =>
    intro _
    cases xs with
    | nil => simp
    | cons y ys =>
      have h := ih (by simp)
      simp only [List.length_cons, Nat.add_sub_cancel, List.getD_cons_succ, List.take_succ_cons]
        at h ⊢
      exact (List.Perm.swap x _ _).trans (h.cons x)

theorem overwrite_with_last_perm (d : Int) :
    ∀ (l : List Int) (i : Nat), i < l.length →
      (l.getD i d :: (l.set i (l.getD (l.length - 1) d)).take (l.length - 1)).Perm l := by
  intro l
  induction l with
  | nil => intro i hi; simp at hi
  | cons x xs ih =>
    intro i hi
    cases i with
    | zero =>
      cases xs with
      | nil => simp
      | cons y ys =>
        have h := take_pred_perm d (y :: ys) (by simp)
        simp only [List.length_cons, Nat.add_sub_cancel, List.getD_cons_succ,
          List.getD_cons_zero, List.set_cons_zero, List.take_succ_cons] at h ⊢
        exact h.cons x
    | succ i =>
      have hi2 : i < xs.length := by simpa using hi
      cases xs with
      | nil => simp at hi2
      | cons y ys =>
        have h := ih i hi2
        simp only [List.length_cons, Nat.add_sub_cancel, List.getD_cons_succ,
          List.set_cons_succ, List.take_succ_cons] at h ⊢
        exact (List.Perm.swap x _ _).trans (h.cons x)

theorem node_remove_none (value : Int) (node : IntNode) (h : value ∉ node.values) :
    node_remove value node = none := by
  unfold node_remove
  cases hf : (List.range node.values.length).find?
      (fun i => decide (node.values.getD i 0 = value)) with
  | none => rfl
  | some i =>
    obtain ⟨h1, h2, _⟩ := find_range_some _ _ i hf
    simp only [decide_eq_true_eq] at h2
    rw [List.getD_eq_getElem _ _ h1] at h2
    exact absurd (h2 ▸ List.getElem_mem h1) h

theorem node_remove_some (value : Int) (node : IntNode) (h : value ∈ node.values) :
    ∃ node1, node_remove value node = some node1 ∧
      (value :: node1.values).Perm node.values := by
  unfold node_remove
  cases hf : (List.range node.values.length).find?
      (fun i => decide (node.values.getD i 0 = value)) with
  | none =>
    obtain ⟨n, hn, hv⟩ := List.mem_iff_getElem.1 h
    have := find_range_none _ _ hf n hn
    simp only [decide_eq_false_iff_not] at this
    rw [List.getD_eq_getElem _ _ hn] at this
    exact absurd hv this
  | some i =>
    obtain ⟨h1, h2, _⟩ := find_range_some _ _ i hf
    simp only [decide_eq_true_eq] at h2
    refine ⟨_, rfl, ?_⟩
    have := overwrite_with_last_perm 0 node.values i h1
    rw [h2] at this
    exact this

theorem answer_send_response (s : Session) (cd : ClientData) (idx : IntHashTable) (fail : Int)
    (w r : CStr) (hw : s.response.writes_left = none) :
    answer s (send_response ⟨cd, idx, s.response⟩ fail w r) =
      (if fail ≠ 0 then w else r).take (MAX_RESPONSE_SIZE - 1) := by
  unfold answer send_response
  simp only
  rw [fd_eta s.response hw, write_all_ok]
  exact List.drop_left _ _

theorem answer_send_response_self (s : Session) (fail : Int)
    (w r : CStr) (hw : s.response.writes_left = none) :
    answer s (send_response s fail w r) =
      (if fail ≠ 0 then w else r).take (MAX_RESPONSE_SIZE - 1) :=
  answer_send_response s s.client_data s.subscribed_keys fail w r hw

theorem send_response_writes_left (s0 : Session) (fail : Int) (w r : CStr)
    (hw : s0.response.writes_left = none) :
    (send_response s0 fail w r).response.writes_left = none := by
  unfold send_response
  rw [fd_eta s0.response hw, write_all_ok]

theorem read_key_length (field : List UInt8) : (read_key field).length ≤ MAX_STRING_SIZE := by
  unfold read_key
  have h1 := (@List.takeWhile_sublist _ (field.take MAX_STRING_SIZE) (fun b => b ≠ 0)).length_le
  have h2 := List.length_take_le MAX_STRING_SIZE field
  omega

theorem subscribed_after_add (keys : List CStr) (num_keys : Int) (key : CStr)
    (h0 : 0 ≤ num_keys) (h1 : num_keys < MAX_NUMBER_SUB) (hlen : keys.length = MAX_NUMBER_SUB) :
    (keys.set num_keys.toNat key).take (num_keys + 1).toNat =
      keys.take num_keys.toNat ++ [key] := by
  have e : (num_keys + 1).toNat = num_keys.toNat + 1 := by omega
  have hlt : num_keys.toNat < (keys.set num_keys.toNat key).length := by
    rw [List.length_set, hlen]; omega
  rw [e, List.take_succ, List.getElem?_eq_getElem hlt, List.getElem_set_self, List.set_take,
    List.set_eq_of_length_le (by rw [List.length_take]; omega)]
  rfl

/-- What `client_subscribe_key` does on a slot that satisfies the invariant. -/
theorem client_subscribe_key_step (e : CStr → Int) (s : Session) (key : CStr)
    (hok : s.ok) (hk : key.length ≤ MAX_STRING_SIZE) :
    (client_subscribe_key e s key = none ∧ s.client_data.num_keys < 0) ∨
    (∃ s1, client_subscribe_key e s key = some s1 ∧ s1.ok ∧
      ((answer s s1 = str "30" ∧ s1.client_data = s.client_data ∧
          s1.subscribed_keys = s.subscribed_keys ∧
          (e key ≠ 0 ∨ s.client_data.num_keys ≥ MAX_NUMBER_SUB ∨
            ∃ i, i < MAX_NUMBER_SUB ∧ s.client_data.keys.getD i [] = key)) ∨
       (answer s s1 = str "31" ∧ e key = 0 ∧ 0 ≤ s.client_data.num_keys ∧
          (∀ i, i < MAX_NUMBER_SUB → s.client_data.keys.getD i [] ≠ key) ∧
          s1.client_data = { s.client_data with
            keys := s.client_data.keys.set s.client_data.num_keys.toNat key
            num_keys := s.client_data.num_keys + 1 } ∧
          s1.subscribed_keys =
            (add_key s.subscribed_keys key (s.client_data.fds.getD 2 0)).2))) := by
  obtain ⟨hlen, hrows, hnum, hnd, hw⟩ := hok
  unfold client_subscribe_key
  simp only
  by_cases he : e key ≠ 0
  · right
    rw [if_pos he]
    refine ⟨_, rfl, ⟨hlen, hrows, hnum, hnd, send_response_writes_left s _ _ _ hw⟩, Or.inl ?_⟩
    exact ⟨by rw [answer_send_response_self s _ _ _ hw]; rfl, rfl, rfl, Or.inl he⟩
  · rw [if_neg he]
    by_cases hfull : s.client_data.num_keys ≥ MAX_NUMBER_SUB
    · right
      rw [if_pos hfull]
      refine ⟨_, rfl, ⟨hlen, hrows, hnum, hnd, send_response_writes_left s _ _ _ hw⟩, Or.inl ?_⟩
      exact ⟨by rw [answer_send_response_self s _ _ _ hw]; rfl, rfl, rfl, Or.inr (Or.inl hfull)⟩
    · rw [if_neg hfull]
      unfold add_key_to_subscribed_list
      rcases index_cases key s.client_data.keys with hidx | ⟨i, hi, hidx, hrow, _⟩
      · have hnot := (index_none_iff key s.client_data.keys).1 hidx
        rw [if_neg (by rw [hidx]; simp)]
        by_cases h0 : 0 ≤ s.client_data.num_keys
        · right
          have hlt : s.client_data.num_keys < MAX_NUMBER_SUB := not_le.mp hfull
          rw [if_pos ⟨h0, hlt⟩]
          rw [List.take_of_length_le hk]
          refine ⟨_, rfl, ⟨?_, ?_, ?_, ?_, ?_⟩, Or.inr ⟨?_, not_not.mp he, h0, hnot, rfl, rfl⟩⟩
          · show (s.client_data.keys.set s.client_data.num_keys.toNat key).length =
              MAX_NUMBER_SUB
            rw [List.length_set]; exact hlen
          · intro r hr
            rcases List.mem_or_eq_of_mem_set hr with h | h
            · exact hrows r h
            · rw [h]; exact hk
          · show s.client_data.num_keys + 1 ≤ MAX_NUMBER_SUB
            omega
          · show ((s.client_data.keys.set s.client_data.num_keys.toNat key).take
              (s.client_data.num_keys + 1).toNat).Nodup
            rw [subscribed_after_add _ _ _ h0 hlt hlen]
            refine List.Nodup.append hnd (List.nodup_singleton key) ?_
            intro x hx hx2
            simp only [List.mem_singleton] at hx2
            subst hx2
            obtain ⟨n, hn, hv⟩ := List.mem_iff_getElem.1 (List.mem_of_mem_take hx)
            have hn2 : n < MAX_NUMBER_SUB := by rw [← hlen]; exact hn
            exact hnot n hn2 (by rw [List.getD_eq_getElem _ _ hn]; exact hv)
          · exact send_response_writes_left _ _ _ _ hw
          · rw [answer_send_response s _ _ _ _ _ hw]; rfl
        · left
          rw [if_neg (fun h => h0 h.1)]
          exact ⟨rfl, not_le.mp h0⟩
      · right
        rw [if_pos (by rw [hidx]; omega)]
        refine ⟨_, rfl, ⟨hlen, hrows, hnum, hnd, send_response_writes_left _ _ _ _ hw⟩,
          Or.inl ?_⟩
        exact ⟨by rw [answer_send_response s _ _ _ _ _ hw]; rfl, rfl, rfl,
          Or.inr (Or.inr ⟨i, hi, hrow⟩)⟩

/-- What `client_unsubscribe_key` does on a slot that satisfies the invariant. -/
theorem client_unsubscribe_key_step (s : Session) (key : CStr) (hok : s.ok) :
    ∃ s1, client_unsubscribe_key s key = some s1 ∧ s1.ok ∧
      ((answer s s1 = str "41" ∧ s1.client_data = s.client_data ∧
          s1.subscribed_keys = s.subscribed_keys ∧
          ∀ i, i < MAX_NUMBER_SUB → s.client_data.keys.getD i [] ≠ key) ∨
       (answer s s1 = str "40" ∧
          s1.client_data.num_keys = s.client_data.num_keys - 1 ∧
          s1.subscribed_keys =
            (remove_key s.subscribed_keys key (s.client_data.fds.getD 2 0)).2 ∧
          ∃ i : Nat, i < MAX_NUMBER_SUB ∧ s.client_data.keys.getD i [] = key ∧
            (∀ j, j < i → s.client_data.keys.getD j [] ≠ key) ∧
            ((i : Int) < s.client_data.num_keys →
              s1.client_data.subscribed = s.client_data.subscribed.eraseIdx i) ∧
            (s.client_data.num_keys ≤ (i : Int) →
              s1.client_data.keys = s.client_data.keys))) := by
  obtain ⟨hlen, hrows, hnum, hnd, hw⟩ := hok
  unfold client_unsubscribe_key remove_key_from_subscribed_list
  simp only
  rcases index_cases key s.client_data.keys with hidx | ⟨i, hi, hidx, hrow, hfirst⟩
  · have hnot := (index_none_iff key s.client_data.keys).1 hidx
    rw [if_pos hidx]
    refine ⟨_, rfl, ⟨hlen, hrows, hnum, hnd, send_response_writes_left _ _ _ _ hw⟩, Or.inl ?_⟩
    exact ⟨by rw [answer_send_response s _ _ _ _ _ hw]; rfl, rfl, rfl, hnot⟩
  · rw [if_neg (by rw [hidx]; omega), if_pos hnum, hidx, Int.toNat_ofNat]
    have hfold := shift_fold (s.client_data.num_keys - 1 - (i : Int)).toNat i s.client_data.keys
      hrows (by rw [hlen]; omega)
    obtain ⟨r1, r2, _⟩ := hfold
    refine ⟨_, rfl, ⟨?_, ?_, ?_, ?_, ?_⟩, Or.inr ⟨?_, rfl, rfl, i, hi, hrow, hfirst, ?_, ?_⟩⟩
    · show ((List.range' i (s.client_data.num_keys - 1 - (i : Int)).toNat).foldl shift_row
        s.client_data.keys).length = MAX_NUMBER_SUB
      rw [r1]; exact hlen
    · exact r2
    · show s.client_data.num_keys - 1 ≤ MAX_NUMBER_SUB
      omega
    · show (((List.range' i (s.client_data.num_keys - 1 - (i : Int)).toNat).foldl shift_row
        s.client_data.keys).take (s.client_data.num_keys - 1).toNat).Nodup
      by_cases hin : (i : Int) < s.client_data.num_keys
      · have e1 : (s.client_data.num_keys - 1 - (i : Int)).toNat =
            s.client_data.num_keys.toNat - 1 - i := by omega
        have e2 : (s.client_data.num_keys - 1).toNat = s.client_data.num_keys.toNat - 1 := by
          omega
        rw [e1, e2, shift_fold_take s.client_data.keys hrows i s.client_data.num_keys.toNat
          (by omega) (by rw [hlen]; omega)]
        exact (List.eraseIdx_sublist _ _).nodup hnd
      · have e1 : (s.client_data.num_keys - 1 - (i : Int)).toNat = 0 := by omega
        rw [e1]
        simp only [List.range'_zero, List.foldl_nil]
        have e3 : s.client_data.keys.take (s.client_data.num_keys - 1).toNat =
            (s.client_data.keys.take s.client_data.num_keys.toNat).take
              (s.client_data.num_keys - 1).toNat := by
          rw [List.take_take, min_eq_left (by omega)]
        rw [e3]
        exact (List.take_sublist _ _).nodup hnd
    · exact send_response_writes_left _ _ _ _ hw
    · rw [answer_send_response s _ _ _ _ _ hw]; rfl
    · intro hin
      show ((List.range' i (s.client_data.num_keys - 1 - (i : Int)).toNat).foldl shift_row
        s.client_data.keys).take (s.client_data.num_keys - 1).toNat =
          (s.client_data.keys.take s.client_data.num_keys.toNat).eraseIdx i
      have e1 : (s.client_data.num_keys - 1 - (i : Int)).toNat =
          s.client_data.num_keys.toNat - 1 - i := by omega
      have e2 : (s.client_data.num_keys - 1).toNat = s.client_data.num_keys.toNat - 1 := by
        omega
      rw [e1, e2, shift_fold_take s.client_data.keys hrows i s.client_data.num_keys.toNat
        (by omega) (by rw [hlen]; omega)]
    · intro hin
      show (List.range' i (s.client_data.num_keys - 1 - (i : Int)).toNat).foldl shift_row
        s.client_data.keys = s.client_data.keys
      have e1 : (s.client_data.num_keys - 1 - (i : Int)).toNat = 0 := by omega
      rw [e1]
      rfl

/-! ## Theorems: the claims on SUBSCRIBE and UNSUBSCRIBE -/

theorem colliding_keys_bucket : colliding_keys.map chash = List.replicate 9 6659 := by decide

/-- C7 (the code at two inputs).  First input: the KV table holds `k`; after
SUBSCRIBE(k) and UNSUBSCRIBE(k), both answered OK, the slot holds 0 keys, its
subscribed-key list is empty and the bucket of `k` is empty; yet SUBSCRIBE(k)
is answered `30`, the count stays 0 and nothing is added to the index.  Second
input: the KV table holds nine keys of one bucket; after SUBSCRIBE of the
first eight the slot holds 8 keys and the ninth key is in none of its rows;
SUBSCRIBE of the ninth is answered `31` and the count becomes 9, but the bucket
holds the same eight handles as before: the handle was not added. -/
theorem client_subscribe_key_at_stale_row_and_full_bucket :
    ((client_requests (kvs_key_exists_of [str "k"]) session0
        [.subscribe (key_field (str "k")), .unsubscribe (key_field (str "k"))]).map
      (fun s => (s.response.data, s.client_data.num_keys, s.client_data.subscribed,
          get_fds s.subscribed_keys (str "k"), kvs_key_exists_of [str "k"] (str "k"))) =
      some (str "3140", 0, [], [], 0)) ∧
    ((client_requests (kvs_key_exists_of [str "k"]) session0
        [.subscribe (key_field (str "k")), .unsubscribe (key_field (str "k"))]).bind
      (fun s => (client_subscribe_key (kvs_key_exists_of [str "k"]) s (str "k")).map
        (fun s1 => (answer s s1, s1.client_data.num_keys, s1.client_data.subscribed,
          get_fds s1.subscribed_keys (str "k")))) =
      some (str "30", 0, [], [])) ∧
    ((client_requests (kvs_key_exists_of colliding_keys) session0
        ((colliding_keys.take 8).map (fun k => Request.subscribe (key_field k)))).map
      (fun s => (s.response.data, s.client_data.num_keys,
          decide (str "celc" ∈ s.client_data.keys),
          get_fds s.subscribed_keys (str "celc"),
          kvs_key_exists_of colliding_keys (str "celc"))) =
      some (str "3131313131313131", 8, false, [5, 5, 5, 5, 5, 5, 5, 5], 0)) ∧
    ((client_requests (kvs_key_exists_of colliding_keys) session0
        ((colliding_keys.take 8).map (fun k => Request.subscribe (key_field k)))).bind
      (fun s => (client_subscribe_key (kvs_key_exists_of colliding_keys) s (str "celc")).map
        (fun s1 => (answer s s1, s1.client_data.num_keys,
          get_fds s1.subscribed_keys (str "celc")))) =
      some (str "31", 9, [5, 5, 5, 5, 5, 5, 5, 5])) := by
  refine ⟨?_, ?_, ?_, ?_⟩ <;> decide

/-- C8 (the code at the failing input): the KV table holds `k`; after
SUBSCRIBE(k) and UNSUBSCRIBE(k), both answered OK, the session is not
subscribed to `k` (0 keys, empty list); a second UNSUBSCRIBE(k) is answered
`40`, not `41`, and the key count becomes -1. -/
theorem client_unsubscribe_key_twice :
    (client_requests (kvs_key_exists_of [str "k"]) session0
        [.subscribe (key_field (str "k")), .unsubscribe (key_field (str "k"))]).bind
      (fun s => (client_unsubscribe_key s (str "k")).map
        (fun s1 => (s.response.data, s.client_data.num_keys, s.client_data.subscribed,
          answer s s1, s1.client_data.num_keys))) =
      some (str "3140", 0, [], str "40", -1) := by
  decide

/-- C9 (counterexample): the KV table holds nine keys of one bucket; the
session subscribes to all nine (the ninth `add_key` finds the bucket full) and
unsubscribes from the first eight.  Its list then holds `celc` at position
0 < 1 = num_keys; UNSUBSCRIBE(celc) is answered `40` and empties the list, but
the bucket holds no occurrence of the handle 5 before the call and none after
it: no occurrence is removed. -/
theorem client_unsubscribe_key_removes_nothing :
    ((client_requests (kvs_key_exists_of colliding_keys) session0
        (colliding_keys.map (fun k => Request.subscribe (key_field k)) ++
          (colliding_keys.take 8).map (fun k => Request.unsubscribe (key_field k)))).map
      (fun s => (s.response.data, s.client_data.num_keys, s.client_data.subscribed,
          s.client_data.fds.getD 2 0, (get_fds s.subscribed_keys (str "celc")).count 5)) =
      some (str "3131313131313131314040404040404040", 1, [str "celc"], 5, 0)) ∧
    ((client_requests (kvs_key_exists_of colliding_keys) session0
        (colliding_keys.map (fun k => Request.subscribe (key_field k)) ++
          (colliding_keys.take 8).map (fun k => Request.unsubscribe (key_field k)))).bind
      (fun s => (client_unsubscribe_key s (str "celc")).map
        (fun s1 => (answer s s1, s1.client_data.num_keys, s1.client_data.subscribed,
          (get_fds s1.subscribed_keys (str "celc")).count 5))) =
      some (str "40", 0, [], 0)) := by
  refine ⟨?_, ?_⟩ <;> decide

theorem remove_key_other (ht : IntHashTable) (key other : CStr) (value : Int)
    (h : chash other ≠ chash key) :
    get_fds (remove_key ht key value).2 other = get_fds ht other := by
  simp only [remove_key, get_fds]
  cases node_remove value (ht.nodes (chash key)) with
  | none => rfl
  | some node => simp [h]

theorem remove_key_absent (ht : IntHashTable) (key : CStr) (value : Int)
    (h : value ∉ get_fds ht key) : (remove_key ht key value).2 = ht := by
  simp only [remove_key]
  rw [node_remove_none value _ h]

theorem remove_key_present (ht : IntHashTable) (key : CStr) (value : Int)
    (h : value ∈ get_fds ht key) :
    (value :: get_fds (remove_key ht key value).2 key).Perm (get_fds ht key) := by
  obtain ⟨node1, h1, h2⟩ := node_remove_some value (ht.nodes (chash key)) h
  simp only [remove_key, get_fds, h1, if_true]
  exact h2

theorem subscribed_row (c : ClientData) (i : Nat) (key : CStr)
    (h : c.subscribed[i]? = some key) :
    i < c.num_keys.toNat ∧ i < c.keys.length ∧ c.keys.getD i [] = key := by
  unfold ClientData.subscribed at h
  rw [List.getElem?_take] at h
  by_cases hi : i < c.num_keys.toNat
  · rw [if_pos hi] at h
    obtain ⟨hl, hv⟩ := List.getElem?_eq_some_iff.1 h
    exact ⟨hi, hl, by rw [List.getD_eq_getElem _ _ hl]; exact hv⟩
  · rw [if_neg hi] at h
    cases h

theorem subscribed_first (c : ClientData) (hnd : c.subscribed.Nodup) (i : Nat) (key : CStr)
    (h : c.subscribed[i]? = some key) : ∀ j, j < i → c.keys.getD j [] ≠ key := by
  intro j hj e
  obtain ⟨h1, h2, _⟩ := subscribed_row c i key h
  have hjs : c.subscribed[j]? = some key := by
    unfold ClientData.subscribed
    rw [List.getElem?_take, if_pos (by omega), getElem?_of_getD c.keys j (by omega), e]
  obtain ⟨li, vi⟩ := List.getElem?_eq_some_iff.1 h
  obtain ⟨lj, vj⟩ := List.getElem?_eq_some_iff.1 hjs
  have := (@List.Nodup.getElem_inj_iff _ _ hnd i li j lj).1 (vi.trans vj.symm)
  omega

/-- C9 (amended): on a slot that satisfies the representation invariant and
whose subscribed-key list holds `key` at position `i`, `client_unsubscribe_key`
replies `40`, the count decreases by one and the new list is the old list
without position `i`, the other keys in the same order; buckets of other hash
values are unchanged; when the bucket of the key holds the notification handle
it loses exactly one occurrence of it and nothing else, and when it does not
the index is unchanged. -/
theorem client_unsubscribe_key_removes_subscribed_key (s : Session) (key : CStr) (i : Nat)
    (hok : s.ok) (hrow : s.client_data.subscribed[i]? = some key) :
    ∃ s1, client_unsubscribe_key s key = some s1 ∧
      answer s s1 = str "40" ∧
      s1.client_data.num_keys = s.client_data.num_keys - 1 ∧
      s1.client_data.subscribed = s.client_data.subscribed.eraseIdx i ∧
      (∀ other, chash other ≠ chash key →
        get_fds s1.subscribed_keys other = get_fds s.subscribed_keys other) ∧
      (s.client_data.fds.getD 2 0 ∈ get_fds s.subscribed_keys key →
        (s.client_data.fds.getD 2 0 :: get_fds s1.subscribed_keys key).Perm
          (get_fds s.subscribed_keys key)) ∧
      (s.client_data.fds.getD 2 0 ∉ get_fds s.subscribed_keys key →
        s1.subscribed_keys = s.subscribed_keys) := by
  obtain ⟨h1, h2, h3⟩ := subscribed_row s.client_data i key hrow
  have hfirst := subscribed_first s.client_data hok.2.2.2.1 i key hrow
  have hi10 : i < MAX_NUMBER_SUB := by rw [← hok.1]; exact h2
  obtain ⟨s1, hs1, _, hcase⟩ := client_unsubscribe_key_step s key hok
  rcases hcase with ⟨_, _, _, hnot⟩ | ⟨hans, hnum, hidx, i2, hi2, hrow2, hfirst2, herase, _⟩
  · exact absurd h3 (hnot i hi10)
  · have hii : i2 = i := by
      rcases Nat.lt_trichotomy i2 i with h | h | h
      · exact absurd hrow2 (hfirst i2 h)
      · exact h
      · exact absurd h3 (hfirst2 i h)
    subst hii
    refine ⟨s1, hs1, hans, hnum, herase (by omega), ?_, ?_, ?_⟩
    · intro other ho
      rw [hidx]
      exact remove_key_other _ _ _ _ ho
    · intro hmem
      rw [hidx]
      exact remove_key_present _ _ _ hmem
    · intro hmem
      rw [hidx]
      exact remove_key_absent _ _ _ hmem

/-- Witness of C9 (amended): the slot subscribed to `a` and `b`, the handle 5
once in each bucket; UNSUBSCRIBE(a), position 0. -/
theorem client_unsubscribe_key_removes_subscribed_key_witness :
    ∃ s1, client_unsubscribe_key session_ab (str "a") = some s1 ∧
      answer session_ab s1 = str "40" ∧
      s1.client_data.num_keys = session_ab.client_data.num_keys - 1 ∧
      s1.client_data.subscribed = session_ab.client_data.subscribed.eraseIdx 0 ∧
      (∀ other, chash other ≠ chash (str "a") →
        get_fds s1.subscribed_keys other = get_fds session_ab.subscribed_keys other) ∧
      (session_ab.client_data.fds.getD 2 0 ∈ get_fds session_ab.subscribed_keys (str "a") →
        (session_ab.client_data.fds.getD 2 0 :: get_fds s1.subscribed_keys (str "a")).Perm
          (get_fds session_ab.subscribed_keys (str "a"))) ∧
      (session_ab.client_data.fds.getD 2 0 ∉ get_fds session_ab.subscribed_keys (str "a") →
        s1.subscribed_keys = session_ab.subscribed_keys) :=
  client_unsubscribe_key_removes_subscribed_key session_ab (str "a") 0
    ⟨by decide, by decide, by decide, by decide, rfl⟩ (by decide)

theorem fresh_ok (thread_id request_fd response_fd notification_fd : Int)
    (index : IntHashTable) :
    (Session.fresh thread_id request_fd response_fd notification_fd index).ok := by
  refine ⟨?_, ?_, ?_, ?_, rfl⟩
  · simp [Session.fresh, ClientData.activate, ClientData.init]
  · intro r hr
    simp only [Session.fresh, ClientData.activate, ClientData.init] at hr
    rw [List.eq_of_mem_replicate hr]
    simp
  · simp [Session.fresh, ClientData.activate, ClientData.init]
  · simp [Session.fresh, ClientData.activate, ClientData.init, ClientData.subscribed]

theorem client_requests_counted_inv (e : CStr → Int) (reqs : List Request) :
    ∀ (s : Session) (n m : Nat) (s1 : Session) (N M : Nat), s.ok →
      s.client_data.num_keys = (n : Int) - m →
      client_requests_counted e s reqs n m = some (s1, N, M) →
      s1.ok ∧ s1.client_data.num_keys = (N : Int) - M := by
  induction reqs with
  | nil =>
    intro s n m s1 N M hok hnum hrun
    simp only [client_requests_counted, Option.some.injEq, Prod.mk.injEq] at hrun
    obtain ⟨h1, h2, h3⟩ := hrun
    subst h1 h2 h3
    exact ⟨hok, hnum⟩
  | cons r rest ih =>
    intro s n m s1 N M hok hnum hrun
    cases r with
    | subscribe field =>
      simp only [client_requests_counted, client_request] at hrun
      rcases client_subscribe_key_step e s (read_key field) hok (read_key_length field) with
        ⟨hnone, _⟩ | ⟨s2, hs2, hok2, hcase⟩
      · rw [hnone] at hrun
        cases hrun
      · rw [hs2] at hrun
        simp only at hrun
        rcases hcase with ⟨hans, hcd, _⟩ | ⟨hans, _, _, _, hcd, _⟩
        · have hne : ¬ (str "30" = str "31") := by decide
          rw [hans, if_neg hne] at hrun
          exact ih s2 n m s1 N M hok2 (by rw [hcd]; exact hnum) hrun
        · rw [hans, if_pos rfl] at hrun
          refine ih s2 (n + 1) m s1 N M hok2 ?_ hrun
          rw [hcd]
          show s.client_data.num_keys + 1 = ((n + 1 : Nat) : Int) - m
          omega
    | unsubscribe field =>
      simp only [client_requests_counted, client_request] at hrun
      obtain ⟨s2, hs2, hok2, hcase⟩ := client_unsubscribe_key_step s (read_key field) hok
      rw [hs2] at hrun
      simp only at hrun
      rcases hcase with ⟨hans, hcd, _⟩ | ⟨hans, hnum2, _⟩
      · have hne : ¬ (str "41" = str "40") := by decide
        rw [hans, if_neg hne] at hrun
        exact ih s2 n m s1 N M hok2 (by rw [hcd]; exact hnum) hrun
      · rw [hans, if_pos rfl] at hrun
        refine ih s2 n (m + 1) s1 N M hok2 ?_ hrun
        rw [hnum2]
        omega

/-- The frame loop is undefined only after more UNSUBSCRIBEs than SUBSCRIBEs
were answered OK: the request sequence then has an initial part that the loop
handles with N < M, after which a SUBSCRIBE writes row `num_keys < 0`. -/
theorem client_requests_counted_none (e : CStr → Int) (reqs : List Request) :
    ∀ (s : Session) (n m : Nat), s.ok → s.client_data.num_keys = (n : Int) - m →
      client_requests_counted e s reqs n m = none →
      ∃ (p rest : List Request) (s1 : Session) (N M : Nat), reqs = p ++ rest ∧
        client_requests_counted e s p n m = some (s1, N, M) ∧ N < M := by
  induction reqs with
  | nil =>
    intro s n m _ _ hrun
    simp [client_requests_counted] at hrun
  | cons r rest ih =>
    intro s n m hok hnum hrun
    cases r with
    | subscribe field =>
      rcases client_subscribe_key_step e s (read_key field) hok (read_key_length field) with
        ⟨_, hneg⟩ | ⟨s2, hs2, hok2, hcase⟩
      · exact ⟨[], _, s, n, m, rfl, rfl, by omega⟩
      · simp only [client_requests_counted, client_request, hs2] at hrun
        rcases hcase with ⟨hans, hcd, _⟩ | ⟨hans, _, _, _, hcd, _⟩
        · have hne : ¬ (str "30" = str "31") := by decide
          rw [hans, if_neg hne] at hrun
          obtain ⟨p, rest2, s1, N, M, h1, h2, h3⟩ :=
            ih s2 n m hok2 (by rw [hcd]; exact hnum) hrun
          refine ⟨Request.subscribe field :: p, rest2, s1, N, M, by rw [h1]; rfl, ?_, h3⟩
          simp only [client_requests_counted, client_request, hs2, hans, if_neg hne]
          exact h2
        · rw [hans, if_pos rfl] at hrun
          obtain ⟨p, rest2, s1, N, M, h1, h2, h3⟩ := ih s2 (n + 1) m hok2 (by
            rw [hcd]
            show s.client_data.num_keys + 1 = ((n + 1 : Nat) : Int) - m
            omega) hrun
          refine ⟨Request.subscribe field :: p, rest2, s1, N, M, by rw [h1]; rfl, ?_, h3⟩
          simp only [client_requests_counted, client_request, hs2, hans, if_true]
          exact h2
    | unsubscribe field =>
      obtain ⟨s2, hs2, hok2, hcase⟩ := client_unsubscribe_key_step s (read_key field) hok
      simp only [client_requests_counted, client_request, hs2] at hrun
      rcases hcase with ⟨hans, hcd, _⟩ | ⟨hans, hnum2, _⟩
      · have hne : ¬ (str "41" = str "40") := by decide
        rw [hans, if_neg hne] at hrun
        obtain ⟨p, rest2, s1, N, M, h1, h2, h3⟩ :=
          ih s2 n m hok2 (by rw [hcd]; exact hnum) hrun
        refine ⟨Request.unsubscribe field :: p, rest2, s1, N, M, by rw [h1]; rfl, ?_, h3⟩
        simp only [client_requests_counted, client_request, hs2, hans, if_neg hne]
        exact h2
      · rw [hans, if_pos rfl] at hrun
        obtain ⟨p, rest2, s1, N, M, h1, h2, h3⟩ := ih s2 n (m + 1) hok2 (by
          rw [hnum2]
          omega) hrun
        refine ⟨Request.unsubscribe field :: p, rest2, s1, N, M, by rw [h1]; rfl, ?_, h3⟩
        simp only [client_requests_counted, client_request, hs2, hans, if_true]
        exact h2

/-- On every sequence of SUBSCRIBE and UNSUBSCRIBE requests that the frame
loop handles to its end on a freshly activated slot without a write outside the
key list, with N SUBSCRIBEs and M UNSUBSCRIBEs answered OK, `num_keys` is
N - M; when M <= N the subscribed-key list (the first `num_keys` rows) has
N - M keys and holds no key twice. -/
theorem subscribed_list_has_size_N_minus_M (e : CStr → Int)
    (thread_id request_fd response_fd notification_fd : Int) (index : IntHashTable)
    (reqs : List Request) (s : Session) (N M : Nat)
    (hrun : client_requests_counted e
      (Session.fresh thread_id request_fd response_fd notification_fd index) reqs 0 0 =
        some (s, N, M))
    (hMN : M ≤ N) :
    s.client_data.num_keys = (N : Int) - M ∧
    s.client_data.subscribed.length = N - M ∧
    s.client_data.subscribed.Nodup := by
  obtain ⟨hok, hnum⟩ := client_requests_counted_inv e reqs _ 0 0 s N M
    (fresh_ok thread_id request_fd response_fd notification_fd index) (by rfl) hrun
  refine ⟨hnum, ?_, hok.2.2.2.1⟩
  unfold ClientData.subscribed
  rw [List.length_take, hok.1]
  have := hok.2.2.1
  omega

/-- The sequence SUBSCRIBE(a), SUBSCRIBE(b), UNSUBSCRIBE(a) on the session of
thread 0, the KV table holding `a` and `b`: N = 2, M = 1, one key left. -/
theorem subscribed_list_has_size_N_minus_M_witness :
    ∃ s, client_requests_counted (kvs_key_exists_of [str "a", str "b"]) session0
        [.subscribe (key_field (str "a")), .subscribe (key_field (str "b")),
         .unsubscribe (key_field (str "a"))] 0 0 = some (s, 2, 1) ∧
      1 ≤ 2 ∧
      s.client_data.num_keys = ((2 : Nat) : Int) - (1 : Nat) ∧
      s.client_data.subscribed.length = 2 - 1 ∧
      s.client_data.subscribed.Nodup := by
  have hrun : ∃ s, client_requests_counted (kvs_key_exists_of [str "a", str "b"]) session0
        [.subscribe (key_field (str "a")), .subscribe (key_field (str "b")),
         .unsubscribe (key_field (str "a"))] 0 0 = some (s, 2, 1) := ⟨_, rfl⟩
  obtain ⟨s, hs⟩ := hrun
  exact ⟨s, hs, by decide,
    subscribed_list_has_size_N_minus_M (kvs_key_exists_of [str "a", str "b"]) 0 3 4 5
      create_int_hash_table _ s 2 1 hs (by decide)⟩


/-- C10: a sequence with N = 2 SUBSCRIBEs to distinct keys and M = 2 <= N
UNSUBSCRIBEs that take the OK branch leaves the key list.  On a fresh slot,
the KV table holding `k` and `j`, SUBSCRIBE(k), UNSUBSCRIBE(k), UNSUBSCRIBE(k)
are answered `31`, `40`, `40`: N = 1, M = 2 and `num_keys = -1`.  SUBSCRIBE(j)
then passes the three tests of `client_subscribe_key` (`j` is in the KV table,
`num_keys < MAX_NUMBER_SUB`, no row holds `j`) and
`add_key_to_subscribed_list` copies `j` to row -1, outside the array, so the
frame loop has no defined result on the four requests.  The same holds for
SUBSCRIBE(k) after one UNSUBSCRIBE of the empty key (N = 1, M = 1). -/
theorem subscribe_after_surplus_unsubscribe_leaves_key_list :
    (client_requests_counted (kvs_key_exists_of [str "k", str "j"]) session0
        [.subscribe (key_field (str "k")), .unsubscribe (key_field (str "k")),
         .unsubscribe (key_field (str "k"))] 0 0).map
      (fun r => (r.1.response.data, r.2.1, r.2.2, r.1.client_data.num_keys)) =
      some (str "314040", 1, 2, -1) ∧
    (client_requests_counted (kvs_key_exists_of [str "k", str "j"]) session0
        [.subscribe (key_field (str "k")), .unsubscribe (key_field (str "k")),
         .unsubscribe (key_field (str "k"))] 0 0).map
      (fun r => (kvs_key_exists_of [str "k", str "j"] (str "j"),
        decide (r.1.client_data.num_keys ≥ (MAX_NUMBER_SUB : Int)),
        subscribe_key_index_list (str "j") r.1.client_data.keys,
        (add_key_to_subscribed_list (str "j") r.1.client_data.keys
          r.1.client_data.num_keys).isNone)) =
      some (0, false, -1, true) ∧
    (client_requests_counted (kvs_key_exists_of [str "k", str "j"]) session0
        [.subscribe (key_field (str "k")), .unsubscribe (key_field (str "k")),
         .unsubscribe (key_field (str "k")), .subscribe (key_field (str "j"))] 0 0).isNone
      = true ∧
    (client_requests_counted (kvs_key_exists_of [str "k", str "j"]) session0
        [.unsubscribe (List.replicate 40 0)] 0 0).map
      (fun r => (r.1.response.data, r.2.1, r.2.2, r.1.client_data.num_keys)) =
      some (str "40", 0, 1, -1) ∧
    (client_requests_counted (kvs_key_exists_of [str "k", str "j"]) session0
        [.unsubscribe (List.replicate 40 0), .subscribe (key_field (str "k"))] 0 0).isNone
      = true ∧
    str "k" ≠ str "j" := by
  refine ⟨?_, ?_, ?_, ?_, ?_, ?_⟩ <;> decide

/-! ## Theorems: teardown of a session -/

/-- C11: the Subscription Index keeps the notification handle of a session
after its teardown.  The session starts from a fresh slot with the handle 5
and an empty index, and sends SUBSCRIBE a, SUBSCRIBE b, UNSUBSCRIBE b,
UNSUBSCRIBE b; the four answers are `31`, `31`, `40`, `40`, the second
UNSUBSCRIBE finds the vacated row of `b` and brings `num_keys` to 0, so
`disconnect_client` calls `remove_key` for no key and the bucket of `a` still
holds the handle 5 when the slot is cleared. -/
theorem disconnect_client_leaves_handle_in_index :
    (session_then_disconnect (kvs_key_exists_of [str "a", str "b"]) 7 session0
        [Request.subscribe (key_field (str "a")), Request.subscribe (key_field (str "b")),
         Request.unsubscribe (key_field (str "b")), Request.unsubscribe (key_field (str "b"))]
        0).map
      (fun r => (r.1.response.data, r.1.client_data.active, r.1.client_data.num_keys,
                 get_fds r.1.subscribed_keys (str "a")))
      = some (str "3131404020", 0, 0, [5]) ∧
    (get_fds session0.subscribed_keys (str "a") = [] ∧
      session0.client_data.fds = [3, 4, 5] ∧ session0.client_data.num_keys = 0) := by
  decide

/-- Source `disconnect_client`: the slot after the teardown. -/
theorem disconnect_client_slot (close : Int → Int) (client_sem : Nat) (s : Session)
    (cdisconnected : Int) (hn : s.client_data.num_keys ≤ MAX_NUMBER_SUB) :
    ∃ s1, disconnect_client close client_sem s cdisconnected = some (s1, client_sem + 1) ∧
      s1.client_data.active = 0 ∧ s1.client_data.fds = [-1, -1, -1] ∧
      s1.client_data.num_keys = 0 ∧ s1.client_data.keys = List.replicate MAX_NUMBER_SUB [] ∧
      s1.client_data.thread_id = s.client_data.thread_id := by
  simp only [disconnect_client, if_pos hn]
  exact ⟨_, rfl, rfl, rfl, rfl, rfl, rfl⟩

/-- C12: an inactive slot has the three handles -1 and no subscribed key.
Each of the slots that `start_client_threads` initialises has `active = 0`, the
handles (-1, -1, -1), `num_keys = 0` and ten empty rows; `disconnect_client` on
a slot (whose `num_keys` is within the array) returns with `active = 0`, the
handles (-1, -1, -1), `num_keys = 0`, ten empty rows, and the semaphore one
permit higher. -/
theorem inactive_slot_is_cleared (close : Int → Int) (client_sem : Nat)
    (s : Session) (cdisconnected : Int) (hn : s.client_data.num_keys ≤ MAX_NUMBER_SUB) :
    (start_client_threads.1.length = MAX_SESSION_COUNT ∧
      ∀ c ∈ start_client_threads.1,
        c.active = 0 ∧ c.fds = [-1, -1, -1] ∧ c.num_keys = 0 ∧
        c.keys = List.replicate MAX_NUMBER_SUB [] ∧ c.subscribed = []) ∧
    ∃ s1, disconnect_client close client_sem s cdisconnected = some (s1, client_sem + 1) ∧
      s1.client_data.active = 0 ∧ s1.client_data.fds = [-1, -1, -1] ∧
      s1.client_data.num_keys = 0 ∧ s1.client_data.keys = List.replicate MAX_NUMBER_SUB [] ∧
      s1.client_data.subscribed = [] := by
  refine ⟨⟨by decide, ?_⟩, ?_⟩
  · intro c hc
    obtain ⟨i, _, hi⟩ := List.mem_map.1 hc
    subst hi
    exact ⟨rfl, rfl, rfl, rfl, rfl⟩
  · obtain ⟨s1, h, ha, hf, hk, hr, _⟩ := disconnect_client_slot close client_sem s cdisconnected hn
    refine ⟨s1, h, ha, hf, hk, hr, ?_⟩
    simp [ClientData.subscribed, hk]

/-- C12 at the session that subscribed `a` and `b`, with 7 permits and closes
that fail. -/
theorem inactive_slot_is_cleared_witness :
    session_ab.client_data.num_keys ≤ MAX_NUMBER_SUB ∧
    ((start_client_threads.1.length = MAX_SESSION_COUNT ∧
      ∀ c ∈ start_client_threads.1,
        c.active = 0 ∧ c.fds = [-1, -1, -1] ∧ c.num_keys = 0 ∧
        c.keys = List.replicate MAX_NUMBER_SUB [] ∧ c.subscribed = []) ∧
    ∃ s1, disconnect_client (fun _ => -1) 7 session_ab 0 = some (s1, 7 + 1) ∧
      s1.client_data.active = 0 ∧ s1.client_data.fds = [-1, -1, -1] ∧
      s1.client_data.num_keys = 0 ∧ s1.client_data.keys = List.replicate MAX_NUMBER_SUB [] ∧
      s1.client_data.subscribed = []) :=
  ⟨by decide, inactive_slot_is_cleared (fun _ => -1) 7 session_ab 0 (by decide)⟩

/-! ## Theorems: response frames -/

theorem toNat_digit (code : Nat) (hc : code < 10) : (digit code).toNat = code + 48 := by
  simp [digit, UInt8.toNat, UInt8.ofNat]
  omega

/-- The status that the client API computes from the second byte of a response
is `code` exactly when that byte is the digit of `code`. -/
theorem responsev_eq (op b c : UInt8) (code : Nat) (hc : code < 10) :
    responsev [op, b, c] = code ↔ b = digit code := by
  have hb : b.toNat < 256 := UInt8.toNat_lt b
  have hd := toNat_digit code hc
  unfold responsev
  simp only [List.getD_cons_succ, List.getD_cons_zero]
  constructor
  · intro h
    apply UInt8.toNat.inj
    rw [hd]
    omega
  · intro h
    subst h
    rw [hd]
    omega

/-- Source `disconnect_client`: the bytes sent to a client that is still
connected. -/
theorem disconnect_client_answer (close : Int → Int) (client_sem : Nat) (s : Session)
    (hn : s.client_data.num_keys ≤ MAX_NUMBER_SUB) (hw : s.response.writes_left = none) :
    ∃ s1, disconnect_client close client_sem s 0 = some (s1, client_sem + 1) ∧
      answer s s1 =
        if (0 ≤ s.client_data.fds.getD 0 0 ∧ close (s.client_data.fds.getD 0 0) = -1) ∨
            (0 ≤ s.client_data.fds.getD 2 0 ∧ close (s.client_data.fds.getD 2 0) = -1)
        then str "21" else str "20" := by
  simp only [disconnect_client, if_pos hn]
  refine ⟨_, rfl, ?_⟩
  simp only [if_true]
  show answer s (send_response s _ _ _) = _
  rw [answer_send_response_self s _ _ _ hw]
  by_cases h2 : 0 ≤ s.client_data.fds.getD 2 0 ∧ close (s.client_data.fds.getD 2 0) = -1
  · simp only [ge_iff_le, h2, and_self, if_true, or_true]
    decide
  · by_cases h0 : 0 ≤ s.client_data.fds.getD 0 0 ∧ close (s.client_data.fds.getD 0 0) = -1
    · simp only [ge_iff_le, h2, h0, and_self, if_true, if_false, or_false]
      decide
    · simp only [ge_iff_le, h2, h0, if_false, or_false]
      decide

/-- C13: every response frame is two bytes, the opcode digit and a status
digit, and both sides read the status the same way.  CONNECT: the worker
sends `10`, `handle_fifo` sends `11` on a failure, and `kvs_connect` returns 0
on the first and 1 on the second.  SUBSCRIBE on a slot that satisfies the
invariant: the answer is `31` when the key was stored and `30` when the slot
is unchanged, and `kvs_subscribe` returns 0 on `31` and 1 on `30`.
UNSUBSCRIBE: the answer is `40` when `num_keys` was decreased and `41` when the
slot is unchanged, and `kvs_unsubscribe` returns 0 on `40` and 1 on `41`.
DISCONNECT: the answer is `21` when a close failed and `20` otherwise, and
`kvs_disconnect` (its own closes succeeding) returns 1 on `21` and 0 on `20`.
For every status byte the client functions return 0 exactly on the digit `0`
(CONNECT, UNSUBSCRIBE, DISCONNECT) and on the digit `1` (SUBSCRIBE). -/
theorem response_frames_agree (e : CStr → Int) (s : Session) (key : CStr)
    (close : Int → Int) (client_sem : Nat)
    (hok : s.ok) (hk : key.length ≤ MAX_STRING_SIZE) :
    (client_thread_connect_response.take (MAX_RESPONSE_SIZE - 1) = str "10" ∧
      kvs_connect_return (response_buffer (str "10")) = 0 ∧
      handle_fifo_error_response.take (MAX_RESPONSE_SIZE - 1) = str "11" ∧
      kvs_connect_return (response_buffer (str "11")) = 1) ∧
    (∀ s1, client_subscribe_key e s key = some s1 →
      (answer s s1 = str "31" ∧ s1.client_data.num_keys = s.client_data.num_keys + 1 ∧
          kvs_subscribe_return (response_buffer (answer s s1)) = 0) ∨
      (answer s s1 = str "30" ∧ s1.client_data = s.client_data ∧
          kvs_subscribe_return (response_buffer (answer s s1)) = 1)) ∧
    (∃ s1, client_unsubscribe_key s key = some s1 ∧
      ((answer s s1 = str "40" ∧ s1.client_data.num_keys = s.client_data.num_keys - 1 ∧
          kvs_unsubscribe_return (response_buffer (answer s s1)) = 0) ∨
       (answer s s1 = str "41" ∧ s1.client_data = s.client_data ∧
          kvs_unsubscribe_return (response_buffer (answer s s1)) = 1))) ∧
    (∃ s1, disconnect_client close client_sem s 0 = some (s1, client_sem + 1) ∧
      (((0 ≤ s.client_data.fds.getD 0 0 ∧ close (s.client_data.fds.getD 0 0) = -1) ∨
          (0 ≤ s.client_data.fds.getD 2 0 ∧ close (s.client_data.fds.getD 2 0) = -1)) →
        answer s s1 = str "21" ∧
          kvs_disconnect_return 1 (response_buffer (answer s s1)) 0 0 0 = 1) ∧
      (¬ ((0 ≤ s.client_data.fds.getD 0 0 ∧ close (s.client_data.fds.getD 0 0) = -1) ∨
          (0 ≤ s.client_data.fds.getD 2 0 ∧ close (s.client_data.fds.getD 2 0) = -1)) →
        answer s s1 = str "20" ∧
          kvs_disconnect_return 1 (response_buffer (answer s s1)) 0 0 0 = 0)) ∧
    (∀ op b : UInt8,
      (kvs_connect_return (response_buffer [op, b]) = 0 ↔ b = digit 0) ∧
      (kvs_unsubscribe_return (response_buffer [op, b]) = 0 ↔ b = digit 0) ∧
      (kvs_disconnect_return 1 (response_buffer [op, b]) 0 0 0 = 0 ↔ b = digit 0) ∧
      (kvs_subscribe_return (response_buffer [op, b]) = 0 ↔ b = digit 1)) := by
  refine ⟨by decide, ?_, ?_, ?_, ?_⟩
  · intro s1 h1
    rcases client_subscribe_key_step e s key hok hk with ⟨hnone, _⟩ | ⟨s2, h2, _, hcase⟩
    · rw [hnone] at h1
      cases h1
    · rw [h2] at h1
      cases h1
      rcases hcase with ⟨ha, hcd, _⟩ | ⟨ha, _, _, _, hcd, _⟩
      · right
        refine ⟨ha, hcd, ?_⟩
        rw [ha]
        decide
      · left
        refine ⟨ha, by rw [hcd], ?_⟩
        rw [ha]
        decide
  · obtain ⟨s1, h1, _, hcase⟩ := client_unsubscribe_key_step s key hok
    refine ⟨s1, h1, ?_⟩
    rcases hcase with ⟨ha, hcd, _⟩ | ⟨ha, hn, _⟩
    · right
      refine ⟨ha, hcd, ?_⟩
      rw [ha]
      decide
    · left
      refine ⟨ha, hn, ?_⟩
      rw [ha]
      decide
  · obtain ⟨s1, h1, ha⟩ := disconnect_client_answer close client_sem s hok.2.2.1 hok.2.2.2.2
    refine ⟨s1, h1, ?_, ?_⟩
    · intro hc
      rw [if_pos hc] at ha
      refine ⟨ha, ?_⟩
      rw [ha]
      decide
    · intro hc
      rw [if_neg hc] at ha
      refine ⟨ha, ?_⟩
      rw [ha]
      decide
  · intro op b
    have hbuf : response_buffer [op, b] = [op, b, 0] := rfl
    rw [hbuf]
    have h0 := responsev_eq op b 0 0 (by decide)
    have h1 := responsev_eq op b 0 1 (by decide)
    simp only [kvs_connect_return, kvs_unsubscribe_return, kvs_disconnect_return,
      kvs_subscribe_return, OP_CODE_OK_CDU, OP_CODE_OK_S]
    refine ⟨?_, ?_, ?_, ?_⟩
    · rw [← h0]
      by_cases h : responsev [op, b, 0] = 0 <;> simp [h]
    · rw [← h0]
      by_cases h : responsev [op, b, 0] = 0 <;> simp [h]
    · rw [← h0]
      by_cases h : responsev [op, b, 0] = 0 <;> simp [h]
    · rw [← h1]
      by_cases h : responsev [op, b, 0] = 1 <;> simp [h]

/-- C13 at the session that subscribed `a` and `b`, for the key `b` and closes
that succeed. -/
theorem response_frames_agree_witness :
    session_ab.ok ∧ (str "b").length ≤ MAX_STRING_SIZE ∧
    (∃ s1, client_unsubscribe_key session_ab (str "b") = some s1 ∧
      ((answer session_ab s1 = str "40" ∧
          s1.client_data.num_keys = session_ab.client_data.num_keys - 1 ∧
          kvs_unsubscribe_return (response_buffer (answer session_ab s1)) = 0) ∨
       (answer session_ab s1 = str "41" ∧ s1.client_data = session_ab.client_data ∧
          kvs_unsubscribe_return (response_buffer (answer session_ab s1)) = 1))) :=
  have hok : session_ab.ok := by
    refine ⟨by decide, by decide, by decide, by decide, rfl⟩
  ⟨hok, by decide,
    (response_frames_agree (kvs_key_exists_of [str "a", str "b"]) session_ab (str "b")
      (fun _ => 0) 7 hok (by decide)).2.2.1⟩

/-! ## Theorems: notification frames -/

theorem snprintf_all (size : Nat) (text : CStr) (h : text.length < size) :
    snprintf size text = text := by
  unfold snprintf
  exact List.take_of_length_le (by omega)

/-- The buffer of `notify_clients` for a text that fits: the text, then NUL
bytes. -/
theorem notification_buffer_take (key : CStr) (value : Option CStr)
    (h : (notification_text key value).length < MAX_WRITE_SIZE_RESPONSE) :
    (notification_buffer key value).take (MAX_WRITE_SIZE_RESPONSE - 1) =
      notification_text key value ++
        List.replicate (MAX_WRITE_SIZE_RESPONSE - 1 - (notification_text key value).length) 0 := by
  unfold notification_buffer
  rw [snprintf_all _ _ h, List.take_append_eq_append_take,
    List.take_of_length_le (by omega), List.take_replicate]
  congr 2
  omega

theorem notification_text_write (key value : CStr) (hk : key.length ≤ MAX_STRING_SIZE)
    (hv : value.length ≤ MAX_WRITE_SIZE) :
    notification_text key (some value) = str "(" ++ key ++ str "," ++ value ++ str ")" := by
  simp only [notification_text, List.take_of_length_le hk, List.take_of_length_le hv]

theorem notification_text_delete (key : CStr) (hk : key.length ≤ MAX_STRING_SIZE) :
    notification_text key none = str "(" ++ key ++ str ",DELETED)" := by
  simp only [notification_text, List.take_of_length_le hk]
  simp [str]

theorem notification_text_write_length (key value : CStr) :
    (str "(" ++ key ++ str "," ++ value ++ str ")").length = key.length + value.length + 3 := by
  simp [str]
  omega

theorem notification_text_delete_length (key : CStr) :
    (str "(" ++ key ++ str ",DELETED)").length = key.length + 10 := by
  simp [str]

/-- Source `notify_clients`: one write of the same bytes per descriptor of the
bucket. -/
theorem notify_clients_eq (subscribed_keys : IntHashTable) (key : CStr) (value : Option CStr) :
    notify_clients subscribed_keys key value =
      (get_fds subscribed_keys key).map
        (fun fd => (fd, (notification_buffer key value).take (MAX_WRITE_SIZE_RESPONSE - 1))) := by
  unfold notify_clients
  simp only
  split
  · next h => rw [List.length_eq_zero.1 h]; rfl
  · rfl

/-- C14: the frame that `notify_clients` writes to each descriptor of the
bucket of the key is 300 bytes: for a key of at most 40 bytes and a value of
at most 256 bytes the whole text `(key,value)`, for a delete the whole text
`(key,DELETED)`, each followed by NUL bytes only. -/
theorem notify_clients_frame (subscribed_keys : IntHashTable) (key value : CStr)
    (hk : key.length ≤ MAX_STRING_SIZE) (hv : value.length ≤ MAX_WRITE_SIZE) :
    (notify_clients subscribed_keys key (some value) =
        (get_fds subscribed_keys key).map
          (fun fd => (fd, str "(" ++ key ++ str "," ++ value ++ str ")" ++
            List.replicate
              (300 - (str "(" ++ key ++ str "," ++ value ++ str ")").length) 0)) ∧
      (str "(" ++ key ++ str "," ++ value ++ str ")" ++
        List.replicate
          (300 - (str "(" ++ key ++ str "," ++ value ++ str ")").length) 0).length = 300) ∧
    (notify_clients subscribed_keys key none =
        (get_fds subscribed_keys key).map
          (fun fd => (fd, str "(" ++ key ++ str ",DELETED)" ++
            List.replicate (300 - (str "(" ++ key ++ str ",DELETED)").length) 0)) ∧
      (str "(" ++ key ++ str ",DELETED)" ++
        List.replicate (300 - (str "(" ++ key ++ str ",DELETED)").length) 0).length = 300) := by
  have hlw := notification_text_write_length key value
  have hld := notification_text_delete_length key
  have hk1 : key.length ≤ 40 := hk
  have hv1 : value.length ≤ 256 := hv
  refine ⟨⟨?_, ?_⟩, ?_, ?_⟩
  · rw [notify_clients_eq, notification_buffer_take, notification_text_write key value hk hv]
    · rfl
    · rw [notification_text_write key value hk hv, hlw]
      show _ < 301
      omega
  · rw [List.length_append, List.length_replicate, hlw]
    omega
  · rw [notify_clients_eq, notification_buffer_take, notification_text_delete key hk]
    · rfl
    · rw [notification_text_delete key hk, hld]
      show _ < 301
      omega
  · rw [List.length_append, List.length_replicate, hld]
    omega

/-- C14 for the key `ab` and the value `cd`, with two subscribed descriptors. -/
theorem notify_clients_frame_witness :
    (str "ab").length ≤ MAX_STRING_SIZE ∧ (str "cd").length ≤ MAX_WRITE_SIZE ∧
    notify_clients (add_key (add_key create_int_hash_table (str "ab") 5).2 (str "ab") 8).2
        (str "ab") (some (str "cd")) =
      [(5, str "(ab,cd)" ++ List.replicate 293 0), (8, str "(ab,cd)" ++ List.replicate 293 0)] :=
  ⟨by decide, by decide,
    (notify_clients_frame
      (add_key (add_key create_int_hash_table (str "ab") 5).2 (str "ab") 8).2
      (str "ab") (str "cd") (by decide) (by decide)).1.1.trans rfl⟩

/-! ## Theorems: printing a notification -/

theorem takeWhile_ne_zero_append (t : List UInt8) (k : Nat) (h : ∀ b ∈ t, b ≠ 0) :
    (t ++ List.replicate k 0).takeWhile (fun b => b ≠ 0) = t := by
  induction t with
  | nil => cases k <;> simp [List.replicate_succ]
  | cons a t ih =>
    have ha : a ≠ 0 := h a (List.mem_cons_self _ _)
    simp only [List.cons_append, List.takeWhile_cons, ha, ne_eq, not_false_eq_true,
      decide_True, if_true]
    rw [ih (fun b hb => h b (List.mem_cons_of_mem _ hb))]

theorem takeWhile_ne_zero_cons_zero (t rest : List UInt8) (h : ∀ b ∈ t, b ≠ 0) :
    (t ++ 0 :: rest).takeWhile (fun b => b ≠ 0) = t := by
  induction t with
  | nil => simp
  | cons a t ih =>
    have ha : a ≠ 0 := h a (List.mem_cons_self _ _)
    simp only [List.cons_append, List.takeWhile_cons, ha, ne_eq, not_false_eq_true,
      decide_True, if_true]
    rw [ih (fun b hb => h b (List.mem_cons_of_mem _ hb))]

theorem map_nul_to_space (t : List UInt8) (k : Nat) (h : ∀ b ∈ t, b ≠ 0) :
    (t ++ List.replicate k 0).map (fun b => if b = 0 then (32 : UInt8) else b) =
      t ++ List.replicate k 32 := by
  rw [List.map_append, List.map_replicate]
  congr 1
  conv_rhs => rw [← List.map_id t]
  apply List.map_congr_left
  intro b hb
  simp [h b hb]

theorem getD_append_length (t rest : List UInt8) (c d : UInt8) :
    (t ++ c :: rest).getD t.length d = c := by
  induction t with
  | nil => rfl
  | cons a t ih => simpa using ih

/-- The last loop of `print_notification` on a text that ends in a byte other
than a space, followed by spaces: the NUL is written right after the text. -/
theorem print_notification_cut_spaces (t : List UInt8) (c : UInt8) (hc : c ≠ 32) (k : Nat) :
    ∀ rest : List UInt8,
      print_notification_cut (t ++ [c] ++ List.replicate k 32 ++ rest) ((t ++ [c]).length + k) =
        (t ++ [c] ++ List.replicate k 32 ++ rest).set (t ++ [c]).length 0 := by
  induction k with
  | zero =>
    intro rest
    have hlen : (t ++ [c]).length + 0 = t.length + 1 := by simp
    rw [hlen]
    unfold print_notification_cut
    have hget : (t ++ [c] ++ List.replicate 0 32 ++ rest).getD t.length 0 = c := by
      have h := getD_append_length t rest c 0
      simpa using h
    rw [hget, if_pos hc]
    simp
  | succ k ih =>
    intro rest
    have hlen : (t ++ [c]).length + (k + 1) = ((t ++ [c]).length + k) + 1 := by omega
    rw [hlen]
    unfold print_notification_cut
    have hsplit : t ++ [c] ++ List.replicate (k + 1) 32 ++ rest =
        t ++ [c] ++ List.replicate k 32 ++ (32 :: rest) := by
      rw [List.replicate_succ', List.append_assoc, List.append_assoc, List.append_assoc,
        List.append_assoc, List.append_assoc]
      simp
    have hget : (t ++ [c] ++ List.replicate (k + 1) 32 ++ rest).getD ((t ++ [c]).length + k) 0
        = 32 := by
      rw [hsplit, show (t ++ [c]).length + k = (t ++ [c] ++ List.replicate k 32).length by
        simp only [List.length_append, List.length_replicate]]
      exact getD_append_length _ rest 32 0
    rw [hget]
    simp only [ne_eq, not_true_eq_false, if_false]
    rw [hsplit]
    exact ih (32 :: rest)

theorem set_after_text (u : List UInt8) (k : Nat) :
    ∃ rest, (u ++ List.replicate k 32 ++ [0]).set u.length 0 = u ++ 0 :: rest := by
  cases k with
  | zero => exact ⟨[], by simp [List.set_append_right]⟩
  | succ k =>
    exact ⟨List.replicate k 32 ++ [0], by simp [List.replicate_succ, List.set_append_right]⟩

/-- Source `print_notification` on a text without NUL that ends in a byte other
than a space, followed by NUL bytes up to `length`: the text and a newline. -/
theorem print_notification_padded (t : List UInt8) (c : UInt8) (k : Nat)
    (h0 : ∀ b ∈ t, b ≠ 0) (hc0 : c ≠ 0) (hc : c ≠ 32) :
    print_notification (t ++ [c] ++ List.replicate k 0) ((t ++ [c]).length + k) =
      t ++ [c] ++ str "\n" := by
  have hu : ∀ b ∈ t ++ [c], b ≠ 0 := by
    intro b hb
    rcases List.mem_append.1 hb with hb | hb
    · exact h0 b hb
    · rw [List.mem_singleton.1 hb]; exact hc0
  unfold print_notification strncpy
  simp only
  have ht : (t ++ [c]).take ((t ++ [c]).length + k) = t ++ [c] :=
    List.take_of_length_le (by omega)
  rw [takeWhile_ne_zero_append (t ++ [c]) k hu, ht,
    show (t ++ [c]).length + k - (t ++ [c]).length = k by omega,
    List.take_left' (by simp only [List.length_append, List.length_replicate]),
    List.drop_left' (by simp only [List.length_append, List.length_replicate]),
    map_nul_to_space (t ++ [c]) k hu, print_notification_cut_spaces t c hc k [0]]
  obtain ⟨rest, hrest⟩ := set_after_text (t ++ [c]) k
  rw [hrest, takeWhile_ne_zero_cons_zero (t ++ [c]) rest hu]

/-- The bytes that `kvs_notifications` prints for a frame of 300 bytes made of a
text without NUL that ends in a byte other than a space and of NUL bytes. -/
theorem kvs_notifications_print_padded (t : List UInt8) (c : UInt8)
    (h0 : ∀ b ∈ t, b ≠ 0) (hc0 : c ≠ 0) (hc : c ≠ 32) (hlen : (t ++ [c]).length ≤ 300) :
    kvs_notifications_print (t ++ [c] ++ List.replicate (300 - (t ++ [c]).length) 0) =
      t ++ [c] ++ str "\n" := by
  unfold kvs_notifications_print
  have hl : (t ++ [c] ++ List.replicate (300 - (t ++ [c]).length) 0).length = 300 := by
    rw [List.length_append, List.length_replicate]
    omega
  rw [List.take_of_length_le (by rw [hl]; decide), hl, List.append_assoc,
    ← List.replicate_add]
  have h := print_notification_padded t c (300 - (t ++ [c]).length + (301 - 300)) h0 hc0 hc
  have hn : (t ++ [c]).length + (300 - (t ++ [c]).length + (301 - 300)) = 301 := by omega
  rw [hn] at h
  exact h

/-- C15: for a key of at most 40 bytes and a value of at most 256 bytes, both
without NUL, `kvs_notifications` prints for the frame that `notify_clients`
built exactly `(key,value)` and a newline, and for the frame of a delete
exactly `(key,DELETED)` and a newline. -/
theorem print_notification_prints_pair (key value : CStr)
    (hk : key.length ≤ MAX_STRING_SIZE) (hv : value.length ≤ MAX_WRITE_SIZE)
    (hk0 : ∀ b ∈ key, b ≠ 0) (hv0 : ∀ b ∈ value, b ≠ 0) :
    kvs_notifications_print
        ((notification_buffer key (some value)).take (MAX_WRITE_SIZE_RESPONSE - 1)) =
      str "(" ++ key ++ str "," ++ value ++ str ")" ++ str "\n" ∧
    kvs_notifications_print
        ((notification_buffer key none).take (MAX_WRITE_SIZE_RESPONSE - 1)) =
      str "(" ++ key ++ str ",DELETED)" ++ str "\n" := by
  have hlw := notification_text_write_length key value
  have hld := notification_text_delete_length key
  have hk1 : key.length ≤ 40 := hk
  have hv1 : value.length ≤ 256 := hv
  have hsw : str "(" ++ key ++ str "," ++ value ++ str ")" =
      (str "(" ++ key ++ str "," ++ value) ++ [41] := rfl
  have hsd : str "(" ++ key ++ str ",DELETED)" = (str "(" ++ key ++ str ",DELETED") ++ [41] := by
    rw [show str ",DELETED)" = str ",DELETED" ++ [41] by decide, ← List.append_assoc]
  constructor
  · rw [notification_buffer_take, notification_text_write key value hk hv]
    · show kvs_notifications_print (_ ++ List.replicate (300 - _) 0) = _
      rw [hsw]
      apply kvs_notifications_print_padded _ 41 _ (by decide) (by decide)
      · rw [← hsw, hlw]; omega
      · intro b hb
        simp only [List.mem_append] at hb
        rcases hb with ((hb | hb) | hb) | hb
        · revert b; decide
        · exact hk0 b hb
        · revert b; decide
        · exact hv0 b hb
    · rw [notification_text_write key value hk hv, hlw]
      show _ < 301
      omega
  · rw [notification_buffer_take, notification_text_delete key hk]
    · show kvs_notifications_print (_ ++ List.replicate (300 - _) 0) = _
      rw [hsd]
      apply kvs_notifications_print_padded _ 41 _ (by decide) (by decide)
      · rw [← hsd, hld]; omega
      · intro b hb
        simp only [List.mem_append] at hb
        rcases hb with (hb | hb) | hb
        · revert b; decide
        · exact hk0 b hb
        · revert b; decide
    · rw [notification_text_delete key hk, hld]
      show _ < 301
      omega

/-- C15 for the key `ab` and the value `c d`. -/
theorem print_notification_prints_pair_witness :
    (str "ab").length ≤ MAX_STRING_SIZE ∧ (str "c d").length ≤ MAX_WRITE_SIZE ∧
    (∀ b ∈ str "ab", b ≠ 0) ∧ (∀ b ∈ str "c d", b ≠ 0) ∧
    kvs_notifications_print
        ((notification_buffer (str "ab") (some (str "c d"))).take (MAX_WRITE_SIZE_RESPONSE - 1)) =
      str "(ab,c d)\n" ∧
    kvs_notifications_print
        ((notification_buffer (str "ab") none).take (MAX_WRITE_SIZE_RESPONSE - 1)) =
      str "(ab,DELETED)\n" :=
  ⟨by decide, by decide, by decide, by decide,
    print_notification_prints_pair (str "ab") (str "c d") (by decide) (by decide)
      (by decide) (by decide)⟩

/-! ## Theorems: request frames -/

theorem strncpy_cstr (t : List UInt8) (n : Nat) (rest : List UInt8)
    (h0 : ∀ b ∈ t, b ≠ 0) (hl : t.length ≤ n) :
    strncpy (t ++ 0 :: rest) n = t ++ List.replicate (n - t.length) 0 := by
  unfold strncpy
  rw [takeWhile_ne_zero_cons_zero t rest h0, List.take_of_length_le hl]

theorem strncpy_string (t : List UInt8) (n : Nat)
    (h0 : ∀ b ∈ t, b ≠ 0) (hl : t.length ≤ n) :
    strncpy t n = t ++ List.replicate (n - t.length) 0 := by
  unfold strncpy
  have h := takeWhile_ne_zero_append t 0 h0
  simp only [List.replicate_zero, List.append_nil] at h
  rw [h, List.take_of_length_le hl]

theorem replicate_succ_zero (k : Nat) (hk : 0 < k) :
    List.replicate k (0 : UInt8) = 0 :: List.replicate (k - 1) 0 := by
  cases k with
  | zero => omega
  | succ k => rfl

/-- A field of a CONNECT message: the path and NUL bytes up to
`MAX_PIPE_PATH_LENGTH`. -/
theorem strncpy_store_path (p : CStr) (h0 : ∀ b ∈ p, b ≠ 0)
    (hl : p.length ≤ MAX_PIPE_PATH_LENGTH - 1) :
    strncpy (store_path p) MAX_PIPE_PATH_LENGTH =
      p ++ List.replicate (MAX_PIPE_PATH_LENGTH - p.length) 0 := by
  unfold store_path
  rw [strncpy_string p _ h0 hl, List.append_assoc]
  have hl1 : p.length ≤ 39 := hl
  cases hk : MAX_PIPE_PATH_LENGTH - 1 - p.length with
  | zero =>
    simp only [List.replicate_zero, List.nil_append]
    exact strncpy_cstr p _ [] h0 (by show p.length ≤ 40; omega)
  | succ k =>
    rw [List.replicate_succ, List.cons_append]
    exact strncpy_cstr p _ _ h0 (by show p.length ≤ 40; omega)

theorem trim_trailing_whitespace_id (p : CStr)
    (ht : ∀ c, p.getLast? = some c → isspace c = false) :
    trim_trailing_whitespace p = p := by
  unfold trim_trailing_whitespace
  rw [List.rdropWhile_eq_self_iff]
  intro hl
  have h := ht (p.getLast hl) (List.getLast?_eq_getLast _ hl)
  simp [h]

theorem set_zero_after (p xs : List UInt8) (n : Nat) (h : p.length ≤ n) :
    ∃ r : List UInt8, (p ++ 0 :: xs).set n 0 = p ++ 0 :: r := by
  rw [List.set_append_right _ _ h]
  cases n - p.length with
  | zero => exact ⟨_, rfl⟩
  | succ j => exact ⟨_, rfl⟩

/-- One path of `handle_fifo` on a field that holds a path of at most 39 bytes
without trailing white space. -/
theorem handle_fifo_path_field (p : CStr) (rest : List UInt8) (h0 : ∀ b ∈ p, b ≠ 0)
    (hl : p.length ≤ MAX_PIPE_PATH_LENGTH - 1)
    (ht : ∀ c, p.getLast? = some c → isspace c = false) :
    handle_fifo_path (p ++ List.replicate (MAX_PIPE_PATH_LENGTH - p.length) 0 ++ rest) = p := by
  have hl1 : p.length ≤ 39 := hl
  have hpos : 0 < MAX_PIPE_PATH_LENGTH - p.length := by
    show 0 < 40 - p.length
    omega
  unfold handle_fifo_path
  rw [replicate_succ_zero _ hpos, List.append_assoc, List.cons_append,
    strncpy_cstr p _ _ h0 (by show p.length ≤ 40; omega),
    replicate_succ_zero _ hpos, List.append_assoc, List.cons_append]
  obtain ⟨r, hr⟩ := set_zero_after p
    (List.replicate (MAX_PIPE_PATH_LENGTH - p.length - 1) 0 ++ [0]) (MAX_PIPE_PATH_LENGTH - 1) hl
  rw [hr, takeWhile_ne_zero_cons_zero p r h0]
  exact trim_trailing_whitespace_id p ht

theorem padded_length (n : Nat) (s : CStr) (h : s.length ≤ n) : (padded n s).length = n := by
  unfold padded
  rw [List.length_append, List.length_replicate]
  omega

theorem op_code_digit (code : Nat) (hc : code < 10) (rest : List UInt8) :
    op_code (digit code :: rest) = code := by
  unfold op_code
  rw [List.getD_cons_zero, toNat_digit code hc]
  omega

/-- The bytes of a CONNECT message for three paths of at most 39 bytes. -/
theorem kvs_connect_message_eq (req resp notif : CStr)
    (hreq : PipePath req) (hresp : PipePath resp) (hnotif : PipePath notif) :
    kvs_connect_message req resp notif =
      digit OP_CODE_CONNECT ::
        (padded MAX_PIPE_PATH_LENGTH req ++ (padded MAX_PIPE_PATH_LENGTH resp ++
          padded MAX_PIPE_PATH_LENGTH notif)) := by
  unfold kvs_connect_message
  simp only
  rw [strncpy_store_path req hreq.2.1 hreq.1, strncpy_store_path resp hresp.2.1 hresp.1,
    strncpy_store_path notif hnotif.2.1 hnotif.1]
  have h1 := padded_length MAX_PIPE_PATH_LENGTH req (Nat.le_trans hreq.1 (by decide))
  have h2 := padded_length MAX_PIPE_PATH_LENGTH resp (Nat.le_trans hresp.1 (by decide))
  have h3 := padded_length MAX_PIPE_PATH_LENGTH notif (Nat.le_trans hnotif.1 (by decide))
  show List.take (BUFFER_SIZE - 1)
    ([digit OP_CODE_CONNECT] ++ padded MAX_PIPE_PATH_LENGTH req ++
      padded MAX_PIPE_PATH_LENGTH resp ++ padded MAX_PIPE_PATH_LENGTH notif ++ _) = _
  rw [List.take_left' (by
    simp only [List.length_append, h1, h2, h3]
    rfl)]
  simp only [List.singleton_append, List.cons_append, List.append_assoc, List.nil_append]

/-- C16: for three pipe paths of at most 39 bytes, without NUL and without
trailing white space, the message that `kvs_connect` writes is 121 bytes, the
digit `1` and the request, response and notification paths each padded with
NUL to 40 bytes, and `handle_fifo` parses from it the same three paths. -/
theorem connect_frame_round_trip (req resp notif : CStr)
    (hreq : PipePath req) (hresp : PipePath resp) (hnotif : PipePath notif) :
    kvs_connect_message req resp notif =
      str "1" ++ padded 40 req ++ padded 40 resp ++ padded 40 notif ∧
    (kvs_connect_message req resp notif).length = 121 ∧
    (padded 40 req).length = 40 ∧ (padded 40 resp).length = 40 ∧
    (padded 40 notif).length = 40 ∧
    handle_fifo_parse (kvs_connect_message req resp notif) = some (req, resp, notif) := by
  have h1 := padded_length MAX_PIPE_PATH_LENGTH req (Nat.le_trans hreq.1 (by decide))
  have h2 := padded_length MAX_PIPE_PATH_LENGTH resp (Nat.le_trans hresp.1 (by decide))
  have h3 := padded_length MAX_PIPE_PATH_LENGTH notif (Nat.le_trans hnotif.1 (by decide))
  have hm := kvs_connect_message_eq req resp notif hreq hresp hnotif
  refine ⟨?_, ?_, h1, h2, h3, ?_⟩
  · rw [hm]
    show _ = [digit OP_CODE_CONNECT] ++ padded MAX_PIPE_PATH_LENGTH req ++
      padded MAX_PIPE_PATH_LENGTH resp ++ padded MAX_PIPE_PATH_LENGTH notif
    simp only [List.singleton_append, List.cons_append, List.append_assoc, List.nil_append]
  · rw [hm]
    simp only [List.length_cons, List.length_append, h1, h2, h3]
    rfl
  · rw [hm]
    unfold handle_fifo_parse
    rw [op_code_digit OP_CODE_CONNECT (by decide), if_pos rfl]
    simp only [List.drop_succ_cons, List.drop_zero]
    rw [List.drop_left' h1, List.drop_left' h2]
    have e1 := handle_fifo_path_field req
      (padded MAX_PIPE_PATH_LENGTH resp ++ padded MAX_PIPE_PATH_LENGTH notif)
      hreq.2.1 hreq.1 hreq.2.2
    have e2 := handle_fifo_path_field resp (padded MAX_PIPE_PATH_LENGTH notif)
      hresp.2.1 hresp.1 hresp.2.2
    have e3 := handle_fifo_path_field notif [] hnotif.2.1 hnotif.1 hnotif.2.2
    rw [List.append_nil] at e3
    unfold padded at e1 e2 ⊢
    rw [e1, e2, e3]

/-- C16 for the paths that the client builds for the identifier 1. -/
theorem connect_frame_round_trip_witness :
    PipePath (str "/tmp/req1") ∧ PipePath (str "/tmp/resp1") ∧ PipePath (str "/tmp/notif1") ∧
    (kvs_connect_message (str "/tmp/req1") (str "/tmp/resp1") (str "/tmp/notif1") =
      str "1" ++ padded 40 (str "/tmp/req1") ++ padded 40 (str "/tmp/resp1") ++
        padded 40 (str "/tmp/notif1") ∧
    (kvs_connect_message (str "/tmp/req1") (str "/tmp/resp1") (str "/tmp/notif1")).length
      = 121 ∧
    (padded 40 (str "/tmp/req1")).length = 40 ∧ (padded 40 (str "/tmp/resp1")).length = 40 ∧
    (padded 40 (str "/tmp/notif1")).length = 40 ∧
    handle_fifo_parse
        (kvs_connect_message (str "/tmp/req1") (str "/tmp/resp1") (str "/tmp/notif1")) =
      some (str "/tmp/req1", str "/tmp/resp1", str "/tmp/notif1")) :=
  have h1 : PipePath (str "/tmp/req1") := ⟨by decide, by decide, by decide⟩
  have h2 : PipePath (str "/tmp/resp1") := ⟨by decide, by decide, by decide⟩
  have h3 : PipePath (str "/tmp/notif1") := ⟨by decide, by decide, by decide⟩
  ⟨h1, h2, h3, connect_frame_round_trip _ _ _ h1 h2 h3⟩

/-! ## Theorems: SUBSCRIBE and UNSUBSCRIBE frames -/

/-- The bytes that `kvs_subscribe` and `kvs_unsubscribe` send after the opcode
for a key of at most `MAX_STRING_SIZE` bytes. -/
theorem key_message_take (d : UInt8) (key : CStr) (hl : key.length ≤ MAX_STRING_SIZE)
    (h0 : ∀ b ∈ key, b ≠ 0) :
    ([d] ++ strncpy key (MAX_STRING_SIZE + 1) ++
      List.replicate (BUFFER_SIZE_UNS - 1 - MAX_STRING_SIZE - 1) 0).take (BUFFER_SIZE_UNS - 2) =
    d :: padded MAX_STRING_SIZE key := by
  have hl1 : key.length ≤ 40 := hl
  rw [strncpy_string key _ h0 (Nat.le_succ_of_le hl)]
  have hsplit : List.replicate (MAX_STRING_SIZE + 1 - key.length) (0 : UInt8) =
      List.replicate (MAX_STRING_SIZE - key.length) 0 ++ [0] := by
    rw [show MAX_STRING_SIZE + 1 - key.length = (MAX_STRING_SIZE - key.length) + 1 by
      show 40 + 1 - key.length = (40 - key.length) + 1
      omega]
    exact List.replicate_succ' _ _
  rw [hsplit]
  have hassoc : [d] ++ (key ++ (List.replicate (MAX_STRING_SIZE - key.length) 0 ++ [0])) ++
      List.replicate (BUFFER_SIZE_UNS - 1 - MAX_STRING_SIZE - 1) 0 =
      (d :: padded MAX_STRING_SIZE key) ++
        ([0] ++ List.replicate (BUFFER_SIZE_UNS - 1 - MAX_STRING_SIZE - 1) 0) := by
    unfold padded
    simp only [List.singleton_append, List.cons_append, List.append_assoc, List.nil_append]
  rw [hassoc]
  apply List.take_left'
  rw [List.length_cons, padded_length _ _ hl]
  rfl

theorem read_key_padded (key : CStr) (hl : key.length ≤ MAX_STRING_SIZE)
    (h0 : ∀ b ∈ key, b ≠ 0) : read_key (padded MAX_STRING_SIZE key) = key := by
  unfold read_key
  rw [List.take_of_length_le (by rw [padded_length _ _ hl])]
  exact takeWhile_ne_zero_append key _ h0

/-- C17: for a key of at most 40 bytes without NUL, `kvs_subscribe` and
`kvs_unsubscribe` write 41 bytes, the digit `3` or `4` and the key padded with
NUL to 40 bytes; `client_thread` reads from them the opcode and the 40 bytes of
the key, leaves the rest of the pipe, and calls `client_subscribe_key` or
`client_unsubscribe_key` with the same key. -/
theorem subscribe_frame_round_trip (key : CStr) (hl : key.length ≤ MAX_STRING_SIZE)
    (h0 : ∀ b ∈ key, b ≠ 0) :
    (kvs_subscribe_message key = str "3" ++ padded 40 key ∧
      kvs_unsubscribe_message key = str "4" ++ padded 40 key ∧
      (kvs_subscribe_message key).length = 41 ∧ (kvs_unsubscribe_message key).length = 41) ∧
    (∀ pipe, client_thread_read (kvs_subscribe_message key ++ pipe) =
        some (Request.subscribe (padded 40 key), pipe)) ∧
    (∀ pipe, client_thread_read (kvs_unsubscribe_message key ++ pipe) =
        some (Request.unsubscribe (padded 40 key), pipe)) ∧
    (∀ e s, client_request e s (Request.subscribe (padded 40 key)) =
        client_subscribe_key e s key) ∧
    (∀ e s, client_request e s (Request.unsubscribe (padded 40 key)) =
        client_unsubscribe_key s key) := by
  have hs : kvs_subscribe_message key = digit OP_CODE_SUBSCRIBE :: padded MAX_STRING_SIZE key :=
    key_message_take _ key hl h0
  have hu : kvs_unsubscribe_message key =
      digit OP_CODE_UNSUBSCRIBE :: padded MAX_STRING_SIZE key :=
    key_message_take _ key hl h0
  have hp := padded_length MAX_STRING_SIZE key hl
  have hr := read_key_padded key hl h0
  refine ⟨⟨hs, hu, ?_, ?_⟩, ?_, ?_, ?_, ?_⟩
  · rw [hs, List.length_cons, hp]
    rfl
  · rw [hu, List.length_cons, hp]
    rfl
  · intro pipe
    rw [hs]
    unfold client_thread_read
    simp only [List.cons_append]
    have hop : op_code (List.take (MAX_SIZE_OPCODE - 1)
        (digit OP_CODE_SUBSCRIBE :: (padded MAX_STRING_SIZE key ++ pipe))) = OP_CODE_SUBSCRIBE :=
      op_code_digit OP_CODE_SUBSCRIBE (by decide) _
    rw [hop, if_neg (by decide), if_pos rfl]
    show some (Request.subscribe (List.take MAX_STRING_SIZE (padded MAX_STRING_SIZE key ++ pipe)),
      List.drop MAX_STRING_SIZE (padded MAX_STRING_SIZE key ++ pipe)) = _
    rw [List.take_left' hp, List.drop_left' hp]
    rfl
  · intro pipe
    rw [hu]
    unfold client_thread_read
    simp only [List.cons_append]
    have hop : op_code (List.take (MAX_SIZE_OPCODE - 1)
        (digit OP_CODE_UNSUBSCRIBE :: (padded MAX_STRING_SIZE key ++ pipe))) =
        OP_CODE_UNSUBSCRIBE :=
      op_code_digit OP_CODE_UNSUBSCRIBE (by decide) _
    rw [hop, if_pos rfl]
    show some (Request.unsubscribe
        (List.take MAX_STRING_SIZE (padded MAX_STRING_SIZE key ++ pipe)),
      List.drop MAX_STRING_SIZE (padded MAX_STRING_SIZE key ++ pipe)) = _
    rw [List.take_left' hp, List.drop_left' hp]
    rfl
  · intro e s
    show client_subscribe_key e s (read_key (padded MAX_STRING_SIZE key)) = _
    rw [hr]
  · intro e s
    show client_unsubscribe_key s (read_key (padded MAX_STRING_SIZE key)) = _
    rw [hr]

/-- C17 for a key of exactly 40 bytes, which fills the field. -/
theorem subscribe_frame_round_trip_witness :
    (List.replicate 40 (107 : UInt8)).length ≤ MAX_STRING_SIZE ∧
    (∀ b ∈ List.replicate 40 (107 : UInt8), b ≠ 0) ∧
    (kvs_subscribe_message (List.replicate 40 107) =
        str "3" ++ padded 40 (List.replicate 40 107) ∧
      kvs_unsubscribe_message (List.replicate 40 107) =
        str "4" ++ padded 40 (List.replicate 40 107) ∧
      (kvs_subscribe_message (List.replicate 40 107)).length = 41 ∧
      (kvs_unsubscribe_message (List.replicate 40 107)).length = 41) :=
  ⟨by decide, by decide,
    (subscribe_frame_round_trip (List.replicate 40 107) (by decide) (by decide)).1⟩

/-! ## Theorems: the gate and the cap on snapshot children -/

theorem gate_step_inv (g g1 : Gate) (step : GateStep) (h : g.inv)
    (hs : gate_step g step = some g1) : g1.inv := by
  obtain ⟨hr, hw, hz⟩ := h
  cases step with
  | writer_entry =>
    simp only [gate_step, read_show_backup_wait] at hs
    split at hs
    · cases hs
    · next job hj =>
      split at hj
      · cases hj
      · next hn =>
        cases hj
        cases hs
        have hr0 : g.readers = 0 := by omega
        exact ⟨hr, by show g.job.write_delete_active + 1 = ((g.writers + 1 : Nat) : Int); omega,
          Or.inl hr0⟩
  | writer_exit =>
    simp only [gate_step] at hs
    split at hs
    · cases hs
    · next hn =>
      cases hs
      refine ⟨hr, ?_, ?_⟩
      · show g.job.write_delete_active - 1 = ((g.writers - 1 : Nat) : Int)
        omega
      · show g.readers = 0 ∨ g.writers - 1 = 0
        omega
  | reader_entry =>
    simp only [gate_step, write_delete_wait] at hs
    split at hs
    · cases hs
    · next job hj =>
      split at hj
      · cases hj
      · next hn =>
        cases hj
        cases hs
        have hw0 : g.writers = 0 := by omega
        exact ⟨by show g.job.read_show_active + 1 = ((g.readers + 1 : Nat) : Int); omega, hw,
          Or.inr hw0⟩
  | reader_exit =>
    simp only [gate_step] at hs
    split at hs
    · cases hs
    · next hn =>
      cases hs
      refine ⟨?_, hw, ?_⟩
      · show g.job.read_show_active - 1 = ((g.readers - 1 : Nat) : Int)
        omega
      · show g.readers - 1 = 0 ∨ g.writers = 0
        omega

theorem gate_run_inv (steps : List GateStep) :
    ∀ g g1 : Gate, g.inv → gate_run g steps = some g1 → g1.inv := by
  induction steps with
  | nil =>
    intro g g1 h hs
    cases hs
    exact h
  | cons step rest ih =>
    intro g g1 h hs
    simp only [gate_run] at hs
    split at hs
    · cases hs
    · next g2 h2 => exact ih g2 g1 (gate_step_inv g g2 step h h2) hs

/-- C18: in every state that the gate reaches from both counters at 0, by
entries that the `while` loops let pass and exits of threads that entered, the
counters are the numbers of writers and readers inside, and
`read_show_active > 0` and `write_delete_active > 0` do not hold together. -/
theorem gate_excludes_readers_and_writers (job : Job) (steps : List GateStep) (g : Gate)
    (hr : job.read_show_active = 0) (hw : job.write_delete_active = 0)
    (hs : gate_run ⟨job, 0, 0⟩ steps = some g) :
    ¬ (g.job.read_show_active > 0 ∧ g.job.write_delete_active > 0) ∧
    g.job.read_show_active = g.readers ∧ g.job.write_delete_active = g.writers := by
  have h0 : Gate.inv ⟨job, 0, 0⟩ := ⟨by simp [hr], by simp [hw], Or.inl rfl⟩
  obtain ⟨h1, h2, h3⟩ := gate_run_inv steps _ g h0 hs
  refine ⟨?_, h1, h2⟩
  rw [h1, h2]
  omega

/-- C18 on two readers that enter and leave and a writer that enters then; a
writer that tries to enter while one reader is inside cannot. -/
theorem gate_excludes_readers_and_writers_witness :
    gate_run ⟨Job.start (create_hash_table 26) 2, 0, 0⟩
        [GateStep.reader_entry, GateStep.reader_entry, GateStep.reader_exit,
         GateStep.writer_entry] = none ∧
    (Job.start (create_hash_table 26) 2).read_show_active = 0 ∧
    (Job.start (create_hash_table 26) 2).write_delete_active = 0 ∧
    gate_run ⟨Job.start (create_hash_table 26) 2, 0, 0⟩
        [GateStep.reader_entry, GateStep.reader_entry, GateStep.reader_exit,
         GateStep.reader_exit, GateStep.writer_entry] = some gate_one_writer ∧
    (¬ (gate_one_writer.job.read_show_active > 0 ∧
        gate_one_writer.job.write_delete_active > 0) ∧
      gate_one_writer.job.read_show_active = gate_one_writer.readers ∧
      gate_one_writer.job.write_delete_active = gate_one_writer.writers) :=
  ⟨by decide, rfl, rfl, by decide,
    gate_excludes_readers_and_writers (Job.start (create_hash_table 26) 2)
      [GateStep.reader_entry, GateStep.reader_entry, GateStep.reader_exit,
       GateStep.reader_exit, GateStep.writer_entry] gate_one_writer rfl rfl (by decide)⟩

theorem backup_step_inv (max_backups : Int) (b b1 : Backups) (step : BackupStep)
    (h : b.inv max_backups) (hs : backup_step max_backups b step = some b1) :
    b1.inv max_backups := by
  obtain ⟨h1, h2⟩ := h
  cases step <;> simp only [backup_step] at hs <;> split at hs <;> cases hs <;>
    (unfold Backups.inv; (try simp only); omega)

theorem backup_run_inv (max_backups : Int) (steps : List BackupStep) :
    ∀ b b1 : Backups, b.inv max_backups → backup_run max_backups b steps = some b1 →
      b1.inv max_backups := by
  induction steps with
  | nil =>
    intro b b1 h hs
    cases hs
    exact h
  | cons step rest ih =>
    intro b b1 h hs
    simp only [backup_run] at hs
    split at hs
    · cases hs
    · next b2 h2 => exact ih b2 b1 (backup_step_inv max_backups b b2 step h h2) hs

/-! ## Theorems: BACKUP in the command loop of a job -/

/-- The loop `while (pids_count >= max_backups)` ends below the cap and reaps
one child for every unit it takes from `pids_count`. -/
theorem backup_wait_loop_spec (max_backups : Int) :
    ∀ (children : Nat) (pids_count : Int) (c : Nat) (p : Int),
      (children : Int) ≤ pids_count →
      backup_wait_loop max_backups children pids_count = some (c, p) →
      (c : Int) ≤ p ∧ p < max_backups := by
  intro children
  induction children with
  | zero =>
    intro pids_count c p hle h
    simp only [backup_wait_loop] at h
    split at h
    · cases h
    · next hn =>
      cases h
      exact ⟨hle, by omega⟩
  | succ n ih =>
    intro pids_count c p hle h
    simp only [backup_wait_loop] at h
    split at h
    · exact ih (pids_count - 1) c p (by push_cast at hle; omega) h
    · next hn =>
      cases h
      exact ⟨hle, by omega⟩

/-- The case BACKUP of `process_input`: what it changes in the state of the
job. -/
theorem process_command_backup (s s1 : Job) (fork_ok : Bool) (finished : Nat)
    (h : process_command s (.backup fork_ok finished) = some s1)
    (hi : (s.children : Int) ≤ s.pids_count) :
    s1.max_backups = s.max_backups ∧ s1.kvs_table = s.kvs_table ∧
    (s1.children : Int) ≤ s1.pids_count ∧ s1.pids_count ≤ s.max_backups ∧
    (fork_ok = true →
      s1.num_backups = s.num_backups + 1 ∧
      s1.snapshots = s.snapshots ++
        (match s.kvs_table with
         | none => []
         | some ht => [(s.num_backups, (kvs_show ht ⟨[], none⟩).data)])) ∧
    (fork_ok = false → s1.num_backups = s.num_backups ∧ s1.snapshots = s.snapshots) := by
  simp only [process_command, write_delete_wait] at h
  split at h
  · cases h
  · next s2 h2 =>
    split at h2
    · cases h2
    · cases h2
      simp only at h
      split at h
      · cases h
      · next c p hloop =>
        obtain ⟨hcp, hp⟩ := backup_wait_loop_spec s.max_backups s.children s.pids_count c p hi hloop
        cases fork_ok with
        | true =>
          simp only [if_true, read_show_finished] at h
          cases h
          refine ⟨rfl, rfl, ?_, ?_, fun _ => ⟨rfl, rfl⟩, by intro hf; cases hf⟩
          · show (((c + 1 - min finished (c + 1) : Nat)) : Int) ≤
              p + 1 - ((min finished (c + 1) : Nat) : Int)
            omega
          · show p + 1 - ((min finished (c + 1) : Nat) : Int) ≤ s.max_backups
            omega
        | false =>
          simp only [Bool.false_eq_true, if_false, read_show_finished] at h
          cases h
          refine ⟨rfl, rfl, ?_, ?_, (by intro hf; cases hf), fun _ => ⟨rfl, rfl⟩⟩
          · show (c : Int) ≤ p + 1
            omega
          · show p + 1 ≤ s.max_backups
            omega

theorem kvs_write_isSome (t : Option HashTable) (pairs : List (CStr × CStr)) :
    (kvs_write t pairs).2.isSome = t.isSome := by
  cases t <;> rfl

theorem kvs_delete_isSome (t : Option HashTable) (keys : List CStr) (fd : Fd) :
    (kvs_delete t keys fd).2.1.isSome = t.isSome := by
  cases t with
  | none => rfl
  | some ht =>
    simp only [kvs_delete]
    split <;> (try split) <;> (try split) <;> rfl

/-- The commands other than BACKUP leave `max_backups`, `pids_count`,
`num_backups`, the children and the snapshots as they are, and keep the table
allocated. -/
theorem process_command_frame (s s1 : Job) (c : Command)
    (h : process_command s c = some s1) (hc : ∀ f n, c ≠ .backup f n) :
    s1.backup_state = s.backup_state ∧ s1.kvs_table.isSome = s.kvs_table.isSome := by
  cases c with
  | write pairs =>
    simp only [process_command, read_show_backup_wait] at h
    split at h
    · cases h
    · next s2 h2 =>
      split at h2
      · cases h2
      · cases h2
        split at h
        · cases h
          exact ⟨rfl, rfl⟩
        · cases h
          exact ⟨rfl, kvs_write_isSome _ _⟩
  | read keys =>
    simp only [process_command, write_delete_wait] at h
    split at h
    · cases h
    · next s2 h2 =>
      split at h2
      · cases h2
      · cases h2
        split at h
        · cases h
          exact ⟨rfl, rfl⟩
        · cases h
          simp only [read_show_finished]
          split <;> exact ⟨rfl, rfl⟩
  | delete keys =>
    simp only [process_command, read_show_backup_wait] at h
    split at h
    · cases h
    · next s2 h2 =>
      split at h2
      · cases h2
      · cases h2
        split at h
        · cases h
          exact ⟨rfl, rfl⟩
        · cases h
          exact ⟨rfl, kvs_delete_isSome _ _ _⟩
  | «show» =>
    simp only [process_command, write_delete_wait] at h
    split at h
    · cases h
    · next s2 h2 =>
      split at h2
      · cases h2
      · cases h2
        split at h
        · cases h
        · cases h
          exact ⟨rfl, rfl⟩
  | wait delay =>
    cases delay with
    | none =>
      simp only [process_command] at h
      cases h
      exact ⟨rfl, rfl⟩
    | some d =>
      simp only [process_command] at h
      split at h <;> cases h <;> exact ⟨rfl, rfl⟩
  | backup f n => exact absurd rfl (hc f n)
  | invalid =>
    simp only [process_command] at h
    cases h
    exact ⟨rfl, rfl⟩
  | help =>
    simp only [process_command] at h
    cases h
    exact ⟨rfl, rfl⟩
  | empty =>
    simp only [process_command] at h
    cases h
    exact ⟨rfl, rfl⟩

theorem process_command_backup_inv (s s1 : Job) (c : Command) (hi : s.backup_inv)
    (h : process_command s c = some s1) : s1.backup_inv ∧ s1.max_backups = s.max_backups := by
  cases c with
  | backup f n =>
    obtain ⟨hm, _, h1, h2, _⟩ := process_command_backup s s1 f n h hi.1
    exact ⟨⟨h1, by rw [hm]; exact h2⟩, hm⟩
  | _ =>
    obtain ⟨hf, _⟩ := process_command_frame s s1 _ h (by intro f n hc; cases hc)
    simp only [Job.backup_state, Prod.mk.injEq] at hf
    obtain ⟨hm, hp, _, hc, _⟩ := hf
    exact ⟨⟨by rw [hc, hp]; exact hi.1, by rw [hp, hm]; exact hi.2⟩, hm⟩

theorem process_input_loop_backup_inv (script : List Command) :
    ∀ s s1 : Job, s.backup_inv → process_input_loop s script = some s1 →
      s1.backup_inv ∧ s1.max_backups = s.max_backups := by
  induction script with
  | nil =>
    intro s s1 hi h
    cases h
    exact ⟨hi, rfl⟩
  | cons c rest ih =>
    intro s s1 hi h
    simp only [process_input_loop] at h
    split at h
    · cases h
    · next s2 h2 =>
      obtain ⟨hi2, hm2⟩ := process_command_backup_inv s s2 c hi h2
      obtain ⟨hi1, hm1⟩ := ih s2 s1 hi2 h
      exact ⟨hi1, by rw [hm1, hm2]⟩

/-- C19: with `max_backups >= 1` every state that the steps of BACKUP reach
from `pids_count = 0` and no child has `children <= pids_count <= max_backups`,
and so has the state of a job after every script that `process_input` runs to
its end. -/
theorem backup_children_within_cap (max_backups : Int) (hmax : 1 ≤ max_backups) :
    (∀ steps b, backup_run max_backups ⟨0, 0, 0, 0⟩ steps = some b →
      (b.children : Int) ≤ b.pids_count ∧ b.pids_count ≤ max_backups) ∧
    (∀ ht script s, process_input (Job.start ht max_backups) script = some s →
      (s.children : Int) ≤ s.pids_count ∧ s.pids_count ≤ max_backups) := by
  constructor
  · intro steps b hs
    have h0 : Backups.inv max_backups ⟨0, 0, 0, 0⟩ := by
      unfold Backups.inv
      simp only
      omega
    obtain ⟨h1, h2⟩ := backup_run_inv max_backups steps _ b h0 hs
    exact ⟨by omega, h2⟩
  · intro ht script s hs
    have h0 : Job.backup_inv { Job.start ht max_backups with num_backups := 1 } := by
      unfold Job.backup_inv Job.start
      simp only
      omega
    obtain ⟨⟨h1, h2⟩, hm⟩ := process_input_loop_backup_inv script _ s h0 hs
    exact ⟨h1, by rw [hm] at h2; exact h2⟩

/-- C19 with `max_backups = 1`: after a BACKUP whose child is still running a
second BACKUP waits for that child before it forks, and a thread that is not
admitted cannot fork. -/
theorem backup_children_within_cap_witness :
    (1 : Int) ≤ 1 ∧
    backup_run 1 ⟨0, 0, 0, 0⟩
        [BackupStep.admit_backup, BackupStep.fork_child, BackupStep.wait_child,
         BackupStep.count_reaped, BackupStep.admit_backup, BackupStep.fork_child] =
      some ⟨1, 1, 0, 0⟩ ∧
    backup_run 1 ⟨0, 0, 0, 0⟩
        [BackupStep.admit_backup, BackupStep.fork_child, BackupStep.admit_backup] = none ∧
    (process_input (Job.start (create_hash_table 26) 1)
        [Command.backup true 0, Command.backup true 0]).map
      (fun s => (s.children, s.pids_count, s.num_backups)) = some (1, 1, 3) ∧
    ((∀ steps b, backup_run 1 ⟨0, 0, 0, 0⟩ steps = some b →
      (b.children : Int) ≤ b.pids_count ∧ b.pids_count ≤ 1) ∧
    (∀ ht script s, process_input (Job.start ht 1) script = some s →
      (s.children : Int) ≤ s.pids_count ∧ s.pids_count ≤ 1)) :=
  ⟨by decide, by decide, by decide, by decide, backup_children_within_cap 1 (by decide)⟩

/-! ## Theorems: the name of a backup file -/

theorem strrchr_none (l : CStr) (c : UInt8) (h : c ∉ l) : strrchr l c = none := by
  induction l with
  | nil => rfl
  | cons x xs ih =>
    have hx : x ≠ c := fun e => h (e ▸ List.mem_cons_self _ _)
    simp only [strrchr, ih (fun hm => h (List.mem_cons_of_mem _ hm)), if_neg hx]

theorem strrchr_append (S ext : CStr) (c : UInt8) (h : c ∉ ext) :
    strrchr (S ++ c :: ext) c = some S.length := by
  induction S with
  | nil => simp only [List.nil_append, strrchr, strrchr_none ext c h, if_true, List.length_nil]
  | cons x xs ih =>
    show (match strrchr (xs ++ c :: ext) c with
      | some i => some (i + 1)
      | none => if x = c then some 0 else none) = some (xs.length + 1)
    rw [ih]

/-- Source `removeExtension` on a path whose last component has an extension:
the stem before the last `.`. -/
theorem removeExtension_stem (S ext : CStr) (hdot : (46 : UInt8) ∉ ext)
    (hslash : (47 : UInt8) ∉ ext) : removeExtension (S ++ str "." ++ ext) = S := by
  have hs : S ++ str "." ++ ext = S ++ 46 :: ext := by
    rw [List.append_assoc]
    rfl
  rw [hs]
  unfold removeExtension
  rw [strrchr_append S ext 46 hdot]
  simp only [List.drop_left, List.take_left]
  rw [if_neg]
  intro hm
  rcases List.mem_cons.1 hm with h | h
  · exact absurd h (by decide)
  · exact hslash h

theorem printf_d_loop_length (fuel : Nat) :
    ∀ number acc, (printf_d_loop fuel number acc).length =
      getLengthOfNumber_loop fuel number acc.length := by
  induction fuel with
  | zero => intro number acc; rfl
  | succ fuel ih =>
    intro number acc
    simp only [printf_d_loop, getLengthOfNumber_loop]
    split
    · rw [ih]; rfl
    · rfl

/-- The digits that the loop of `%d` produces are the decimal digits of the
number, the most significant first. -/
theorem printf_d_loop_digits (fuel : Nat) :
    ∀ number acc, number ≤ fuel →
      printf_d_loop fuel number acc = ((Nat.digits 10 number).reverse.map digit) ++ acc := by
  induction fuel with
  | zero =>
    intro number acc h
    have : number = 0 := by omega
    subst this
    simp [printf_d_loop]
  | succ fuel ih =>
    intro number acc h
    simp only [printf_d_loop]
    split
    · next hpos =>
      rw [ih (number / 10) _ (by omega), Nat.digits_def' (by decide) hpos]
      simp
    · next hz =>
      have : number = 0 := by omega
      subst this
      simp

theorem printf_d_pos (n : Int) (hn : 1 ≤ n) :
    printf_d n = (Nat.digits 10 n.toNat).reverse.map digit ∧
    getLengthOfNumber n = (printf_d n).length := by
  have h0 : n ≠ 0 := by omega
  have h1 : ¬ n < 0 := by omega
  have hp : printf_d n = printf_d_loop n.toNat n.toNat [] := by
    simp only [printf_d, if_neg h0, if_neg h1]
  constructor
  · rw [hp, printf_d_loop_digits n.toNat n.toNat [] (Nat.le_refl _), List.append_nil]
  · rw [hp, printf_d_loop_length]
    simp only [getLengthOfNumber, if_neg h0, List.length_nil]

/-- The numbers that BACKUP passes to `kvs_backup` in one job: the step of one
command. -/
theorem process_command_numbered (s s1 : Job) (c : Command)
    (hi : (s.children : Int) ≤ s.pids_count) (hnum : s.numbered)
    (h : process_command s c = some s1) :
    (s1.children : Int) ≤ s1.pids_count ∧ s1.numbered := by
  obtain ⟨htab, hnb, hsn⟩ := hnum
  cases c with
  | backup f n =>
    obtain ⟨_, ht, h1, _, htrue, hfalse⟩ := process_command_backup s s1 f n h hi
    refine ⟨h1, ?_⟩
    cases f with
    | false =>
      obtain ⟨e1, e2⟩ := hfalse rfl
      exact ⟨by rw [ht]; exact htab, by rw [e1, e2]; exact hnb, by rw [e2]; exact hsn⟩
    | true =>
      obtain ⟨e1, e2⟩ := htrue rfl
      cases hk : s.kvs_table with
      | none => rw [hk] at htab; cases htab
      | some table =>
        rw [hk] at e2
        simp only at e2
        refine ⟨by rw [ht]; exact htab, ?_, ?_⟩
        · rw [e1, e2, hnb, List.length_append]
          simp
        · rw [e2, List.length_append, List.map_append, hsn]
          simp only [List.length_singleton, List.map_cons, List.map_nil, List.range_succ,
            List.map_append]
          rw [hnb]
  | _ =>
    obtain ⟨hf, ht⟩ := process_command_frame s s1 _ h (by intro f n hc; cases hc)
    simp only [Job.backup_state, Prod.mk.injEq] at hf
    obtain ⟨_, hp, hn, hc, hs⟩ := hf
    exact ⟨by rw [hc, hp]; exact hi, by rw [ht]; exact htab, by rw [hn, hs]; exact hnb,
      by rw [hs]; exact hsn⟩

theorem process_input_loop_numbered (script : List Command) :
    ∀ s s1 : Job, (s.children : Int) ≤ s.pids_count → s.numbered →
      process_input_loop s script = some s1 → s1.numbered := by
  induction script with
  | nil =>
    intro s s1 _ hnum h
    cases h
    exact hnum
  | cons c rest ih =>
    intro s s1 hi hnum h
    simp only [process_input_loop] at h
    split at h
    · cases h
    · next s2 h2 =>
      obtain ⟨hi2, hnum2⟩ := process_command_numbered s s2 c hi hnum h2
      exact ih s2 s1 hi2 hnum2 h

/-- C20: for a job path `S.ext` whose extension holds no `.` and no `/` and a
backup number `n >= 1`, `getNameOfBackupFile` returns `S`, `-`, the decimal
digits of `n` and `.bck`; the buffer size it computes is the length of that
name plus one; and in every job that `process_input` runs to its end the
snapshots carry the numbers 1, 2, 3, ... in the order in which they were made,
`num_backups` being the number of the next one. -/
theorem backup_file_name (S ext : CStr) (n : Int)
    (hdot : (46 : UInt8) ∉ ext) (hslash : (47 : UInt8) ∉ ext) (hn : 1 ≤ n) :
    getNameOfBackupFile (S ++ str "." ++ ext) n =
      S ++ str "-" ++ (Nat.digits 10 n.toNat).reverse.map digit ++ str ".bck" ∧
    backup_filepath_size (S ++ str "." ++ ext) n =
      (getNameOfBackupFile (S ++ str "." ++ ext) n).length + 1 ∧
    (∀ ht max_backups script s,
      process_input (Job.start ht max_backups) script = some s →
        s.snapshots.map Prod.fst =
          (List.range s.snapshots.length).map (fun i : Nat => (i : Int) + 1) ∧
        s.num_backups = (s.snapshots.length : Int) + 1) := by
  obtain ⟨hd, hlen⟩ := printf_d_pos n hn
  have hstem := removeExtension_stem S ext hdot hslash
  have hsize : backup_filepath_size (S ++ str "." ++ ext) n =
      (S ++ str "-" ++ printf_d n ++ BACKUP_FILE).length + 1 := by
    unfold backup_filepath_size
    rw [hstem, hlen]
    simp only [List.length_append]
    rfl
  have hname : getNameOfBackupFile (S ++ str "." ++ ext) n =
      S ++ str "-" ++ printf_d n ++ BACKUP_FILE := by
    unfold getNameOfBackupFile
    rw [hstem]
    exact snprintf_all _ _ (by rw [hsize]; omega)
  refine ⟨by rw [hname, hd]; rfl, by rw [hsize, hname], ?_⟩
  intro ht max_backups script s hs
  have h0 : Job.numbered { Job.start ht max_backups with num_backups := 1 } :=
    ⟨rfl, rfl, rfl⟩
  obtain ⟨_, h1, h2⟩ := process_input_loop_numbered script _ s (Int.le_refl _) h0 hs
  exact ⟨h2, h1⟩

/-- C20 for the job `jobs/a.job` and the backup number 12, and for a job of
three BACKUP commands whose second `fork` fails. -/
theorem backup_file_name_witness :
    (46 : UInt8) ∉ str "job" ∧ (47 : UInt8) ∉ str "job" ∧ (1 : Int) ≤ 12 ∧
    getNameOfBackupFile (str "jobs/a.job") 12 = str "jobs/a-12.bck" ∧
    backup_filepath_size (str "jobs/a.job") 12 = 14 ∧
    (process_input (Job.start (create_hash_table 26) 2)
        [Command.backup true 1, Command.backup false 0, Command.backup true 1]).map
      (fun s => (s.snapshots.map Prod.fst, s.num_backups)) = some ([1, 2], 3) ∧
    (getNameOfBackupFile (str "jobs/a" ++ str "." ++ str "job") 12 =
      str "jobs/a" ++ str "-" ++ (Nat.digits 10 (12 : Int).toNat).reverse.map digit ++
        str ".bck" ∧
    backup_filepath_size (str "jobs/a" ++ str "." ++ str "job") 12 =
      (getNameOfBackupFile (str "jobs/a" ++ str "." ++ str "job") 12).length + 1 ∧
    (∀ ht max_backups script s,
      process_input (Job.start ht max_backups) script = some s →
        s.snapshots.map Prod.fst =
          (List.range s.snapshots.length).map (fun i : Nat => (i : Int) + 1) ∧
        s.num_backups = (s.snapshots.length : Int) + 1)) :=
  ⟨by decide, by decide, by decide, by decide, by decide, by decide,
    backup_file_name (str "jobs/a") (str "job") 12 (by decide) (by decide) (by decide)⟩

/-! ## Theorems: the Subscription Index -/

theorem chash_step (h c : Nat) :
    ((h * 2 ^ 5 % 2 ^ 64 + h) % 2 ^ 64 + c) % 2 ^ 64 = (h * 33 + c) % 2 ^ 64 := by
  norm_num
  omega

theorem chash_lt (key : CStr) : chash key < MAX_KEYS_COUNT := by
  unfold chash
  exact Nat.mod_lt _ (by decide)

/-- C21: `chash(key)` is the hash of the specification reduced modulo 8191:
`h` starts at 5381 and becomes `h * 33 + c` modulo 2^64 for each byte `c` of
the key in order, `(h << 5) + h` being `h * 33` modulo 2^64; so
`chash(key) < 8191`, and two equal keys have the same bucket. -/
theorem chash_is_djb2_mod_8191 (key : CStr) :
    chash key = djb2 key % 8191 ∧ chash key < 8191 ∧
    (∀ h c : Nat, ((h * 2 ^ 5 % 2 ^ 64 + h) % 2 ^ 64 + c) % 2 ^ 64 = (h * 33 + c) % 2 ^ 64) ∧
    (∀ other : CStr, other = key → chash other = chash key) := by
  refine ⟨?_, chash_lt key, chash_step, fun other h => by rw [h]⟩
  unfold chash djb2
  have hf : (fun (hash : Nat) (c : UInt8) =>
      ((hash * 2 ^ 5 % 2 ^ 64 + hash) % 2 ^ 64 + c.toNat) % 2 ^ 64) =
      (fun (h : Nat) (c : UInt8) => (h * 33 + c.toNat) % 2 ^ 64) := by
    funext h c
    exact chash_step h c.toNat
  rw [hf]
  rfl

theorem add_key_room (ht : IntHashTable) (key : CStr) (value : Int)
    (h : (get_fds ht key).length < MAX_SESSION_COUNT) :
    (add_key ht key value).1 = 0 ∧
    get_fds (add_key ht key value).2 key = get_fds ht key ++ [value] ∧
    ∀ i, i ≠ chash key → (add_key ht key value).2.nodes i = ht.nodes i := by
  have hn : ¬ (ht.nodes (chash key)).values.length ≥ MAX_SESSION_COUNT := by
    unfold get_fds at h
    omega
  simp only [add_key, if_neg hn, get_fds, if_true, true_and]
  intro i hi
  rw [if_neg hi]

theorem add_key_full (ht : IntHashTable) (key : CStr) (value : Int)
    (h : MAX_SESSION_COUNT ≤ (get_fds ht key).length) : add_key ht key value = (1, ht) := by
  have hn : (ht.nodes (chash key)).values.length ≥ MAX_SESSION_COUNT := h
  simp only [add_key, if_pos hn]

/-- C22: when the bucket of the key holds fewer than 8 handles `add_key`
returns 0, the bucket is the old list followed by the handle (also when the
handle is already in it), which is what `get_fds` then returns, and every
other bucket is unchanged; when the bucket holds 8 handles `add_key` returns 1
and the index is unchanged. -/
theorem add_key_appends_or_refuses (ht : IntHashTable) (key : CStr) (value : Int) :
    ((get_fds ht key).length < 8 →
      (add_key ht key value).1 = 0 ∧
      get_fds (add_key ht key value).2 key = get_fds ht key ++ [value] ∧
      ∀ i, i ≠ chash key → (add_key ht key value).2.nodes i = ht.nodes i) ∧
    (8 ≤ (get_fds ht key).length → add_key ht key value = (1, ht)) :=
  ⟨add_key_room ht key value, add_key_full ht key value⟩

/-- C22 on an empty index: the handle 5 is added twice to the bucket of `ab`. -/
theorem add_key_appends_or_refuses_witness :
    (get_fds (add_key create_int_hash_table (str "ab") 5).2 (str "ab")).length < 8 ∧
    get_fds (add_key create_int_hash_table (str "ab") 5).2 (str "ab") = [5] ∧
    ((add_key (add_key create_int_hash_table (str "ab") 5).2 (str "ab") 5).1 = 0 ∧
      get_fds (add_key (add_key create_int_hash_table (str "ab") 5).2 (str "ab") 5).2 (str "ab")
        = get_fds (add_key create_int_hash_table (str "ab") 5).2 (str "ab") ++ [5] ∧
      ∀ i, i ≠ chash (str "ab") →
        (add_key (add_key create_int_hash_table (str "ab") 5).2 (str "ab") 5).2.nodes i =
          (add_key create_int_hash_table (str "ab") 5).2.nodes i) :=
  ⟨by decide, by decide,
    (add_key_appends_or_refuses (add_key create_int_hash_table (str "ab") 5).2 (str "ab") 5).1
      (by decide)⟩

/-- The loop of `remove_key` on a bucket that holds the value: the first entry
equal to it is overwritten with the last entry and the bucket loses its last
place. -/
theorem node_remove_first (value : Int) (node : IntNode) (h : value ∈ node.values) :
    ∃ i, i < node.values.length ∧ node.values.getD i 0 = value ∧
      (∀ j, j < i → node.values.getD j 0 ≠ value) ∧
      node_remove value node =
        some ⟨(node.values.set i (node.values.getD (node.values.length - 1) 0)).take
          (node.values.length - 1)⟩ := by
  unfold node_remove
  cases hf : (List.range node.values.length).find?
      (fun i => decide (node.values.getD i 0 = value)) with
  | none =>
    obtain ⟨n, hn, hv⟩ := List.mem_iff_getElem.1 h
    have := find_range_none _ _ hf n hn
    simp only [decide_eq_false_iff_not] at this
    rw [List.getD_eq_getElem _ _ hn] at this
    exact absurd hv this
  | some i =>
    obtain ⟨h1, h2, h3⟩ := find_range_some _ _ i hf
    simp only [decide_eq_true_eq] at h2
    refine ⟨i, h1, h2, ?_, rfl⟩
    intro j hj
    have := h3 j hj
    simpa using this

/-- C23: when the bucket of the key holds the handle, `remove_key` returns 0,
the first occurrence of the handle is overwritten with the last element and the
bucket shrinks by one, so that the handle put back in front of the new bucket
is a permutation of the old bucket; when the bucket does not hold the handle,
`remove_key` returns 1 and the index is unchanged; the other buckets are the
same in both cases. -/
theorem remove_key_removes_one_occurrence (ht : IntHashTable) (key : CStr) (value : Int) :
    (value ∈ get_fds ht key →
      (remove_key ht key value).1 = 0 ∧
      (∃ i, i < (get_fds ht key).length ∧ (get_fds ht key).getD i 0 = value ∧
        (∀ j, j < i → (get_fds ht key).getD j 0 ≠ value) ∧
        get_fds (remove_key ht key value).2 key =
          ((get_fds ht key).set i ((get_fds ht key).getD ((get_fds ht key).length - 1) 0)).take
            ((get_fds ht key).length - 1)) ∧
      (value :: get_fds (remove_key ht key value).2 key).Perm (get_fds ht key) ∧
      (get_fds (remove_key ht key value).2 key).length + 1 = (get_fds ht key).length) ∧
    (value ∉ get_fds ht key → remove_key ht key value = (1, ht)) ∧
    (∀ i, i ≠ chash key → (remove_key ht key value).2.nodes i = ht.nodes i) := by
  refine ⟨?_, ?_, ?_⟩
  · intro h
    obtain ⟨i, hi, hv, hfirst, hr⟩ := node_remove_first value (ht.nodes (chash key)) h
    have hperm := remove_key_present ht key value h
    refine ⟨?_, ⟨i, hi, hv, hfirst, ?_⟩, hperm, ?_⟩
    · simp only [remove_key, hr]
    · simp only [remove_key, hr, get_fds, if_true]
    · have := hperm.length_eq
      simpa using this
  · intro h
    simp only [remove_key]
    rw [node_remove_none value _ h]
  · intro i hi
    simp only [remove_key]
    cases node_remove value (ht.nodes (chash key)) with
    | none => rfl
    | some node => simp only [if_neg hi]

/-- C23 on the bucket [5, 7, 5, 9] of `ab`: removing 5 gives [9, 7, 5]. -/
theorem remove_key_removes_one_occurrence_witness :
    (5 : Int) ∈ get_fds ⟨fun _ => ⟨[5, 7, 5, 9]⟩⟩ (str "ab") ∧
    get_fds (remove_key ⟨fun _ => ⟨[5, 7, 5, 9]⟩⟩ (str "ab") 5).2 (str "ab") = [9, 7, 5] ∧
    ((remove_key ⟨fun _ => ⟨[5, 7, 5, 9]⟩⟩ (str "ab") 5).1 = 0 ∧
      (∃ i, i < (get_fds ⟨fun _ => ⟨[5, 7, 5, 9]⟩⟩ (str "ab")).length ∧
        (get_fds ⟨fun _ => ⟨[5, 7, 5, 9]⟩⟩ (str "ab")).getD i 0 = 5 ∧
        (∀ j, j < i → (get_fds ⟨fun _ => ⟨[5, 7, 5, 9]⟩⟩ (str "ab")).getD j 0 ≠ 5) ∧
        get_fds (remove_key ⟨fun _ => ⟨[5, 7, 5, 9]⟩⟩ (str "ab") 5).2 (str "ab") =
          ((get_fds ⟨fun _ => ⟨[5, 7, 5, 9]⟩⟩ (str "ab")).set i
            ((get_fds ⟨fun _ => ⟨[5, 7, 5, 9]⟩⟩ (str "ab")).getD
              ((get_fds ⟨fun _ => ⟨[5, 7, 5, 9]⟩⟩ (str "ab")).length - 1) 0)).take
            ((get_fds ⟨fun _ => ⟨[5, 7, 5, 9]⟩⟩ (str "ab")).length - 1)) ∧
      (5 :: get_fds (remove_key ⟨fun _ => ⟨[5, 7, 5, 9]⟩⟩ (str "ab") 5).2 (str "ab")).Perm
        (get_fds ⟨fun _ => ⟨[5, 7, 5, 9]⟩⟩ (str "ab")) ∧
      (get_fds (remove_key ⟨fun _ => ⟨[5, 7, 5, 9]⟩⟩ (str "ab") 5).2 (str "ab")).length + 1 =
        (get_fds ⟨fun _ => ⟨[5, 7, 5, 9]⟩⟩ (str "ab")).length) :=
  ⟨by decide, by decide,
    (remove_key_removes_one_occurrence ⟨fun _ => ⟨[5, 7, 5, 9]⟩⟩ (str "ab") 5).1 (by decide)⟩

/-- The bucket that `get_fds` reads after one `add_key` on the empty index is
chosen by the hash alone. -/
theorem get_fds_add_key_empty (k1 k2 : CStr) (s : Int) :
    get_fds (add_key create_int_hash_table k1 s).2 k2 =
      if chash k2 = chash k1 then [s] else [] := by
  simp only [add_key, create_int_hash_table, get_fds, List.length_nil, MAX_SESSION_COUNT]
  rw [if_neg (by decide)]
  simp only [List.nil_append]
  split <;> rfl

/-- C24: `get_fds` returns the handle of a session for a key it did not
subscribe.  The keys `ar` and `akm` (2 and 3 bytes) are different and have the
same hash 6659; after `add_key(ar, 5)` on the empty index `get_fds(akm)` is
[5], and `notify_clients(akm, v)` writes the frame `(akm,v)` to the handle 5.
In general `get_fds(k2)` holds the handle exactly when `chash(k2) =
chash(k1)`. -/
theorem get_fds_returns_handle_of_colliding_key :
    (str "akm" ≠ str "ar" ∧ chash (str "akm") = 6659 ∧ chash (str "ar") = 6659 ∧
      (str "ar").length = 2 ∧ (str "akm").length = 3) ∧
    get_fds (add_key create_int_hash_table (str "ar") 5).2 (str "akm") = [5] ∧
    notify_clients (add_key create_int_hash_table (str "ar") 5).2 (str "akm")
        (some (str "v")) = [(5, str "(akm,v)" ++ List.replicate 293 0)] ∧
    (∀ (k1 k2 : CStr) (s : Int),
      (s ∈ get_fds (add_key create_int_hash_table k1 s).2 k2 ↔ chash k2 = chash k1)) := by
  refine ⟨by decide, by decide, ?_, ?_⟩
  · rw [notify_clients_eq, notification_buffer_take _ _ (by decide),
      notification_text_write _ _ (by decide) (by decide)]
    rfl
  intro k1 k2 s
  rw [get_fds_add_key_empty]
  split <;> simp [*]

/-! ## Theorems: the output path of a job -/

/-- Source `changeFileExtension` on a path whose last component has an
extension: the stem, then as many bytes of the new extension as the old
extension had, its `.` included. -/
theorem changeFileExtension_stem (S ext e : CStr) (hdot : (46 : UInt8) ∉ ext)
    (hslash : (47 : UInt8) ∉ ext) :
    changeFileExtension (S ++ str "." ++ ext) e = S ++ e.take (ext.length + 1) := by
  unfold changeFileExtension strncat
  simp only
  rw [List.take_of_length_le (Nat.le_succ _), removeExtension_stem S ext hdot hslash]
  congr 2
  simp only [List.length_append]
  have : (str ".").length = 1 := rfl
  omega

/-- The paths that `entry_files` builds when it accepts an entry. -/
theorem entry_files_paths (dir d_name in_path out_path : CStr)
    (h : entry_files dir d_name = some (in_path, out_path)) :
    ∃ stem, stem ≠ [] ∧ d_name = stem ++ str ".job" ∧
      in_path = dir ++ str "/" ++ stem ++ str ".job" ∧
      out_path = dir ++ str "/" ++ stem ++ str ".out" := by
  unfold entry_files at h
  split at h
  · cases h
  · next dot hd =>
    split at h
    · cases h
    · next hc =>
      simp only [not_or, not_not] at hc
      obtain ⟨h0, _, hjob⟩ := hc
      have hdrop : d_name.drop dot = str ".job" := (strcmp_eq_zero_iff _ _).1 hjob
      have hname : d_name = d_name.take dot ++ str ".job" := by
        rw [← hdrop, List.take_append_drop]
      have hstem : d_name.take dot ≠ [] := by
        intro he
        have hl : (d_name.take dot).length = 0 := by rw [he]; rfl
        rw [List.length_take] at hl
        have hlen : d_name.length = (d_name.take dot ++ str ".job").length := by rw [← hname]
        rw [List.length_append, List.length_take] at hlen
        have h4 : (str ".job").length = 4 := rfl
        omega
      split at h
      · cases h
      · have hin : dir ++ str "/" ++ d_name =
            (dir ++ str "/" ++ d_name.take dot) ++ 46 :: str "job" := by
          conv_lhs => rw [hname]
          rw [List.append_assoc (dir ++ str "/")]
          rfl
        simp only at h
        rw [hin, strrchr_append _ (str "job") 46 (by decide)] at h
        simp only [Option.some.injEq, Prod.mk.injEq, List.take_left] at h
        obtain ⟨h1, h2⟩ := h
        refine ⟨d_name.take dot, hstem, hname, ?_, h2.symm⟩
        rw [← h1]
        rfl

/-- Source `entry_files` accepts an entry `stem.job` with a non-empty stem whose
path fits in `MAX_JOB_FILE_NAME_SIZE`. -/
theorem entry_files_accepts (dir stem : CStr) (hstem : stem ≠ [])
    (hlen : (stem ++ str ".job").length + dir.length + 2 ≤ MAX_JOB_FILE_NAME_SIZE) :
    entry_files dir (stem ++ str ".job") =
      some (dir ++ str "/" ++ stem ++ str ".job", dir ++ str "/" ++ stem ++ str ".out") := by
  have hname : stem ++ str ".job" = stem ++ 46 :: str "job" := rfl
  have hin : dir ++ str "/" ++ (stem ++ str ".job") =
      (dir ++ str "/" ++ stem) ++ 46 :: str "job" := by
    rw [← List.append_assoc]
    rfl
  have hpos : stem.length ≠ 0 := fun h => hstem (List.length_eq_zero.1 h)
  unfold entry_files
  rw [hname, strrchr_append stem (str "job") 46 (by decide)]
  simp only [List.drop_left]
  rw [if_neg (by
    simp only [not_or, not_not]
    exact ⟨hpos, by decide, by decide⟩)]
  rw [if_neg (by rw [← hname]; omega)]
  rw [← hname, hin, strrchr_append _ (str "job") 46 (by decide)]
  simp only [List.take_left]
  rw [← hin, ← List.append_assoc]

/-- C25: for a job path `S.job` the path that `changeFileExtension(p, ".out")`
returns, which `process_input_thread_fn` opens, is `S.out`, of the same length;
and whenever `entry_files` of the server accepts an entry its `in_path` is
`dir/stem.job` and its `out_path` is `dir/stem.out`, of the same length, which
it does for every entry `stem.job` with a non-empty stem whose path fits. -/
theorem output_path_replaces_job_by_out (S : CStr) :
    changeFileExtension (S ++ str ".job") (str ".out") = S ++ str ".out" ∧
    output_filepath (S ++ str ".job") = S ++ str ".out" ∧
    (S ++ str ".out").length = (S ++ str ".job").length ∧
    (∀ dir d_name in_path out_path, entry_files dir d_name = some (in_path, out_path) →
      ∃ stem, d_name = stem ++ str ".job" ∧
        in_path = dir ++ str "/" ++ stem ++ str ".job" ∧
        out_path = dir ++ str "/" ++ stem ++ str ".out" ∧
        out_path.length = in_path.length) ∧
    (∀ dir stem, stem ≠ [] → (stem ++ str ".job").length + dir.length + 2 ≤ 256 →
      entry_files dir (stem ++ str ".job") =
        some (dir ++ str "/" ++ stem ++ str ".job", dir ++ str "/" ++ stem ++ str ".out")) := by
  have h := changeFileExtension_stem S (str "job") (str ".out") (by decide) (by decide)
  have hj : S ++ str "." ++ str "job" = S ++ str ".job" := by
    rw [List.append_assoc]
    rfl
  rw [hj] at h
  have ht : (str ".out").take ((str "job").length + 1) = str ".out" := rfl
  rw [ht] at h
  refine ⟨h, h, by simp [str], ?_, entry_files_accepts⟩
  intro dir d_name in_path out_path he
  obtain ⟨stem, _, h1, h2, h3⟩ := entry_files_paths dir d_name in_path out_path he
  refine ⟨stem, h1, h2, h3, ?_⟩
  rw [h2, h3]
  simp [str]

/-- C25 for the entry `a.job` of the directory `jobs`. -/
theorem output_path_replaces_job_by_out_witness :
    entry_files (str "jobs") (str "a.job") = some (str "jobs/a.job", str "jobs/a.out") ∧
    changeFileExtension (str "jobs/a.job") (str ".out") = str "jobs/a.out" ∧
    (∃ stem, str "a.job" = stem ++ str ".job" ∧
      str "jobs/a.job" = str "jobs" ++ str "/" ++ stem ++ str ".job" ∧
      str "jobs/a.out" = str "jobs" ++ str "/" ++ stem ++ str ".out" ∧
      (str "jobs/a.out").length = (str "jobs/a.job").length) :=
  ⟨by decide, by decide,
    (output_path_replaces_job_by_out (str "jobs/a")).2.2.2.1 (str "jobs") (str "a.job")
      (str "jobs/a.job") (str "jobs/a.out") (by decide)⟩

/-- C26 (counterexample): the last component of `a.c` and of `dir/notes.md`
contains a `.`, and `changeFileExtension` does not append the whole of the new
extension: for `a.c` and `.out` it returns `a.o`, not `a.out`, and for
`dir/notes.md` and `.bck` it returns `dir/notes.bc`, not `dir/notes.bck`. -/
theorem changeFileExtension_cuts_longer_extension :
    (changeFileExtension (str "a.c") (str ".out") = str "a.o" ∧
      str "a.c" = str "a" ++ str "." ++ str "c" ∧ str "a.o" ≠ str "a" ++ str ".out") ∧
    (changeFileExtension (str "dir/notes.md") (str ".bck") = str "dir/notes.bc" ∧
      str "dir/notes.md" = str "dir/notes" ++ str "." ++ str "md" ∧
      str "dir/notes.bc" ≠ str "dir/notes" ++ str ".bck") := by
  refine ⟨?_, ?_⟩ <;> decide

/-- C26 (amended): for a path `S.ext` whose extension holds no `.` and no `/`
and every new extension `e`, `changeFileExtension` returns `S` followed by the
first `strlen(ext) + 1` bytes of `e`, which is as many bytes as the old
extension had with its `.`; so it returns `S` followed by the whole of `e`
when `e` is not longer than that, and a result of the length of the old path
at most. -/
theorem changeFileExtension_replaces_extension (S ext e : CStr)
    (hdot : (46 : UInt8) ∉ ext) (hslash : (47 : UInt8) ∉ ext) :
    changeFileExtension (S ++ str "." ++ ext) e = S ++ e.take (ext.length + 1) ∧
    (e.length ≤ ext.length + 1 → changeFileExtension (S ++ str "." ++ ext) e = S ++ e) ∧
    (changeFileExtension (S ++ str "." ++ ext) e).length ≤ (S ++ str "." ++ ext).length := by
  have h := changeFileExtension_stem S ext e hdot hslash
  refine ⟨h, ?_, ?_⟩
  · intro hle
    rw [h, List.take_of_length_le hle]
  · rw [h]
    simp only [List.length_append, List.length_take]
    have : (str ".").length = 1 := rfl
    omega

/-- C26 (amended) for the job path `jobs/a.job` and the extension `.bck`. -/
theorem changeFileExtension_replaces_extension_witness :
    (46 : UInt8) ∉ str "job" ∧ (47 : UInt8) ∉ str "job" ∧
    (str ".bck").length ≤ (str "job").length + 1 ∧
    changeFileExtension (str "jobs/a.job") (str ".bck") = str "jobs/a.bck" ∧
    (changeFileExtension (str "jobs/a" ++ str "." ++ str "job") (str ".bck") =
        str "jobs/a" ++ (str ".bck").take ((str "job").length + 1) ∧
      (changeFileExtension (str "jobs/a" ++ str "." ++ str "job") (str ".bck") =
        str "jobs/a" ++ str ".bck") ∧
      (changeFileExtension (str "jobs/a" ++ str "." ++ str "job") (str ".bck")).length ≤
        (str "jobs/a" ++ str "." ++ str "job").length) :=
  have h := changeFileExtension_replaces_extension (str "jobs/a") (str "job") (str ".bck")
    (by decide) (by decide)
  ⟨by decide, by decide, by decide, by decide, h.1, h.2.1 (by decide), h.2.2⟩

/-! ## Theorems: the handlers at the inputs where they leave their contract -/

/-- C27: on a fresh slot with the handle 5 and a KV table that holds `k`, the
requests SUBSCRIBE(k), UNSUBSCRIBE(k), SUBSCRIBE(k) are answered `31`, `40`,
`30`: the third is refused, and at the end the slot holds no key and the bucket
of `k` holds no handle.  After the first two requests row 0 still holds `k`,
which `subscribe_key_index_list` finds among all `MAX_NUMBER_SUB` rows. -/
theorem subscribe_unsubscribe_subscribe_is_refused :
    (client_requests (kvs_key_exists_of [str "k"]) session0
        [.subscribe (key_field (str "k")), .unsubscribe (key_field (str "k")),
         .subscribe (key_field (str "k"))]).map
      (fun s => (s.response.data, s.client_data.num_keys, s.client_data.subscribed,
          get_fds s.subscribed_keys (str "k"))) =
      some (str "314030", 0, [], []) ∧
    (client_requests (kvs_key_exists_of [str "k"]) session0
        [.subscribe (key_field (str "k")), .unsubscribe (key_field (str "k"))]).map
      (fun s => (s.client_data.num_keys, s.client_data.keys.getD 0 [],
          subscribe_key_index_list (str "k") s.client_data.keys)) =
      some (0, str "k", 0) ∧
    kvs_key_exists_of [str "k"] (str "k") = 0 := by
  refine ⟨?_, ?_, ?_⟩ <;> decide

/-- C28: on a fresh slot one UNSUBSCRIBE whose key field is 40 NUL bytes (the
empty key) is answered `40` and leaves `num_keys = -1`: every row of a fresh
slot is the empty string, so `subscribe_key_index_list` returns 0.  A
SUBSCRIBE(k) that follows writes row `num_keys = -1` of the key list, outside
the array. -/
theorem unsubscribe_empty_key_makes_num_keys_negative :
    read_key (List.replicate 40 0) = [] ∧
    subscribe_key_index_list [] session0.client_data.keys = 0 ∧
    (client_requests (kvs_key_exists_of [str "k"]) session0
        [.unsubscribe (List.replicate 40 0)]).map
      (fun s => (s.response.data, s.client_data.num_keys)) = some (str "40", -1) ∧
    (client_requests (kvs_key_exists_of [str "k"]) session0
        [.unsubscribe (List.replicate 40 0)]).map
      (fun s => add_key_to_subscribed_list (str "k") s.client_data.keys
        s.client_data.num_keys) = some none ∧
    (client_requests (kvs_key_exists_of [str "k"]) session0
        [.unsubscribe (List.replicate 40 0), .subscribe (key_field (str "k"))]).isNone
      = true := by
  refine ⟨?_, ?_, ?_, ?_, ?_⟩ <;> decide

/-- C29: a READ whose `kvs_read` fails decrements `read_show_active` twice.  On
a job whose `.out` descriptor refuses every write, with both counters at 0,
`kvs_read` returns 1 and after the command `read_show_active` is -1; the next
reader then enters with the counter at 0, so that a writer enters while that
reader is inside. -/
theorem failing_read_leaves_gate_counter_negative :
    (job_out_fails.read_show_active = 0 ∧ job_out_fails.write_delete_active = 0 ∧
      (kvs_read job_out_fails.kvs_table [str "a"] job_out_fails.fd_out).1 = 1) ∧
    (process_command job_out_fails (.read [str "a"])).map
      (fun s => (s.read_show_active, s.write_delete_active)) = some (-1, 0) ∧
    ((process_command job_out_fails (.read [str "a"])).bind
      (fun s => (write_delete_wait s).bind read_show_backup_wait)).map
      (fun s => (s.read_show_active, s.write_delete_active)) = some (0, 1) := by
  refine ⟨?_, ?_, ?_⟩ <;> decide

/-- C30: with two sessions that hold distinct keys, SUBSCRIBE is answered `31`
and the handle is not in `get_fds(key)`.  The first session (handle 5)
subscribes to eight keys of the bucket 6659; the second session (handle 8)
subscribes to `celc`, a ninth key of that bucket, which is in the KV table and
in no row of either slot: the answer is `31`, the slot holds `celc`, and
`get_fds(celc)` is the eight handles 5, without the handle 8, so that
`notify_clients(celc, v)` writes to no descriptor of the second session. -/
theorem subscribe_ok_without_handle_in_bucket :
    ((client_requests (kvs_key_exists_of colliding_keys) session0
        ((colliding_keys.take 8).map (fun k => Request.subscribe (key_field k)))).map
      (fun a => (a.response.data, a.client_data.subscribed,
          get_fds a.subscribed_keys (str "celc"))) =
      some (str "3131313131313131", colliding_keys.take 8, [5, 5, 5, 5, 5, 5, 5, 5])) ∧
    ((client_requests (kvs_key_exists_of colliding_keys) session0
        ((colliding_keys.take 8).map (fun k => Request.subscribe (key_field k)))).bind
      (fun a => (client_subscribe_key (kvs_key_exists_of colliding_keys)
          (session1 a.subscribed_keys) (str "celc")).map
        (fun b => (b.response.data, b.client_data.fds, b.client_data.subscribed,
          get_fds b.subscribed_keys (str "celc")))) =
      some (str "31", [6, 7, 8], [str "celc"], [5, 5, 5, 5, 5, 5, 5, 5])) ∧
    ((client_requests (kvs_key_exists_of colliding_keys) session0
        ((colliding_keys.take 8).map (fun k => Request.subscribe (key_field k)))).bind
      (fun a => (client_subscribe_key (kvs_key_exists_of colliding_keys)
          (session1 a.subscribed_keys) (str "celc")).map
        (fun b => (decide ((8 : Int) ∈ get_fds b.subscribed_keys (str "celc")),
          (notify_clients b.subscribed_keys (str "celc") (some (str "v"))).map Prod.fst))) =
      some (false, [5, 5, 5, 5, 5, 5, 5, 5])) ∧
    (colliding_keys.Nodup ∧ kvs_key_exists_of colliding_keys (str "celc") = 0) := by
  refine ⟨?_, ?_, ?_, ?_⟩ <;> decide

/-- Every path of `process_input` other than a READ whose `kvs_read` fails
leaves both counters of the gate as it found them. -/
theorem process_command_gate_balanced (s s1 : Job) (c : Command)
    (h : process_command s c = some s1)
    (hread : ∀ keys, c = .read keys → keys.length ≠ 0 →
      (kvs_read s.kvs_table keys s.fd_out).1 = 0) :
    s1.read_show_active = s.read_show_active ∧
    s1.write_delete_active = s.write_delete_active := by
  cases c with
  | write pairs =>
    simp only [process_command, read_show_backup_wait] at h
    split at h
    · cases h
    · next s2 h2 =>
      split at h2
      · cases h2
      · cases h2
        split at h
        · cases h
          exact ⟨rfl, by show s.write_delete_active + 1 - 1 = _; omega⟩
        · cases h
          exact ⟨rfl, by show s.write_delete_active + 1 - 1 = _; omega⟩
  | read keys =>
    have hr := hread keys rfl
    simp only [process_command, write_delete_wait] at h
    split at h
    · cases h
    · next s2 h2 =>
      split at h2
      · cases h2
      · cases h2
        split at h
        · cases h
          exact ⟨by show s.read_show_active + 1 - 1 = _; omega, rfl⟩
        · next hk =>
          have h0 := hr hk
          cases h
          simp only [read_show_finished]
          rw [if_neg (by simp only [ne_eq, not_not]; exact h0)]
          exact ⟨by show s.read_show_active + 1 - 1 = _; omega, rfl⟩
  | delete keys =>
    simp only [process_command, read_show_backup_wait] at h
    split at h
    · cases h
    · next s2 h2 =>
      split at h2
      · cases h2
      · cases h2
        split at h
        · cases h
          exact ⟨rfl, by show s.write_delete_active + 1 - 1 = _; omega⟩
        · cases h
          exact ⟨rfl, by show s.write_delete_active + 1 - 1 = _; omega⟩
  | «show» =>
    simp only [process_command, write_delete_wait] at h
    split at h
    · cases h
    · next s2 h2 =>
      split at h2
      · cases h2
      · cases h2
        split at h
        · cases h
        · cases h
          exact ⟨by show s.read_show_active + 1 - 1 = _; omega, rfl⟩
  | wait delay =>
    cases delay with
    | none =>
      simp only [process_command] at h
      cases h
      exact ⟨rfl, rfl⟩
    | some d =>
      simp only [process_command] at h
      split at h <;> cases h <;> exact ⟨rfl, rfl⟩
  | backup f n =>
    simp only [process_command, write_delete_wait] at h
    split at h
    · cases h
    · next s2 h2 =>
      split at h2
      · cases h2
      · cases h2
        simp only at h
        split at h
        · cases h
        · cases f with
          | true =>
            simp only [if_true, read_show_finished] at h
            cases h
            exact ⟨by show s.read_show_active + 1 - 1 = _; omega, rfl⟩
          | false =>
            simp only [Bool.false_eq_true, if_false, read_show_finished] at h
            cases h
            exact ⟨by show s.read_show_active + 1 - 1 = _; omega, rfl⟩
  | invalid =>
    simp only [process_command] at h
    cases h
    exact ⟨rfl, rfl⟩
  | help =>
    simp only [process_command] at h
    cases h
    exact ⟨rfl, rfl⟩
  | empty =>
    simp only [process_command] at h
    cases h
    exact ⟨rfl, rfl⟩
end KVS
